import Mathlib

/-!
# Shallow embedding of the hex-grid pathfinding library

Source files embedded: `src/lib.rs` (HexGrid, A* engine, heuristics),
`src/temp_search_grid.rs` (TempSearchGrid), `src/temp_node.rs` (TempNode),
`src/heap.rs` (CustomHeap).

Modelling conventions:

* `usize` values are `Nat`.  Arithmetic that Rust performs on `usize` in the
  release profile wraps modulo `2^64`; the only places where the sources can
  underflow (`y - 1`, `x - 1` in the neighbor enumeration, and the row-shift
  subtraction in `heuristic_even_q`) are modelled explicitly with `usize_sub`.
  Increments `x + 1`, `y + 1` are applied to in-bounds coordinates
  (`x < width ≤ 2^64 - 1`), where they cannot wrap, and are modelled exactly.
* `f64` values are modelled as exact rationals `ℚ`.  On the integer-valued
  quantities the code feeds them (coordinates far below `2^53`, exact
  reciprocals of passability weights) the `f64` operations performed by the
  code are exact, with one exception: after the `usize` underflow in
  `heuristic_even_q` the wrapped value `2^64 - 1` is rounded by the cast to
  `f64`.  The development only draws conclusions that are robust to that
  rounding (the wrapped result is astronomically larger than the intended
  one in both models).
* Rust `Result<T, String>` is `Except String T`.  A Rust panic
  (out-of-bounds `Vec` indexing, `unwrap` of `None`/`Err`, failed
  `try_into`) is `Option.none` in the corresponding `Option`-typed model.
* `TempNode.x`/`TempNode.y` always equal the node's position in the grid
  (`build_nodes` creates them that way and nothing ever changes them);
  the embedding addresses nodes by position and drops the two fields.
* The dense `Vec<Vec<TempNode>>` and the two `HashMap` caches are total
  functions from coordinates; `HashMap::insert` is function update, a
  missing key is `none`.  Out-of-bounds reads of the node array are
  guarded exactly where the Rust code's indexing would panic.
* Rust leaves the iteration order of `HashSet` and the order of equal-cost
  entries in `BinaryHeap` unspecified.  The model fixes a deterministic
  choice: set worklists pop their oldest element and append new ones,
  and the heap is a cost-sorted list where `push` inserts after existing
  entries of equal cost (`pop` returns a minimum-cost entry, which is the
  whole contract the engine relies on).
* The main A* loop, the backtrace and the border flood-fill are modelled
  with explicit fuel (`width * height + 1`); running out of fuel yields
  `none`.  The theorems below prove the fuel is sufficient, so `none` is
  never confused with a code outcome.
-/

/-- `usize::MAX + 1`. -/
def USIZE : Nat := 2 ^ 64

/-- Wrapping `usize` subtraction (release-profile `a - b`), for `a, b < USIZE`. -/
def usize_sub (a b : Nat) : Nat := if b ≤ a then a - b else USIZE - (b - a)

/-- Wrapping `usize` addition (release-profile `a + b`). -/
def usize_add (a b : Nat) : Nat := (a + b) % USIZE

/-- `temp_node.rs`: per-cell state.  The `x`, `y` fields (always equal to the
node's grid position) are represented by the position itself. -/
structure TempNode where
  passable : Bool
  passability : ℚ
  g : ℚ
  h : Option ℚ
  f : ℚ
  opened : Option Bool
  closed : Option Bool
  parent : Option (Nat × Nat)
deriving Repr, DecidableEq

/-- `TempNode::new` (transient fields at their unset sentinels). -/
def TempNode.new (passable : Bool) (passability : ℚ) : TempNode :=
  { passable := passable, passability := passability, g := -1, h := none,
    f := -1, opened := none, closed := none, parent := none }

/-- `TempNode::reset`. -/
def TempNode.reset (n : TempNode) : TempNode :=
  { n with g := -1, h := none, f := -1, opened := none, closed := none, parent := none }

/-- `temp_search_grid.rs`: the grid. -/
structure TempSearchGrid where
  width : Nat
  height : Nat
  odd_increment : Nat
  nodes : Nat × Nat → TempNode
  neighbor_node_cache : Nat × Nat → Option (List (Nat × Nat))
  neighbor_passable_nodes_cache : Nat × Nat → Option (List (Nat × Nat))

/-- `TempSearchGrid::new` followed by `build_nodes`: every node starts
passable with passability 1, both caches empty. -/
def TempSearchGrid.new (width height odd_increment : Nat) : TempSearchGrid :=
  { width := width, height := height, odd_increment := odd_increment,
    nodes := fun _ => TempNode.new true 1,
    neighbor_node_cache := fun _ => none,
    neighbor_passable_nodes_cache := fun _ => none }

/-- `is_node_inside`. -/
def TempSearchGrid.is_node_inside (g : TempSearchGrid) (x y : Nat) : Bool :=
  decide (x < g.width) && decide (y < g.height)

/-- `get_node_at_point`; `none` models the out-of-bounds indexing panic. -/
def TempSearchGrid.get_node_at_point (g : TempSearchGrid) (p : Nat × Nat) : Option TempNode :=
  if p.1 < g.width ∧ p.2 < g.height then some (g.nodes p) else none

/-- `get_node_g_at_point`; `none` models the out-of-bounds indexing panic. -/
def TempSearchGrid.get_node_g_at_point (g : TempSearchGrid) (p : Nat × Nat) : Option ℚ :=
  if p.1 < g.width ∧ p.2 < g.height then some ((g.nodes p).g) else none

/-- `is_node_passable`. -/
def TempSearchGrid.is_node_passable (g : TempSearchGrid) (x y : Nat) : Bool :=
  if g.is_node_inside x y then (g.nodes (x, y)).passable else false

/-- `get_neighbor_nodes`, as the list of positions of the returned nodes
(the Rust code pushes each candidate under its own bounds check, in this
exact order; that is the same list as filtering the ordered candidate
list by the bounds check). -/
def TempSearchGrid.get_neighbor_nodes (g : TempSearchGrid) (x y : Nat) : List (Nat × Nat) :=
  ([(x, usize_sub y 1), (x, y + 1)] ++
    (if (x + g.odd_increment) % 2 = 0 then
      [(x + 1, usize_sub y 1), (usize_sub x 1, usize_sub y 1), (x + 1, y), (usize_sub x 1, y)]
    else
      [(x + 1, y), (x + 1, y + 1), (usize_sub x 1, y + 1), (usize_sub x 1, y)])).filter
    (fun p => g.is_node_inside p.1 p.2)

/-- `get_neighbors_passable_nodes`, as the list of positions of the returned
nodes (same candidate order as `get_neighbor_nodes`, guarded by
`is_node_passable` instead of `is_node_inside`). -/
def TempSearchGrid.get_neighbors_passable_nodes (g : TempSearchGrid) (x y : Nat) : List (Nat × Nat) :=
  ([(x, usize_sub y 1), (x, y + 1)] ++
    (if (x + g.odd_increment) % 2 = 0 then
      [(x + 1, usize_sub y 1), (usize_sub x 1, usize_sub y 1), (x + 1, y), (usize_sub x 1, y)]
    else
      [(x + 1, y), (x + 1, y + 1), (usize_sub x 1, y + 1), (usize_sub x 1, y)])).filter
    (fun p => g.is_node_passable p.1 p.2)

/-- `compute_neighbor_nodes_cache`: the loop inserts, for every in-bounds
cell, the positions of its neighbors and of its passable neighbors.  The
neighbor functions read only `nodes` (never the caches), so the iteration
is order-independent and equals this pointwise override.  The Rust
function always returns `Ok(())`. -/
def TempSearchGrid.compute_neighbor_nodes_cache (g : TempSearchGrid) : TempSearchGrid :=
  { g with
    neighbor_node_cache := fun p =>
      if p.1 < g.width ∧ p.2 < g.height then some (g.get_neighbor_nodes p.1 p.2)
      else g.neighbor_node_cache p,
    neighbor_passable_nodes_cache := fun p =>
      if p.1 < g.width ∧ p.2 < g.height then some (g.get_neighbors_passable_nodes p.1 p.2)
      else g.neighbor_passable_nodes_cache p }

/-- `recheck_node_passable`: recompute the passable-neighbor cache entry of
`(x, y)` and of each of its neighbors.  `none` models the panic of
`get_node_at_point` on an out-of-bounds argument.  The redundant
`filter(passable)` the Rust code applies to the neighbors' lists is kept.
The Rust function always returns `Ok(())`. -/
def TempSearchGrid.recheck_node_passable (g : TempSearchGrid) (x y : Nat) :
    Option TempSearchGrid :=
  if x < g.width ∧ y < g.height then
    let neighbors := g.get_neighbor_nodes x y
    let g1 : TempSearchGrid := { g with neighbor_passable_nodes_cache := fun p =>
      (if p = (x, y) then some (g.get_neighbors_passable_nodes x y)
       else g.neighbor_passable_nodes_cache p) }
    some (neighbors.foldl (fun acc n =>
      { acc with neighbor_passable_nodes_cache := fun p =>
        (if p = n then
          some ((g.get_neighbors_passable_nodes n.1 n.2).filter
            (fun m => g.is_node_passable m.1 m.2))
         else acc.neighbor_passable_nodes_cache p) }) g1)
  else none

/-- `set_node_passable`: the pair is (grid after the call, returned `Result`). -/
def TempSearchGrid.set_node_passable (g : TempSearchGrid) (x y : Nat) (passable : Bool) :
    TempSearchGrid × Except String Unit :=
  if x < g.width ∧ y < g.height then
    ({ g with nodes := fun p =>
        if p = (x, y) then { g.nodes p with passable := passable } else g.nodes p }, .ok ())
  else
    (g, .error ("Invalid node coordinates: (" ++ toString x ++ ", " ++ toString y ++ ")"))

/-- `set_node_passability`. -/
def TempSearchGrid.set_node_passability (g : TempSearchGrid) (x y : Nat) (passability : ℚ) :
    TempSearchGrid × Except String Unit :=
  if x < g.width ∧ y < g.height then
    ({ g with nodes := fun p =>
        if p = (x, y) then { g.nodes p with passability := passability } else g.nodes p }, .ok ())
  else
    (g, .error ("Invalid node coordinates: (" ++ toString x ++ ", " ++ toString y ++ ")"))

/-- `update_node`: silently does nothing when the coordinate is out of
bounds (the Rust body is two `if let Some`s). -/
def TempSearchGrid.update_node (g : TempSearchGrid) (x y : Nat) (fn : TempNode → TempNode) :
    TempSearchGrid :=
  if x < g.width ∧ y < g.height then
    { g with nodes := fun p => if p = (x, y) then fn (g.nodes p) else g.nodes p }
  else g

/-- `set_node_closed`, with the `Result` the engine discards. -/
def TempSearchGrid.set_node_closed (g : TempSearchGrid) (x y : Nat) (v : Bool) :
    TempSearchGrid × Except String Unit :=
  if x < g.width ∧ y < g.height then
    (g.update_node x y (fun n => { n with closed := some v }), .ok ())
  else
    (g, .error ("Invalid node coordinates: (" ++ toString x ++ ", " ++ toString y ++ ")"))

/-- `set_node_h`, with the `Result` the engine discards. -/
def TempSearchGrid.set_node_h (g : TempSearchGrid) (x y : Nat) (v : ℚ) :
    TempSearchGrid × Except String Unit :=
  if x < g.width ∧ y < g.height then
    (g.update_node x y (fun n => { n with h := some v }), .ok ())
  else
    (g, .error ("Invalid node coordinates: (" ++ toString x ++ ", " ++ toString y ++ ")"))

/-- `reset`: clear the transient fields of every node of the dense array. -/
def TempSearchGrid.reset (g : TempSearchGrid) : TempSearchGrid :=
  { g with nodes := fun p =>
      if p.1 < g.width ∧ p.2 < g.height then (g.nodes p).reset else g.nodes p }

/-- `get_neighbors_passable_nodes_from_cache`: `Err` on a missing cache
entry (an explicit `Result` in Rust); `none` models the panic of the inner
`get_node_at_point` if a cached coordinate were out of bounds.  Each
returned node is paired with its position (the Rust nodes carry `x`, `y`). -/
def TempSearchGrid.get_neighbors_passable_nodes_from_cache (g : TempSearchGrid) (x y : Nat) :
    Option (Except String (List ((Nat × Nat) × TempNode))) :=
  match g.neighbor_passable_nodes_cache (x, y) with
  | none => some (.error ("Neighbor passable nodes cache is empty for (" ++
      toString x ++ ", " ++ toString y ++ ")"))
  | some coords =>
    (coords.mapM (fun c => (g.get_node_at_point c).map (fun nd => (c, nd)))).map
      (fun l => .ok l)

/-- Insert into a `HashSet` modelled as a duplicate-free list (append when
absent). -/
def insert_set (l : List (Nat × Nat)) (a : Nat × Nat) : List (Nat × Nat) :=
  if a ∈ l then l else l ++ [a]

/-- The `while` loop of `get_border_passable_neighbors`, with explicit fuel.
State: accumulated passable frontier (`open_neighbors`), worklist
(`closed_neighbors`, oldest first), processed set (`done_nodes`).
`some (.error _)` is the cache-miss `Err` the Rust code propagates with
`?`; the inner `none` models the panic of indexing `self.nodes` at an
out-of-bounds cached coordinate. -/
def border_flood (g : TempSearchGrid) :
    Nat → List (Nat × Nat) → List (Nat × Nat) → List (Nat × Nat) →
    Option (Except String (List (Nat × Nat)))
  | 0, _, _, _ => none
  | fuel + 1, open_ns, closed_ns, done_ns =>
    match closed_ns with
    | [] => some (.ok open_ns)
    | current :: rest =>
      match g.neighbor_node_cache current with
      | none => some (.error ("Cache empty for (" ++ toString current.1 ++ ", " ++
          toString current.2 ++ ")"))
      | some neighbors =>
        match neighbors.foldlM (fun (st : List (Nat × Nat) × List (Nat × Nat)) nb =>
            if nb.1 < g.width ∧ nb.2 < g.height then
              if (g.nodes nb).passable then some (insert_set st.1 nb, st.2)
              else if nb ∈ done_ns then some st
              else some (st.1, insert_set st.2 nb)
            else none) (open_ns, rest) with
        | none => none
        | some st2 => border_flood g fuel st2.1 st2.2 (insert_set done_ns current)

/-- `get_border_passable_neighbors`. -/
def TempSearchGrid.get_border_passable_neighbors (g : TempSearchGrid) (tx ty : Nat) :
    Option (Except String (List (Nat × Nat))) :=
  border_flood g (g.width * g.height + 1) [] [(tx, ty)] []

/-- `lib.rs` `heuristic_odd_q`.  All `f64` arithmetic here is exact on the
claims' domain (integer inputs below `2^53`), so it is modelled over `ℚ`:
`x % 2.0` on the nonnegative integer-valued `x` is `x mod 2`, and
`end_x % 2.0` on the `i32`-derived `end_x` is the truncating remainder. -/
def heuristic_odd_q (x y : Nat) (end_x end_y : Int) : ℚ :=
  let xs : ℚ := (x : ℚ)
  let ys : ℚ := (y : ℚ) - ((x : ℚ) - ((x % 2 : Nat) : ℚ)) / 2
  let exs : ℚ := (end_x : ℚ)
  let eys : ℚ := (end_y : ℚ) - ((end_x : ℚ) - ((Int.tmod end_x 2 : Int) : ℚ)) / 2
  (|xs - exs| + |xs + ys - exs - eys| + |ys - eys|) / 2

/-- `lib.rs` `heuristic_even_q`.  The row shift of `(x, y)` is computed in
`usize`: `y - ((x + (x & 1)) / 2)` wraps modulo `2^64` when the shift
exceeds `y` (the Rust cast of the wrapped value to `f64` additionally
rounds it; see the module comment).  The `end` pair is shifted in `i32`
(`end_x & 1` is `end_x.emod 2`, the division truncates). -/
def heuristic_even_q (x y : Nat) (end_x end_y : Int) : ℚ :=
  let yy : Nat := usize_sub y (usize_add x (x % 2) / 2)
  let end_yy : Int := end_y - (Int.tdiv (end_x + Int.emod end_x 2) 2)
  (|(x : ℚ) - (end_x : ℚ)| + |(x : ℚ) + (yy : ℚ) - (end_x : ℚ) - (end_yy : ℚ)| +
    |(yy : ℚ) - (end_yy : ℚ)|) / 2

/-- `heap.rs` `CustomHeap::push`: the heap is modelled as a cost-sorted
list; insertion goes after existing entries of equal cost.  (`pop` must
return a minimum-cost entry; the order among equal costs is unspecified in
the source — `BinaryHeap` structural order — and fixed here.) -/
def heap_push : List (ℚ × Nat × Nat) → ℚ × Nat × Nat → List (ℚ × Nat × Nat)
  | [], e => [e]
  | x :: xs, e => if e.1 < x.1 then e :: x :: xs else x :: heap_push xs e

/-- `CustomHeap::pop`: drop the cost, return the coordinates. -/
def heap_pop : List (ℚ × Nat × Nat) → Option ((Nat × Nat) × List (ℚ × Nat × Nat))
  | [] => none
  | e :: xs => some ((e.2.1, e.2.2), xs)

/-- `CustomHeap::update`: `retain` every entry at a different coordinate,
then `push`. -/
def heap_update (q : List (ℚ × Nat × Nat)) (e : ℚ × Nat × Nat) : List (ℚ × Nat × Nat) :=
  heap_push (q.filter (fun x => !(decide (x.2.1 = e.2.1) && decide (x.2.2 = e.2.2)))) e

/-- The errors of `lib.rs` path queries, with the data the Rust error
strings carry: `"StartHex is not passable"` and
`"Path not found from [sx, sy] to [ex, ey]"`. -/
inductive PathError where
  | startNotPassable : PathError
  | pathNotFound : Int × Int → Int × Int → PathError
deriving Repr, DecidableEq

/-- `lib.rs`: heuristic selection in `calculate_path_by_algorithm`
(`heuristic_even_q` iff `odd_increment != 0`). -/
def heuristic_for (g : TempSearchGrid) : Nat → Nat → Int → Int → ℚ :=
  if g.odd_increment ≠ 0 then heuristic_even_q else heuristic_odd_q

/-- One iteration of the `for neighbor in neighbors` body of
`calculate_path_by_algorithm`, acting on (grid, open list).  `nb` is the
snapshot of the neighbor taken by `get_neighbors_passable_nodes_from_cache`
before the loop started, paired with its position.  `none` models the
`unwrap` panic on a missing `h` in the decrease-key branch. -/
def process_neighbor (x y : Nat) (current_g : ℚ) (hfun : Nat → Nat → Int → Int → ℚ)
    (end_x end_y : Int) (st : TempSearchGrid × List (ℚ × Nat × Nat))
    (nb : (Nat × Nat) × TempNode) : Option (TempSearchGrid × List (ℚ × Nat × Nat)) :=
  let nd := nb.2
  if nd.closed.getD false then some st
  else
    let ng := current_g + 1 / nd.passability
    if !(nd.opened.getD false) then
      let nh := nd.h.getD (hfun nb.1.1 nb.1.2 end_x end_y)
      let g1 := if nd.h.isNone then (st.1.set_node_h nb.1.1 nb.1.2 nh).1 else st.1
      let nf := ng + nh
      let g2 := g1.update_node nb.1.1 nb.1.2 (fun n =>
        { n with f := nf, g := ng, parent := some (x, y), opened := some true })
      some (g2, heap_push st.2 (nf, nb.1.1, nb.1.2))
    else if ng < nd.g then
      match nd.h with
      | none => none
      | some nh =>
        let nf := ng + nh
        let g2 := st.1.update_node nb.1.1 nb.1.2 (fun n =>
          { n with f := nf, g := ng, parent := some (x, y) })
        some (g2, heap_update st.2 (nf, nb.1.1, nb.1.2))
    else some st

/-- The backtrace `while let Some(n) = current` loop: follow `parent` links,
prepending (the Rust code appends and reverses at the end, which builds the
same list).  `none` models either the panic of `get_node_at_point` on an
out-of-bounds parent or, at fuel 0, a diverging parent cycle (proved absent
below). -/
def backtrace_aux (g : TempSearchGrid) :
    Nat → Option (Nat × Nat) → List (Nat × Nat) → Option (List (Nat × Nat))
  | _, none, acc => some acc
  | 0, some _, _ => none
  | fuel + 1, some n, acc =>
    match g.get_node_at_point n with
    | none => none
    | some nd => backtrace_aux g fuel nd.parent (n :: acc)

/-- `HexGrid::backtrace`, from the node at position `p`. -/
def backtrace (g : TempSearchGrid) (p : Nat × Nat) : Option (List (Nat × Nat)) :=
  match g.get_node_at_point p with
  | none => none
  | some nd => backtrace_aux g (g.width * g.height + 1) nd.parent [p]

/-- The `while !open_list.is_empty()` loop of `calculate_path_by_algorithm`,
with explicit fuel.  Per iteration: pop the cheapest entry, read its `g`
(panic if out of bounds), mark it closed, return the backtrace if it is
terminal, otherwise process its cached passable neighbors (the engine
`unwrap`s the cache `Result`, so a cache miss is a panic/`none`). -/
def astar_loop (hfun : Nat → Nat → Int → Int → ℚ) (terminal : List (Nat × Nat))
    (start_point end_point : Int × Int) :
    Nat → TempSearchGrid → List (ℚ × Nat × Nat) →
    Option (TempSearchGrid × Except PathError (List (Nat × Nat)))
  | 0, _, _ => none
  | fuel + 1, g, q =>
    match heap_pop q with
    | none => some (g, .error (.pathNotFound start_point end_point))
    | some (p, q') =>
      match g.get_node_g_at_point p with
      | none => none
      | some current_g =>
        let g1 := (g.set_node_closed p.1 p.2 true).1
        if p ∈ terminal then
          match backtrace g1 p with
          | none => none
          | some path => some (g1, .ok path)
        else
          match g1.get_neighbors_passable_nodes_from_cache p.1 p.2 with
          | none => none
          | some (.error _) => none
          | some (.ok nbs) =>
            match nbs.foldlM (process_neighbor p.1 p.2 current_g hfun end_point.1 end_point.2)
                (g1, q') with
            | none => none
            | some st2 => astar_loop hfun terminal start_point end_point fuel st2.1 st2.2

/-- `calculate_path_by_algorithm`.  `terminal_nodes` is the coordinate set
the Rust code builds from the terminal nodes' `x`, `y`.  The `try_into`
on a negative start coordinate panics (`none`).  Fuel `width*height + 1`
is sufficient (proved below): every iteration closes a previously
unclosed in-bounds node. -/
def calculate_path_by_algorithm (g : TempSearchGrid) (start_point end_point : Int × Int)
    (terminal_nodes : List (Nat × Nat)) :
    Option (TempSearchGrid × Except PathError (List (Nat × Nat))) :=
  if 0 ≤ start_point.1 ∧ 0 ≤ start_point.2 then
    let sx := start_point.1.toNat
    let sy := start_point.2.toNat
    let g1 := g.update_node sx sy (fun n => { n with f := 0, g := 0, opened := some true })
    let q1 := heap_push [] (0, sx, sy)
    astar_loop (heuristic_for g) terminal_nodes start_point end_point
      (g.width * g.height + 1) g1 q1
  else none

/-- `build_path_to_passable_hex`, at the node-coordinate level (the hex-id
and min/max coordinate translation is the excluded adapter layer; the
`Hex.passable` flag consulted by the Rust code always equals the node's
`passable` flag, both set from `passability > 0` at construction).
Order as in the source: validate the start's passability first, then
reset, then fetch the target node (panic when out of bounds), then run
the engine with the target itself as the only terminal coordinate. -/
def build_path_to_passable_hex (g : TempSearchGrid) (s t : Nat × Nat) :
    Option (TempSearchGrid × Except PathError (List (Nat × Nat))) :=
  match g.get_node_at_point s with
  | none => none
  | some sn =>
    if !sn.passable then some (g, .error .startNotPassable)
    else
      let g1 := g.reset
      match g1.get_node_at_point t with
      | none => none
      | some _ =>
        calculate_path_by_algorithm g1 ((s.1 : Int), (s.2 : Int)) ((t.1 : Int), (t.2 : Int)) [t]

/-- `build_path_to_impassable_border_hex`: despite the name, its terminal
set is the single target cell (`vec![*target_node]`), exactly as in
`build_path_to_passable_hex`; only the validation/reset order and the
engine call are shared logic. -/
def build_path_to_impassable_border_hex (g : TempSearchGrid) (s t : Nat × Nat) :
    Option (TempSearchGrid × Except PathError (List (Nat × Nat))) :=
  match g.get_node_at_point s with
  | none => none
  | some sn =>
    if !sn.passable then some (g, .error .startNotPassable)
    else
      let g1 := g.reset
      match g1.get_node_at_point t with
      | none => none
      | some _ =>
        calculate_path_by_algorithm g1 ((s.1 : Int), (s.2 : Int)) ((t.1 : Int), (t.2 : Int)) [t]

/-- `build_path_towards_impassable_hex`: validate, reset, compute the
passable border of the impassable region containing the target (the code
`unwrap`s the `Result`, so its `Err` is a panic), fetch each border node
(panic when out of bounds), and run the engine with the border as the
terminal set. -/
def build_path_towards_impassable_hex (g : TempSearchGrid) (s t : Nat × Nat) :
    Option (TempSearchGrid × Except PathError (List (Nat × Nat))) :=
  match g.get_node_at_point s with
  | none => none
  | some sn =>
    if !sn.passable then some (g, .error .startNotPassable)
    else
      let g1 := g.reset
      match g1.get_border_passable_neighbors t.1 t.2 with
      | none => none
      | some (.error _) => none
      | some (.ok terminal_points) =>
        match terminal_points.mapM (fun c => g1.get_node_at_point c) with
        | none => none
        | some _ =>
          calculate_path_by_algorithm g1 ((s.1 : Int), (s.2 : Int)) ((t.1 : Int), (t.2 : Int))
            terminal_points

/-! ## Derived notions used by the specification statements -/

/-- Decidable equality for `Except` results. -/
instance {e a : Type} [DecidableEq e] [DecidableEq a] : DecidableEq (Except e a) := fun x y =>
  match x, y with
  | .ok u, .ok v => if h : u = v then .isTrue (by rw [h]) else .isFalse (by simp [h])
  | .error u, .error v => if h : u = v then .isTrue (by rw [h]) else .isFalse (by simp [h])
  | .ok _, .error _ => .isFalse (by simp)
  | .error _, .ok _ => .isFalse (by simp)

/-- Build a grid the way `HexGrid::new` does from per-cell passability
weights: a cell is passable iff its weight is positive, and both neighbor
caches are computed once at the end of construction. -/
def mk_grid (w h inc : Nat) (pb : Nat × Nat → ℚ) : TempSearchGrid :=
  TempSearchGrid.compute_neighbor_nodes_cache
    { TempSearchGrid.new w h inc with
      nodes := fun p => TempNode.new (decide (0 < pb p)) (pb p) }

/-- The coordinate is inside the grid extent. -/
def in_bounds (G : TempSearchGrid) (p : Nat × Nat) : Prop :=
  p.1 < G.width ∧ p.2 < G.height

instance (G : TempSearchGrid) (p : Nat × Nat) : Decidable (in_bounds G p) :=
  inferInstanceAs (Decidable (_ ∧ _))

/-- The freshly computed passable-neighbor list of a cell. -/
def pass_list (G : TempSearchGrid) (p : Nat × Nat) : List (Nat × Nat) :=
  G.get_neighbors_passable_nodes p.1 p.2

/-- The cost of entering a cell: the inverse of its passability. -/
def step_cost (G : TempSearchGrid) (p : Nat × Nat) : ℚ := 1 / (G.nodes p).passability

/-- `valid_steps G u l`: starting at `u`, every successive coordinate of `l`
is a member of the passable-neighbor list of its predecessor. -/
def valid_steps (G : TempSearchGrid) : Nat × Nat → List (Nat × Nat) → Bool
  | _, [] => true
  | u, v :: rest => decide (v ∈ pass_list G u) && valid_steps G v rest

/-- Total cost of the list of entered cells (the tail of a path). -/
def path_cost (G : TempSearchGrid) : List (Nat × Nat) → ℚ
  | [] => 0
  | v :: rest => step_cost G v + path_cost G rest

/-- `l` is a path through passable cells from `s` to `t` (the spec's notion:
first element `s`, last element `t`, consecutive elements cached-passable
neighbors). -/
def is_path (G : TempSearchGrid) (l : List (Nat × Nat)) (s t : Nat × Nat) : Prop :=
  l.head? = some s ∧ valid_steps G s l.tail = true ∧ l.getLast? = some t

/-- `t` is reachable from `s` through passable cells. -/
def reachable (G : TempSearchGrid) (s t : Nat × Nat) : Prop :=
  ∃ l, is_path G l s t

/-- The connected impassable region containing `t` (inductively: `t` itself,
and every impassable neighbor of a region member). -/
inductive InRegion (G : TempSearchGrid) (t : Nat × Nat) : Nat × Nat → Prop where
  | base : InRegion G t t
  | step {c n : Nat × Nat} : InRegion G t c → n ∈ G.get_neighbor_nodes c.1 c.2 →
      (G.nodes n).passable = false → InRegion G t n

/-- The all-neighbor cache holds, for every in-bounds cell, exactly what
`get_neighbor_nodes` returns on the current grid. -/
def all_cache_computed (G : TempSearchGrid) : Prop :=
  ∀ x < G.width, ∀ y < G.height,
    G.neighbor_node_cache (x, y) = some (G.get_neighbor_nodes x y)

/-- The passable-neighbor cache holds, for every in-bounds cell, exactly
what `get_neighbors_passable_nodes` returns on the current grid. -/
def passable_cache_computed (G : TempSearchGrid) : Prop :=
  ∀ x < G.width, ∀ y < G.height,
    G.neighbor_passable_nodes_cache (x, y) = some (G.get_neighbors_passable_nodes x y)

/-- Every in-bounds passable cell has positive passability (the Grid
precondition stated by the spec and established by `HexGrid::new`). -/
def pos_passability (G : TempSearchGrid) : Prop :=
  ∀ x < G.width, ∀ y < G.height,
    (G.nodes (x, y)).passable = true → 0 < (G.nodes (x, y)).passability

/-- Every in-bounds passable cell has passability at most 1, i.e. every
step cost is at least 1. -/
def unit_bounded_passability (G : TempSearchGrid) : Prop :=
  ∀ x < G.width, ∀ y < G.height,
    (G.nodes (x, y)).passable = true → (G.nodes (x, y)).passability ≤ 1

/-- The grid dimensions fit in `usize`. -/
def usize_bounded (G : TempSearchGrid) : Prop :=
  G.width < USIZE ∧ G.height < USIZE

/-- All transient node fields are at their unset sentinels (the state
`reset` establishes). -/
def transient_clear (G : TempSearchGrid) : Prop :=
  ∀ p, in_bounds G p → (G.nodes p).g = -1 ∧ (G.nodes p).h = none ∧
    (G.nodes p).opened = none ∧ (G.nodes p).closed = none ∧ (G.nodes p).parent = none

/-! ## Specification-side definitions (from the spec's words, for
refinement comparisons) -/

/-- Modelled from the spec: the candidate neighbor offsets of a cell in
signed coordinates — north/south plus the four parity-dependent
neighbors — before discarding out-of-bounds candidates. -/
def spec_neighbor_candidates (parity : Nat) (x y : Int) : List (Int × Int) :=
  [(x, y - 1), (x, y + 1)] ++
  (if (x + parity) % 2 = 0 then
    [(x + 1, y - 1), (x - 1, y - 1), (x + 1, y), (x - 1, y)]
  else
    [(x + 1, y), (x + 1, y + 1), (x - 1, y + 1), (x - 1, y)])

/-- Modelled from the spec: the odd-q heuristic computed in exact signed
arithmetic — shift each `y` by the horizontal-dependent row shift
`(x - x mod 2) / 2`, then take half the hex Manhattan distance. -/
def spec_heuristic_odd (x y end_x end_y : Int) : ℚ :=
  let ys : ℚ := (y : ℚ) - (((x - Int.tmod x 2 : Int) : ℚ)) / 2
  let eys : ℚ := (end_y : ℚ) - (((end_x - Int.tmod end_x 2 : Int) : ℚ)) / 2
  (|(x : ℚ) - (end_x : ℚ)| + |(x : ℚ) + ys - (end_x : ℚ) - eys| + |ys - eys|) / 2

/-- Modelled from the spec: the even-q heuristic computed in exact signed
arithmetic — shift each `y` by the row shift `(x + (x mod 2)) / 2`, then
take half the hex Manhattan distance. -/
def spec_heuristic_even (x y end_x end_y : Int) : ℚ :=
  let ys : Int := y - Int.tdiv (x + Int.emod x 2) 2
  let eys : Int := end_y - Int.tdiv (end_x + Int.emod end_x 2) 2
  (|(x : ℚ) - (end_x : ℚ)| + |((x + ys : Int) : ℚ) - ((end_x + eys : Int) : ℚ)| +
    |(ys : ℚ) - (eys : ℚ)|) / 2

/-! ## A* loop invariants -/

/-- The heuristic key contribution of a node in the open list: the start
is seeded with key `0 = g + 0`; every other entry's key is its `g` plus
its memoized heuristic value. -/
def hval (s : Nat × Nat) (hf : Nat → Nat → Int → Int → ℚ) (e1 e2 : Int)
    (p : Nat × Nat) : ℚ :=
  if p = s then 0 else hf p.1 p.2 e1 e2

/-- The in-bounds cells of the grid. -/
def cell_finset (G : TempSearchGrid) : Finset (Nat × Nat) :=
  Finset.range G.width ×ˢ Finset.range G.height

/-- Number of in-bounds cells not yet closed (the loop's termination
measure). -/
def unclosed_card (G g : TempSearchGrid) : Nat :=
  ((cell_finset G).filter (fun p => ¬ (g.nodes p).closed = some true)).card

/-- The core invariant of `astar_loop`, relative to the static context:
base grid `G` (reset state before seeding), start `s`, heuristic `hf`,
end point `(e1, e2)`.  It holds for the current state (grid `g`, open
list `q`), minus the closed-frontier property that is temporarily broken
while the neighbors of a freshly closed node are being processed. -/
structure AStarCore (G : TempSearchGrid) (s : Nat × Nat) (hf : Nat → Nat → Int → Int → ℚ)
    (e1 e2 : Int) (g : TempSearchGrid) (q : List (ℚ × Nat × Nat)) : Prop where
  static_w : g.width = G.width
  static_h : g.height = G.height
  static_pass : ∀ p, (g.nodes p).passable = (G.nodes p).passable
  static_pb : ∀ p, (g.nodes p).passability = (G.nodes p).passability
  static_cache : g.neighbor_passable_nodes_cache = G.neighbor_passable_nodes_cache
  sorted : q.Pairwise (fun a b => a.1 ≤ b.1)
  q_nodup : (q.map (fun e => e.2)).Nodup
  q_mem : ∀ e ∈ q, in_bounds G e.2 ∧ (g.nodes e.2).opened = some true ∧
    (g.nodes e.2).closed ≠ some true ∧ e.1 = (g.nodes e.2).g + hval s hf e1 e2 e.2
  open_unclosed_in_q : ∀ p, in_bounds G p → (g.nodes p).opened = some true →
    (g.nodes p).closed ≠ some true → ∃ e ∈ q, e.2 = p
  closed_opened : ∀ p, in_bounds G p → (g.nodes p).closed = some true →
    (g.nodes p).opened = some true
  opened_passable : ∀ p, in_bounds G p → (g.nodes p).opened = some true →
    (G.nodes p).passable = true
  opened_g_nonneg : ∀ p, in_bounds G p → (g.nodes p).opened = some true →
    0 ≤ (g.nodes p).g
  opened_h : ∀ p, in_bounds G p → (g.nodes p).opened = some true → p ≠ s →
    (g.nodes p).h = some (hf p.1 p.2 e1 e2)
  unopened_pristine : ∀ p, in_bounds G p → (g.nodes p).opened ≠ some true →
    (g.nodes p).h = none ∧ (g.nodes p).parent = none ∧ (g.nodes p).closed ≠ some true
  start_state : (g.nodes s).parent = none ∧ (g.nodes s).g = 0 ∧
    (g.nodes s).opened = some true
  parent_rel : ∀ p, in_bounds G p → ∀ c, (g.nodes p).parent = some c →
    in_bounds G c ∧ (g.nodes c).closed = some true ∧ p ∈ pass_list G c ∧
    (g.nodes p).g = (g.nodes c).g + step_cost G p ∧ p ≠ s ∧
    (g.nodes p).opened = some true
  opened_parent : ∀ p, in_bounds G p → (g.nodes p).opened = some true → p ≠ s →
    (g.nodes p).parent ≠ none
  opened_g_path : ∀ p, in_bounds G p → (g.nodes p).opened = some true →
    ∃ l, is_path G l s p ∧ path_cost G l.tail = (g.nodes p).g

/-- The full loop invariant: the core plus the frontier property (every
passable neighbor of a closed node has been opened). -/
structure AStarInv (G : TempSearchGrid) (s : Nat × Nat) (hf : Nat → Nat → Int → Int → ℚ)
    (e1 e2 : Int) (g : TempSearchGrid) (q : List (ℚ × Nat × Nat)) : Prop where
  core : AStarCore G s hf e1 e2 g q
  closed_frontier : ∀ u, in_bounds G u → (g.nodes u).closed = some true →
    ∀ v ∈ pass_list G u, (g.nodes v).opened = some true

/-- The additional invariant needed for the optimality claim; preserved
when the heuristic is consistent for the cost function. -/
structure AStarOptInv (G : TempSearchGrid) (s : Nat × Nat) (hf : Nat → Nat → Int → Int → ℚ)
    (e1 e2 : Int) (g : TempSearchGrid) (q : List (ℚ × Nat × Nat)) : Prop where
  closed_opt : ∀ p, in_bounds G p → (g.nodes p).closed = some true →
    ∀ l, is_path G l s p → (g.nodes p).g ≤ path_cost G l.tail
  frontier_bound : ∀ u, in_bounds G u → (g.nodes u).closed = some true →
    ∀ v ∈ pass_list G u, (g.nodes v).g ≤ (g.nodes u).g + step_cost G v
  closed_key_le : ∀ v, in_bounds G v → (g.nodes v).closed = some true →
    ∀ e ∈ q, (g.nodes v).g + hval s hf e1 e2 v ≤ e.1

/-- A heuristic that is admissible for the engine's cost function:
nonnegative everywhere and varying by at most the entered cell's step cost
across every passable edge (consistency).  `heuristic_odd_q` satisfies it
when every step cost is at least 1. -/
structure HeurOK (G : TempSearchGrid) (hf : Nat → Nat → Int → Int → ℚ)
    (e1 e2 : Int) : Prop where
  nonneg : ∀ a, in_bounds G a → 0 ≤ hf a.1 a.2 e1 e2
  cons : ∀ a, in_bounds G a → ∀ b ∈ pass_list G a,
    hf a.1 a.2 e1 e2 ≤ step_cost G b + hf b.1 b.2 e1 e2

/-- The optimality bookkeeping carried through the neighbor fold of one
loop iteration that popped `p` with key `cg + hval p`. -/
structure OptFold (G : TempSearchGrid) (s : Nat × Nat) (hf : Nat → Nat → Int → Int → ℚ)
    (e1 e2 : Int) (p : Nat × Nat) (cg : ℚ) (g2 : TempSearchGrid)
    (q2 : List (ℚ × Nat × Nat)) : Prop where
  cg_nonneg : 0 ≤ cg
  closed_le_key : ∀ v, in_bounds G v → (g2.nodes v).closed = some true →
    (g2.nodes v).g + hval s hf e1 e2 v ≤ cg + hval s hf e1 e2 p
  queue_key : ∀ v, in_bounds G v → (g2.nodes v).closed = some true →
    ∀ e ∈ q2, (g2.nodes v).g + hval s hf e1 e2 v ≤ e.1
  closed_opt : ∀ v, in_bounds G v → (g2.nodes v).closed = some true →
    ∀ l, is_path G l s v → (g2.nodes v).g ≤ path_cost G l.tail
  frontier_bound_rest : ∀ u, in_bounds G u → (g2.nodes u).closed = some true → u ≠ p →
    ∀ v ∈ pass_list G u, (g2.nodes v).g ≤ (g2.nodes u).g + step_cost G v
  frontier_open_rest : ∀ u, in_bounds G u → (g2.nodes u).closed = some true → u ≠ p →
    ∀ v ∈ pass_list G u, (g2.nodes v).opened = some true

/-! ## Concrete grids for witnesses and counterexamples -/

/-- A 3×3 grid, parity 0, every cell passable with weight 1 (the spec's
concrete scenario). -/
def g33 : TempSearchGrid := mk_grid 3 3 0 (fun _ => 1)

/-- The cheap (passability 8, step cost 1/8) corridor of the optimality
counterexample grid. -/
def cex_cheap_cells : List (Nat × Nat) :=
  [(0,1),(0,0),(1,0),(2,0),(3,0),(4,0),(5,0),(6,0),(7,0),(8,0),(9,0),(10,0),(11,0),(12,0),(13,0),
   (13,1),(13,2),(13,3),(13,4),(12,4),(11,4),(10,4),(9,4),(8,4),(7,4),(6,4),(5,4),(4,4),(3,4),
   (3,3),(2,3)]

/-- Passability of the optimality counterexample grid: start `(0,2)`,
expensive direct cell `(1,2)` (cost 10), target `(2,2)` (cost 1), a long
cheap corridor (cost 1/8 per step), everything else impassable. -/
def cex_pass : Nat × Nat → ℚ := fun p =>
  if p = (0,2) then 1 else if p = (1,2) then 1/10 else if p = (2,2) then 1
  else if p ∈ cex_cheap_cells then 8 else 0

/-- The 14×5, parity-0 optimality counterexample grid. -/
def gCex : TempSearchGrid := mk_grid 14 5 0 cex_pass

/-- The cheap corridor as a path tail from the start `(0,2)` to the target
`(2,2)`: 31 steps of cost 1/8 plus the final step into the target, total
39/8, far below the cost 11 of the path the engine returns. -/
def cex_cheap_path_tail : List (Nat × Nat) :=
  [(0,1),(0,0),(1,0),(2,0),(3,0),(4,0),(5,0),(6,0),(7,0),(8,0),(9,0),(10,0),(11,0),(12,0),(13,0),
   (13,1),(13,2),(13,3),(13,4),(12,4),(11,4),(10,4),(9,4),(8,4),(7,4),(6,4),(5,4),(4,4),(3,4),
   (3,3),(2,3),(2,2)]

/-- A 3×3 grid, parity 0, entirely impassable except the single passable
island cell `(1,1)` (the spec's border-detection scenario). -/
def gIsland : TempSearchGrid := mk_grid 3 3 0 (fun p => if p = (1,1) then 1 else 0)

/-- A 2×1 grid where `(0,0)` is passable and `(1,0)` is impassable: the
target is unreachable through passable cells. -/
def gWall : TempSearchGrid := mk_grid 2 1 0 (fun p => if p = (0,0) then 1 else 0)

/-- A 1×2 grid whose start cell `(0,0)` is impassable and whose node
`(0,1)` carries a stale transient `g` value 5, as left behind by an
earlier search. -/
def gStale : TempSearchGrid :=
  let g0 := mk_grid 1 2 0 (fun p => if p = (0,0) then 0 else 1)
  { g0 with nodes := fun p => if p = (0,1) then { g0.nodes p with g := 5 } else g0.nodes p }


/-! ## Basic lemmas about the neighbor enumeration -/

theorem usize_sub_one (y : Nat) : usize_sub y 1 = if y = 0 then USIZE - 1 else y - 1 := by
  unfold usize_sub
  by_cases h : y = 0
  · subst h; simp
  · rw [if_pos (by omega), if_neg h]

theorem is_node_passable_eq (G : TempSearchGrid) (x y : Nat) :
    G.is_node_passable x y = (G.is_node_inside x y && (G.nodes (x, y)).passable) := by
  unfold TempSearchGrid.is_node_passable
  by_cases h : G.is_node_inside x y = true <;> simp [h]

theorem mem_passable_iff_neighbor (G : TempSearchGrid) (x y : Nat) (p : Nat × Nat) :
    p ∈ G.get_neighbors_passable_nodes x y ↔
      p ∈ G.get_neighbor_nodes x y ∧ (G.nodes p).passable = true := by
  unfold TempSearchGrid.get_neighbors_passable_nodes TempSearchGrid.get_neighbor_nodes
  simp only [List.mem_filter, is_node_passable_eq, Bool.and_eq_true, and_assoc]

theorem mem_neighbor_in_bounds {G : TempSearchGrid} {x y : Nat} {p : Nat × Nat}
    (h : p ∈ G.get_neighbor_nodes x y) : in_bounds G p := by
  unfold TempSearchGrid.get_neighbor_nodes at h
  have h2 := (List.mem_filter.mp h).2
  unfold TempSearchGrid.is_node_inside at h2
  simp only [Bool.and_eq_true, decide_eq_true_eq] at h2
  exact h2

theorem mem_pass_list_in_bounds {G : TempSearchGrid} {u p : Nat × Nat}
    (h : p ∈ pass_list G u) : in_bounds G p :=
  mem_neighbor_in_bounds ((mem_passable_iff_neighbor G u.1 u.2 p).mp h).1

theorem mem_pass_list_passable {G : TempSearchGrid} {u p : Nat × Nat}
    (h : p ∈ pass_list G u) : (G.nodes p).passable = true :=
  ((mem_passable_iff_neighbor G u.1 u.2 p).mp h).2

theorem axis_id {W : Nat} (u a : Nat) :
    (a = u ∧ a < W) ↔ ((a : Int) = (u : Int) ∧ (a : Int) < (W : Int)) := by omega

theorem axis_succ {W : Nat} (u a : Nat) :
    (a = u + 1 ∧ a < W) ↔ ((a : Int) = (u : Int) + 1 ∧ (a : Int) < (W : Int)) := by omega

theorem axis_pred {W : Nat} (hW : W < USIZE) {u : Nat} (hu : u < W) (a : Nat) :
    (a = usize_sub u 1 ∧ a < W) ↔ ((a : Int) = (u : Int) - 1 ∧ (a : Int) < (W : Int)) := by
  rw [usize_sub_one]
  unfold USIZE at hW ⊢
  by_cases h : u = 0 <;> simp [h] <;> omega

theorem cand_char {W H : Nat} {u v : Nat} {ui vi : Int}
    (hu : ∀ a : Nat, (a = u ∧ a < W) ↔ ((a : Int) = ui ∧ (a : Int) < (W : Int)))
    (hv : ∀ b : Nat, (b = v ∧ b < H) ↔ ((b : Int) = vi ∧ (b : Int) < (H : Int)))
    (a b : Nat) :
    ((a, b) = (u, v) ∧ a < W ∧ b < H) ↔
      (((a : Int), (b : Int)) = (ui, vi) ∧ a < W ∧ b < H) := by
  simp only [Prod.mk.injEq]
  constructor
  · rintro ⟨⟨h1, h2⟩, h3, h4⟩
    exact ⟨⟨((hu a).mp ⟨h1, h3⟩).1, ((hv b).mp ⟨h2, h4⟩).1⟩, h3, h4⟩
  · rintro ⟨⟨h1, h2⟩, h3, h4⟩
    exact ⟨⟨((hu a).mpr ⟨h1, by omega⟩).1, ((hv b).mpr ⟨h2, by omega⟩).1⟩, h3, h4⟩

theorem mem_neighbor_char {G : TempSearchGrid} (hW : G.width < USIZE) (hH : G.height < USIZE)
    {x y : Nat} (hx : x < G.width) (hy : y < G.height) (a b : Nat) :
    (a, b) ∈ G.get_neighbor_nodes x y ↔
      (((a : Int), (b : Int)) ∈ spec_neighbor_candidates G.odd_increment x y ∧
        a < G.width ∧ b < G.height) := by
  unfold TempSearchGrid.get_neighbor_nodes spec_neighbor_candidates
  by_cases hp : (x + G.odd_increment) % 2 = 0 <;>
    [rw [if_pos hp, if_pos (show ((x : Int) + (G.odd_increment : Int)) % 2 = 0 by omega)];
     rw [if_neg hp, if_neg (show ¬((x : Int) + (G.odd_increment : Int)) % 2 = 0 by omega)]] <;>
  simp only [List.mem_filter, List.mem_append, List.mem_cons, List.not_mem_nil,
    or_false, or_assoc, TempSearchGrid.is_node_inside, Bool.and_eq_true, decide_eq_true_eq,
    or_and_right]
  · exact or_congr (cand_char (axis_id x) (axis_pred hH hy) a b)
      (or_congr (cand_char (axis_id x) (axis_succ y) a b)
      (or_congr (cand_char (axis_succ x) (axis_pred hH hy) a b)
      (or_congr (cand_char (axis_pred hW hx) (axis_pred hH hy) a b)
      (or_congr (cand_char (axis_succ x) (axis_id y) a b)
      (cand_char (axis_pred hW hx) (axis_id y) a b)))))
  · exact or_congr (cand_char (axis_id x) (axis_pred hH hy) a b)
      (or_congr (cand_char (axis_id x) (axis_succ y) a b)
      (or_congr (cand_char (axis_succ x) (axis_id y) a b)
      (or_congr (cand_char (axis_succ x) (axis_succ y) a b)
      (or_congr (cand_char (axis_pred hW hx) (axis_succ y) a b)
      (cand_char (axis_pred hW hx) (axis_id y) a b)))))

theorem spec_cand_symm (inc : Nat) {px py qx qy : Int}
    (h : (qx, qy) ∈ spec_neighbor_candidates inc px py) :
    (px, py) ∈ spec_neighbor_candidates inc qx qy := by
  unfold spec_neighbor_candidates at h ⊢
  by_cases hp : (px + (inc : Int)) % 2 = 0 <;>
    [rw [if_pos hp] at h; rw [if_neg hp] at h] <;>
  simp only [List.mem_append, List.mem_cons, List.not_mem_nil, or_false, or_assoc,
    Prod.mk.injEq] at h <;>
  rcases h with ⟨h1, h2⟩ | ⟨h1, h2⟩ | ⟨h1, h2⟩ | ⟨h1, h2⟩ | ⟨h1, h2⟩ | ⟨h1, h2⟩ <;>
  by_cases hq : (qx + (inc : Int)) % 2 = 0 <;>
  simp only [hq, if_true, if_false, List.mem_append, List.mem_cons, List.not_mem_nil,
    or_false, or_assoc, Prod.mk.injEq] <;>
  omega

theorem spec_cand_ne (inc : Nat) {px py qx qy : Int}
    (h : (qx, qy) ∈ spec_neighbor_candidates inc px py) : (qx, qy) ≠ (px, py) := by
  unfold spec_neighbor_candidates at h
  by_cases hp : (px + (inc : Int)) % 2 = 0 <;>
    [rw [if_pos hp] at h; rw [if_neg hp] at h] <;>
  simp only [List.mem_append, List.mem_cons, List.not_mem_nil, or_false, or_assoc,
    Prod.mk.injEq, ne_eq, not_and] at h ⊢ <;>
  rcases h with ⟨h1, h2⟩ | ⟨h1, h2⟩ | ⟨h1, h2⟩ | ⟨h1, h2⟩ | ⟨h1, h2⟩ | ⟨h1, h2⟩ <;>
  omega

theorem neighbor_symm {G : TempSearchGrid} (hW : G.width < USIZE) (hH : G.height < USIZE)
    {p q : Nat × Nat} (hp : in_bounds G p) (h : q ∈ G.get_neighbor_nodes p.1 p.2) :
    p ∈ G.get_neighbor_nodes q.1 q.2 := by
  have hq : in_bounds G q := mem_neighbor_in_bounds h
  have h1 := (mem_neighbor_char hW hH hp.1 hp.2 q.1 q.2).mp (by simpa using h)
  have h2 := spec_cand_symm G.odd_increment h1.1
  have := (mem_neighbor_char hW hH hq.1 hq.2 p.1 p.2).mpr ⟨h2, hp.1, hp.2⟩
  simpa using this

theorem neighbor_ne {G : TempSearchGrid} (hW : G.width < USIZE) (hH : G.height < USIZE)
    {p q : Nat × Nat} (hp : in_bounds G p) (h : q ∈ G.get_neighbor_nodes p.1 p.2) :
    q ≠ p := by
  have h1 := (mem_neighbor_char hW hH hp.1 hp.2 q.1 q.2).mp (by simpa using h)
  have h2 := spec_cand_ne G.odd_increment h1.1
  intro hEq
  exact h2 (by rw [hEq])

theorem pass_list_symm {G : TempSearchGrid} (hW : G.width < USIZE) (hH : G.height < USIZE)
    {p q : Nat × Nat} (hp : in_bounds G p) (hpass : (G.nodes p).passable = true)
    (h : q ∈ pass_list G p) : p ∈ pass_list G q := by
  have h1 := (mem_passable_iff_neighbor G p.1 p.2 q).mp h
  exact (mem_passable_iff_neighbor G q.1 q.2 p).mpr ⟨neighbor_symm hW hH hp h1.1, hpass⟩

theorem pass_list_ne {G : TempSearchGrid} (hW : G.width < USIZE) (hH : G.height < USIZE)
    {p q : Nat × Nat} (hp : in_bounds G p) (h : q ∈ pass_list G p) : q ≠ p :=
  neighbor_ne hW hH hp ((mem_passable_iff_neighbor G p.1 p.2 q).mp h).1

theorem neighbor_cand_nodup (G : TempSearchGrid) (hW : G.width < USIZE)
    (hH : G.height < USIZE) {x y : Nat} (hx : x < G.width) (hy : y < G.height) :
    ([(x, usize_sub y 1), (x, y + 1)] ++
      (if (x + G.odd_increment) % 2 = 0 then
        [(x + 1, usize_sub y 1), (usize_sub x 1, usize_sub y 1), (x + 1, y), (usize_sub x 1, y)]
      else
        [(x + 1, y), (x + 1, y + 1), (usize_sub x 1, y + 1), (usize_sub x 1, y)])).Nodup := by
  obtain ⟨sy, hsy⟩ : ∃ s, usize_sub y 1 = s := ⟨_, rfl⟩
  obtain ⟨sx, hsx⟩ : ∃ s, usize_sub x 1 = s := ⟨_, rfl⟩
  rw [hsy, hsx]
  rw [usize_sub_one] at hsy hsx
  unfold USIZE at hW hH hsy hsx
  have hys : (0 < y ∧ sy = y - 1) ∨ (y = 0 ∧ sy = 2 ^ 64 - 1) := by
    rcases Nat.eq_zero_or_pos y with h | h
    · subst h; rw [if_pos rfl] at hsy; right; omega
    · left; rw [if_neg (show ¬ y = 0 by omega)] at hsy; omega
  have hxs : (0 < x ∧ sx = x - 1) ∨ (x = 0 ∧ sx = 2 ^ 64 - 1) := by
    rcases Nat.eq_zero_or_pos x with h | h
    · subst h; rw [if_pos rfl] at hsx; right; omega
    · left; rw [if_neg (show ¬ x = 0 by omega)] at hsx; omega
  by_cases hp : (x + G.odd_increment) % 2 = 0 <;> [rw [if_pos hp]; rw [if_neg hp]] <;>
  simp only [List.cons_append, List.nil_append, List.nodup_cons, List.mem_cons,
    List.not_mem_nil, or_false, not_or, Prod.mk.injEq, not_and, List.nodup_nil,
    and_true, true_implies, not_false_eq_true] <;>
  rcases hys with ⟨hy1, hy2⟩ | ⟨hy1, hy2⟩ <;> rcases hxs with ⟨hx1, hx2⟩ | ⟨hx1, hx2⟩ <;>
  subst hy2 <;> subst hx2 <;> omega

theorem neighbor_nodup {G : TempSearchGrid} (hW : G.width < USIZE) (hH : G.height < USIZE)
    {x y : Nat} (hx : x < G.width) (hy : y < G.height) :
    (G.get_neighbor_nodes x y).Nodup := by
  unfold TempSearchGrid.get_neighbor_nodes
  exact List.Nodup.filter _ (neighbor_cand_nodup G hW hH hx hy)

theorem pass_list_nodup {G : TempSearchGrid} (hW : G.width < USIZE) (hH : G.height < USIZE)
    {p : Nat × Nat} (hp : in_bounds G p) : (pass_list G p).Nodup := by
  unfold pass_list TempSearchGrid.get_neighbors_passable_nodes
  exact List.Nodup.filter _ (neighbor_cand_nodup G hW hH hp.1 hp.2)

/-- C4: for every in-bounds cell, the all-neighbors list built by the cache
computation consists of exactly the in-bounds members of the parity-selected
signed candidate set; out-of-bounds candidates are omitted and no other
coordinate appears. -/
theorem C4_all_neighbors_cache (G : TempSearchGrid) (hW : G.width < USIZE)
    (hH : G.height < USIZE) (x y : Nat) (hx : x < G.width) (hy : y < G.height) :
    ∃ l, (G.compute_neighbor_nodes_cache).neighbor_node_cache (x, y) = some l ∧
      ∀ a b : Nat, ((a, b) ∈ l ↔
        (((a : Int), (b : Int)) ∈ spec_neighbor_candidates G.odd_increment x y ∧
          a < G.width ∧ b < G.height)) := by
  refine ⟨G.get_neighbor_nodes x y, ?_, fun a b => mem_neighbor_char hW hH hx hy a b⟩
  unfold TempSearchGrid.compute_neighbor_nodes_cache
  simp only [if_pos (show x < G.width ∧ y < G.height from ⟨hx, hy⟩)]

/-- C4 witness: the characterization instantiated on the concrete 3×3 grid
at cell (0,0). -/
theorem C4_all_neighbors_cache_witness :
    ∃ l, (g33.compute_neighbor_nodes_cache).neighbor_node_cache (0, 0) = some l ∧
      ∀ a b : Nat, ((a, b) ∈ l ↔
        (((a : Int), (b : Int)) ∈ spec_neighbor_candidates g33.odd_increment 0 0 ∧
          a < g33.width ∧ b < g33.height)) :=
  C4_all_neighbors_cache g33 (by decide) (by decide) 0 0 (by decide) (by decide)

theorem tmod_two_natCast (x : Nat) : Int.tmod (x : Int) 2 = ((x % 2 : Nat) : Int) := by
  rw [Int.tmod_eq_emod (by positivity) (by norm_num)]
  push_cast
  rfl

unseal Rat.add Rat.mul Rat.inv Rat.sub in
/-- C3: the odd-q heuristic agrees with the spec's exact signed formula on
all inputs; the even-q heuristic does not — at `(x, y) = (2, 0)`,
`end = (0, 0)` the `usize` row-shift subtraction wraps and the code yields
`2^64 + 1` (in the exact-arithmetic shadow; about `2^64` after `f64`
rounding) where the signed formula yields `2`. -/
theorem C3_heuristic_formulas :
    (∀ (x y : Nat) (ex ey : Int),
      heuristic_odd_q x y ex ey = spec_heuristic_odd (x : Int) (y : Int) ex ey) ∧
    heuristic_even_q 2 0 0 0 = (USIZE : ℚ) + 1 ∧
    spec_heuristic_even 2 0 0 0 = 2 := by
  refine ⟨fun x y ex ey => ?_, by decide, by decide⟩
  unfold heuristic_odd_q spec_heuristic_odd
  rw [show ((x % 2 : Nat) : ℚ) = (((Int.tmod (x : Int) 2) : Int) : ℚ) by
    rw [tmod_two_natCast]; norm_cast]
  push_cast
  ring_nf

/-- C9 counterexample: `get_node_at_point` on the out-of-bounds coordinate
(3, 0) of the 3×3 grid panics (index out of bounds, modelled as `none`)
instead of returning an explicit `OutOfBounds` result variant. -/
theorem C9_counterexample :
    g33.get_node_at_point (3, 0) = none ∧ g33.width = 3 ∧ g33.height = 3 := by
  decide

/-- C9 amended: the two setters fail with the out-of-bounds error variant
exactly when the coordinate is outside the grid extent, mutate only the
addressed node otherwise, and leave everything unchanged on failure;
`get_node_at_point`, however, panics (`none`) on an out-of-bounds
coordinate rather than returning an error variant, while the cache
lookup returns an explicit error variant on a missing key. -/
theorem C9_amended_bounds_behavior (G : TempSearchGrid) (x y : Nat) (b : Bool) (q : ℚ) :
    ((G.set_node_passable x y b).2 = .ok () ↔ (x < G.width ∧ y < G.height)) ∧
    ((G.set_node_passability x y q).2 = .ok () ↔ (x < G.width ∧ y < G.height)) ∧
    (∀ p, (G.set_node_passable x y b).1.nodes p =
      (if (x < G.width ∧ y < G.height) ∧ p = (x, y)
        then { G.nodes p with passable := b } else G.nodes p)) ∧
    (∀ p, (G.set_node_passability x y q).1.nodes p =
      (if (x < G.width ∧ y < G.height) ∧ p = (x, y)
        then { G.nodes p with passability := q } else G.nodes p)) ∧
    ((G.set_node_passable x y b).1.width = G.width ∧
      (G.set_node_passable x y b).1.height = G.height ∧
      (G.set_node_passable x y b).1.odd_increment = G.odd_increment ∧
      (G.set_node_passable x y b).1.neighbor_node_cache = G.neighbor_node_cache ∧
      (G.set_node_passable x y b).1.neighbor_passable_nodes_cache =
        G.neighbor_passable_nodes_cache) ∧
    (G.get_node_at_point (x, y) = none ↔ ¬(x < G.width ∧ y < G.height)) ∧
    (G.neighbor_passable_nodes_cache (x, y) = none →
      ∃ e, G.get_neighbors_passable_nodes_from_cache x y = some (.error e)) := by
  unfold TempSearchGrid.set_node_passable TempSearchGrid.set_node_passability
    TempSearchGrid.get_node_at_point TempSearchGrid.get_neighbors_passable_nodes_from_cache
  by_cases h : x < G.width ∧ y < G.height <;>
    simp only [h, if_pos, if_neg, if_true, if_false, reduceIte, not_true, not_false_iff]
  · refine ⟨by simp, by simp, ?_, ?_, by simp, by simp [h], ?_⟩
    · intro p
      by_cases hp : p = (x, y) <;> simp [hp, h]
    · intro p
      by_cases hp : p = (x, y) <;> simp [hp, h]
    · intro hc
      rw [hc]
      exact ⟨_, rfl⟩
  · refine ⟨by simp, by simp, ?_, ?_, by simp, by simp [h], ?_⟩
    · intro p
      simp [h]
    · intro p
      simp [h]
    · intro hc
      rw [hc]
      exact ⟨_, rfl⟩

/-- C9 witness: the amended bounds characterization instantiated at the
out-of-bounds coordinate (3, 0) of the 3×3 grid. -/
theorem C9_amended_bounds_behavior_witness :
    ((g33.set_node_passable 3 0 false).2 = .ok () ↔ (3 < g33.width ∧ 0 < g33.height)) ∧
    ((g33.set_node_passability 3 0 1).2 = .ok () ↔ (3 < g33.width ∧ 0 < g33.height)) ∧
    (∀ p, (g33.set_node_passable 3 0 false).1.nodes p =
      (if (3 < g33.width ∧ 0 < g33.height) ∧ p = (3, 0)
        then { g33.nodes p with passable := false } else g33.nodes p)) ∧
    (∀ p, (g33.set_node_passability 3 0 1).1.nodes p =
      (if (3 < g33.width ∧ 0 < g33.height) ∧ p = (3, 0)
        then { g33.nodes p with passability := 1 } else g33.nodes p)) ∧
    ((g33.set_node_passable 3 0 false).1.width = g33.width ∧
      (g33.set_node_passable 3 0 false).1.height = g33.height ∧
      (g33.set_node_passable 3 0 false).1.odd_increment = g33.odd_increment ∧
      (g33.set_node_passable 3 0 false).1.neighbor_node_cache = g33.neighbor_node_cache ∧
      (g33.set_node_passable 3 0 false).1.neighbor_passable_nodes_cache =
        g33.neighbor_passable_nodes_cache) ∧
    (g33.get_node_at_point (3, 0) = none ↔ ¬(3 < g33.width ∧ 0 < g33.height)) ∧
    (g33.neighbor_passable_nodes_cache (3, 0) = none →
      ∃ e, g33.get_neighbors_passable_nodes_from_cache 3 0 = some (.error e)) :=
  C9_amended_bounds_behavior g33 3 0 false 1

theorem reset_reset (G : TempSearchGrid) : G.reset.reset = G.reset := by
  unfold TempSearchGrid.reset
  congr 1
  funext p
  by_cases h : p.1 < G.width ∧ p.2 < G.height <;> simp [h, TempNode.reset]

theorem reset_transient_clear (G : TempSearchGrid) : transient_clear G.reset := by
  intro p hp
  have h : p.1 < G.width ∧ p.2 < G.height := hp
  simp only [TempSearchGrid.reset, h, if_true, reduceIte, TempNode.reset]
  exact ⟨rfl, rfl, rfl, rfl, rfl⟩

unseal Rat.add Rat.mul Rat.inv Rat.sub in
/-- C8 counterexample: on an impassable start the query returns
`StartNotPassable` while leaving the grid exactly as it was — the stale
transient `g = 5` at (0, 1) survives, whereas a reset performed before
validation (as the claim states) would have cleared it to the sentinel. -/
theorem C8_counterexample :
    (build_path_to_passable_hex gStale (0, 0) (0, 1)).map (fun r => r.2) =
      some (.error .startNotPassable) ∧
    (build_path_to_passable_hex gStale (0, 0) (0, 1)).map (fun r => r.1.nodes (0, 1)) =
      some (gStale.nodes (0, 1)) ∧
    (gStale.nodes (0, 1)).g = 5 ∧
    ((gStale.reset).nodes (0, 1)).g = -1 := by
  decide

/-- C8 amended: each of the three path queries validates the start first —
on an impassable start it fails with `StartNotPassable` before any reset
and mutates nothing — and only on a passable start performs the full
reset before running the search: the outcome of every query is therefore
independent of the grid's prior transient state, and the search engine
always starts from a grid whose transient fields are all cleared. -/
theorem C8_amended_validate_then_reset (G : TempSearchGrid) (s t : Nat × Nat)
    (hs : in_bounds G s) :
    ((G.nodes s).passable = false →
      (build_path_to_passable_hex G s t = some (G, .error .startNotPassable) ∧
       build_path_to_impassable_border_hex G s t = some (G, .error .startNotPassable) ∧
       build_path_towards_impassable_hex G s t = some (G, .error .startNotPassable))) ∧
    ((build_path_to_passable_hex G s t).map (fun r => r.2) =
       (build_path_to_passable_hex G.reset s t).map (fun r => r.2) ∧
     (build_path_to_impassable_border_hex G s t).map (fun r => r.2) =
       (build_path_to_impassable_border_hex G.reset s t).map (fun r => r.2) ∧
     (build_path_towards_impassable_hex G s t).map (fun r => r.2) =
       (build_path_towards_impassable_hex G.reset s t).map (fun r => r.2)) ∧
    transient_clear G.reset := by
  have hsr : G.reset.get_node_at_point s = some ((G.nodes s).reset) := by
    unfold TempSearchGrid.reset TempSearchGrid.get_node_at_point in_bounds at *
    simp [hs]
  have hsg : G.get_node_at_point s = some (G.nodes s) := by
    unfold TempSearchGrid.get_node_at_point in_bounds at *
    simp [hs]
  refine ⟨?_, ?_, reset_transient_clear G⟩
  · intro himp
    unfold build_path_to_passable_hex build_path_to_impassable_border_hex
      build_path_towards_impassable_hex
    rw [hsg]
    simp [himp]
  · unfold build_path_to_passable_hex build_path_to_impassable_border_hex
      build_path_towards_impassable_hex
    rw [hsg, hsr, reset_reset]
    have hpass : ((G.nodes s).reset).passable = (G.nodes s).passable := rfl
    by_cases hp : (G.nodes s).passable <;> simp [hp, hpass]

/-- C8 witness: the amended validate-then-reset behavior at the concrete
stale grid with impassable start (0, 0). -/
theorem C8_amended_validate_then_reset_witness :
    in_bounds gStale (0, 0) ∧
    (((gStale.nodes (0, 0)).passable = false →
      (build_path_to_passable_hex gStale (0, 0) (0, 1) =
        some (gStale, .error .startNotPassable) ∧
       build_path_to_impassable_border_hex gStale (0, 0) (0, 1) =
        some (gStale, .error .startNotPassable) ∧
       build_path_towards_impassable_hex gStale (0, 0) (0, 1) =
        some (gStale, .error .startNotPassable))) ∧
    ((build_path_to_passable_hex gStale (0, 0) (0, 1)).map (fun r => r.2) =
       (build_path_to_passable_hex gStale.reset (0, 0) (0, 1)).map (fun r => r.2) ∧
     (build_path_to_impassable_border_hex gStale (0, 0) (0, 1)).map (fun r => r.2) =
       (build_path_to_impassable_border_hex gStale.reset (0, 0) (0, 1)).map (fun r => r.2) ∧
     (build_path_towards_impassable_hex gStale (0, 0) (0, 1)).map (fun r => r.2) =
       (build_path_towards_impassable_hex gStale.reset (0, 0) (0, 1)).map (fun r => r.2)) ∧
    transient_clear gStale.reset) :=
  ⟨by decide, C8_amended_validate_then_reset gStale (0, 0) (0, 1) (by decide)⟩

theorem foldl_cache_value (g : TempSearchGrid) :
    ∀ (ns : List (Nat × Nat)) (acc : TempSearchGrid) (p : Nat × Nat),
      ((ns.foldl (fun acc n =>
        { acc with neighbor_passable_nodes_cache := fun q =>
          (if q = n then
            some ((g.get_neighbors_passable_nodes n.1 n.2).filter
              (fun m => g.is_node_passable m.1 m.2))
           else acc.neighbor_passable_nodes_cache q) }) acc)).neighbor_passable_nodes_cache p
      = (if p ∈ ns then
          some ((g.get_neighbors_passable_nodes p.1 p.2).filter
            (fun m => g.is_node_passable m.1 m.2))
        else acc.neighbor_passable_nodes_cache p) := by
  intro ns
  induction ns with
  | nil => intro acc p; simp
  | cons n rest ih =>
    intro acc p
    rw [List.foldl_cons, ih]
    by_cases hp : p ∈ rest
    · simp [hp]
    · by_cases hpn : p = n
      · subst hpn
        simp [hp]
      · simp [hp, hpn, List.mem_cons]

theorem foldl_cache_static (g : TempSearchGrid) :
    ∀ (ns : List (Nat × Nat)) (acc : TempSearchGrid),
      (((ns.foldl (fun acc n =>
        { acc with neighbor_passable_nodes_cache := fun q =>
          (if q = n then
            some ((g.get_neighbors_passable_nodes n.1 n.2).filter
              (fun m => g.is_node_passable m.1 m.2))
           else acc.neighbor_passable_nodes_cache q) }) acc)).width = acc.width ∧
      ((ns.foldl (fun acc n =>
        { acc with neighbor_passable_nodes_cache := fun q =>
          (if q = n then
            some ((g.get_neighbors_passable_nodes n.1 n.2).filter
              (fun m => g.is_node_passable m.1 m.2))
           else acc.neighbor_passable_nodes_cache q) }) acc)).height = acc.height ∧
      ((ns.foldl (fun acc n =>
        { acc with neighbor_passable_nodes_cache := fun q =>
          (if q = n then
            some ((g.get_neighbors_passable_nodes n.1 n.2).filter
              (fun m => g.is_node_passable m.1 m.2))
           else acc.neighbor_passable_nodes_cache q) }) acc)).odd_increment =
        acc.odd_increment ∧
      ((ns.foldl (fun acc n =>
        { acc with neighbor_passable_nodes_cache := fun q =>
          (if q = n then
            some ((g.get_neighbors_passable_nodes n.1 n.2).filter
              (fun m => g.is_node_passable m.1 m.2))
           else acc.neighbor_passable_nodes_cache q) }) acc)).nodes = acc.nodes) := by
  intro ns
  induction ns with
  | nil => intro acc; exact ⟨rfl, rfl, rfl, rfl⟩
  | cons n rest ih =>
    intro acc
    rw [List.foldl_cons]
    exact ih _

theorem recheck_cache_spec (H : TempSearchGrid) {x y : Nat} (hx : x < H.width)
    (hy : y < H.height) :
    ∃ R, H.recheck_node_passable x y = some R ∧
      (∀ p, R.neighbor_passable_nodes_cache p =
        (if p ∈ H.get_neighbor_nodes x y then
          some ((H.get_neighbors_passable_nodes p.1 p.2).filter
            (fun m => H.is_node_passable m.1 m.2))
         else if p = (x, y) then some (H.get_neighbors_passable_nodes x y)
         else H.neighbor_passable_nodes_cache p)) ∧
      R.width = H.width ∧ R.height = H.height ∧ R.odd_increment = H.odd_increment ∧
      R.nodes = H.nodes := by
  unfold TempSearchGrid.recheck_node_passable
  rw [if_pos (show x < H.width ∧ y < H.height from ⟨hx, hy⟩)]
  refine ⟨_, rfl, ?_, (foldl_cache_static H _ _).1, (foldl_cache_static H _ _).2.1,
    (foldl_cache_static H _ _).2.2.1, (foldl_cache_static H _ _).2.2.2⟩
  intro p
  rw [foldl_cache_value]

theorem get_neighbor_nodes_congr {G1 G2 : TempSearchGrid} (h1 : G1.width = G2.width)
    (h2 : G1.height = G2.height) (h3 : G1.odd_increment = G2.odd_increment) (x y : Nat) :
    G1.get_neighbor_nodes x y = G2.get_neighbor_nodes x y := by
  unfold TempSearchGrid.get_neighbor_nodes TempSearchGrid.is_node_inside
  simp only [h1, h2, h3]

/-- C5: after making an in-bounds cell impassable and rechecking it, the
cell is absent from the freshly written passable-neighbor cache entry of
every one of its neighbors; after making it passable again and rechecking,
it is present in every one of those entries. -/
theorem C5_recheck_passable_cache (G : TempSearchGrid) (hW : G.width < USIZE)
    (hH : G.height < USIZE) (x y : Nat) (hx : x < G.width) (hy : y < G.height) :
    ∃ g1 g2,
      ((G.set_node_passable x y false).1).recheck_node_passable x y = some g1 ∧
      (∀ n ∈ G.get_neighbor_nodes x y, ∃ l, g1.neighbor_passable_nodes_cache n = some l ∧
        (x, y) ∉ l) ∧
      ((g1.set_node_passable x y true).1).recheck_node_passable x y = some g2 ∧
      (∀ n ∈ G.get_neighbor_nodes x y, ∃ l, g2.neighbor_passable_nodes_cache n = some l ∧
        (x, y) ∈ l) := by
  have hG1 : (G.set_node_passable x y false).1 =
      { G with nodes := fun p =>
          if p = (x, y) then { G.nodes p with passable := false } else G.nodes p } := by
    unfold TempSearchGrid.set_node_passable
    rw [if_pos (show x < G.width ∧ y < G.height from ⟨hx, hy⟩)]
  rw [hG1]
  obtain ⟨R1, hr1, hc1, hw1, hh1, ho1, hn1⟩ :=
    recheck_cache_spec
      { G with nodes := fun p =>
          if p = (x, y) then { G.nodes p with passable := false } else G.nodes p }
      (show x < G.width from hx) (show y < G.height from hy)
  have hG2 : (R1.set_node_passable x y true).1 =
      { R1 with nodes := fun p =>
          if p = (x, y) then { R1.nodes p with passable := true } else R1.nodes p } := by
    unfold TempSearchGrid.set_node_passable
    rw [if_pos (show x < R1.width ∧ y < R1.height by rw [hw1, hh1]; exact ⟨hx, hy⟩)]
  obtain ⟨R2, hr2, hc2, hw2, hh2, ho2, hn2⟩ :=
    recheck_cache_spec
      { R1 with nodes := fun p =>
          if p = (x, y) then { R1.nodes p with passable := true } else R1.nodes p }
      (show x < R1.width by rw [hw1]; exact hx)
      (show y < R1.height by rw [hh1]; exact hy)
  refine ⟨R1, R2, hr1, ?_, by rw [hG2]; exact hr2, ?_⟩
  · intro n hn
    have hmem : n ∈ TempSearchGrid.get_neighbor_nodes
        { G with nodes := fun p =>
          if p = (x, y) then { G.nodes p with passable := false } else G.nodes p } x y := hn
    rw [hc1 n, if_pos hmem]
    refine ⟨_, rfl, ?_⟩
    intro hmem2
    have h3 := List.mem_filter.mp hmem2
    have h4 := @mem_pass_list_passable ({ G with nodes := fun p =>
      if p = (x, y) then { G.nodes p with passable := false } else G.nodes p })
      n (x, y) h3.1
    simp at h4
  · intro n hn
    have hGw : (({ R1 with nodes := fun p =>
        if p = (x, y) then { R1.nodes p with passable := true } else R1.nodes p }) :
        TempSearchGrid).width = G.width := hw1
    have hGh : (({ R1 with nodes := fun p =>
        if p = (x, y) then { R1.nodes p with passable := true } else R1.nodes p }) :
        TempSearchGrid).height = G.height := hh1
    have hGo : (({ R1 with nodes := fun p =>
        if p = (x, y) then { R1.nodes p with passable := true } else R1.nodes p }) :
        TempSearchGrid).odd_increment = G.odd_increment := ho1
    have hcongr := get_neighbor_nodes_congr hGw hGh hGo
    have hmem : n ∈ TempSearchGrid.get_neighbor_nodes
        { R1 with nodes := fun p =>
          if p = (x, y) then { R1.nodes p with passable := true } else R1.nodes p } x y := by
      rw [hcongr]; exact hn
    rw [hc2 n, if_pos hmem]
    refine ⟨_, rfl, ?_⟩
    have hnb : in_bounds G n := mem_neighbor_in_bounds hn
    have hsymm : (x, y) ∈ G.get_neighbor_nodes n.1 n.2 :=
      neighbor_symm hW hH ⟨hx, hy⟩ hn
    have hsymm2 : (x, y) ∈ TempSearchGrid.get_neighbor_nodes
        { R1 with nodes := fun p =>
          if p = (x, y) then { R1.nodes p with passable := true } else R1.nodes p } n.1 n.2 := by
      rw [hcongr]; exact hsymm
    refine List.mem_filter.mpr ⟨?_, ?_⟩
    · refine (mem_passable_iff_neighbor _ n.1 n.2 (x, y)).mpr ⟨hsymm2, ?_⟩
      simp
    · unfold TempSearchGrid.is_node_passable TempSearchGrid.is_node_inside
      have : x < R1.width ∧ y < R1.height := by rw [hw1, hh1]; exact ⟨hx, hy⟩
      simp [this.1, this.2]

/-- C5 witness: the recheck absence/presence property at the center cell
(1, 1) of the concrete 3×3 grid. -/
theorem C5_recheck_passable_cache_witness :
    ∃ g1 g2,
      ((g33.set_node_passable 1 1 false).1).recheck_node_passable 1 1 = some g1 ∧
      (∀ n ∈ g33.get_neighbor_nodes 1 1, ∃ l, g1.neighbor_passable_nodes_cache n = some l ∧
        (1, 1) ∉ l) ∧
      ((g1.set_node_passable 1 1 true).1).recheck_node_passable 1 1 = some g2 ∧
      (∀ n ∈ g33.get_neighbor_nodes 1 1, ∃ l, g2.neighbor_passable_nodes_cache n = some l ∧
        (1, 1) ∈ l) :=
  C5_recheck_passable_cache g33 (by decide) (by decide) 1 1 (by decide) (by decide)

theorem mem_insert_set (l : List (Nat × Nat)) (a p : Nat × Nat) :
    p ∈ insert_set l a ↔ p ∈ l ∨ p = a := by
  unfold insert_set
  by_cases h : a ∈ l
  · simp only [h, if_true, reduceIte]
    constructor
    · exact Or.inl
    · rintro (hp | rfl) <;> [exact hp; exact h]
  · simp [h]

theorem insert_set_nodup {l : List (Nat × Nat)} (h : l.Nodup) (a : Nat × Nat) :
    (insert_set l a).Nodup := by
  unfold insert_set
  by_cases ha : a ∈ l <;> simp [ha, h, List.nodup_append]

theorem InRegion_in_bounds {G : TempSearchGrid} {t c : Nat × Nat} (ht : in_bounds G t)
    (h : InRegion G t c) : in_bounds G c := by
  induction h with
  | base => exact ht
  | step _ hmem _ _ => exact mem_neighbor_in_bounds hmem

theorem InRegion_impassable {G : TempSearchGrid} {t c : Nat × Nat}
    (himp : (G.nodes t).passable = false) (h : InRegion G t c) :
    (G.nodes c).passable = false := by
  induction h with
  | base => exact himp
  | step _ _ hmem _ => exact hmem

theorem border_fold_spec (G : TempSearchGrid) (done_ns : List (Nat × Nat)) :
    ∀ (ns : List (Nat × Nat)), (∀ nb ∈ ns, in_bounds G nb) →
    ∀ (op0 cl0 : List (Nat × Nat)),
      ∃ op' cl',
        ns.foldlM (fun (st : List (Nat × Nat) × List (Nat × Nat)) nb =>
            if nb.1 < G.width ∧ nb.2 < G.height then
              if (G.nodes nb).passable then some (insert_set st.1 nb, st.2)
              else if nb ∈ done_ns then some st
              else some (st.1, insert_set st.2 nb)
            else none) (op0, cl0) = some (op', cl') ∧
        (∀ p, p ∈ op' ↔ (p ∈ op0 ∨ (p ∈ ns ∧ (G.nodes p).passable = true))) ∧
        (∀ p, p ∈ cl' ↔ (p ∈ cl0 ∨
          (p ∈ ns ∧ (G.nodes p).passable = false ∧ p ∉ done_ns))) ∧
        (cl0.Nodup → cl'.Nodup) ∧ (op0.Nodup → op'.Nodup) := by
  intro ns
  induction ns with
  | nil =>
    intro _ op0 cl0
    exact ⟨op0, cl0, rfl, by simp, by simp, fun h => h, fun h => h⟩
  | cons nb rest ih =>
    intro hb op0 cl0
    have hnb : nb.1 < G.width ∧ nb.2 < G.height := hb nb (List.mem_cons_self nb rest)
    have hrest : ∀ m ∈ rest, in_bounds G m := fun m hm => hb m (List.mem_cons_of_mem nb hm)
    rw [List.foldlM_cons]
    by_cases hpass : (G.nodes nb).passable = true
    · obtain ⟨op', cl', heq, hop, hcl, hnd, hndo⟩ := ih hrest (insert_set op0 nb) cl0
      refine ⟨op', cl', ?_, ?_, ?_, hnd, fun h0 => hndo (insert_set_nodup h0 nb)⟩
      · rw [if_pos hnb, if_pos hpass]
        exact heq
      · intro p
        rw [hop p, mem_insert_set]
        constructor
        · rintro ((hp | rfl) | ⟨hp1, hp2⟩)
          · exact Or.inl hp
          · exact Or.inr ⟨List.mem_cons_self _ _, hpass⟩
          · exact Or.inr ⟨List.mem_cons_of_mem _ hp1, hp2⟩
        · rintro (hp | ⟨hp1, hp2⟩)
          · exact Or.inl (Or.inl hp)
          · rcases List.mem_cons.mp hp1 with rfl | hp1
            · exact Or.inl (Or.inr rfl)
            · exact Or.inr ⟨hp1, hp2⟩
      · intro p
        rw [hcl p]
        constructor
        · rintro (hp | ⟨hp1, hp2, hp3⟩)
          · exact Or.inl hp
          · exact Or.inr ⟨List.mem_cons_of_mem _ hp1, hp2, hp3⟩
        · rintro (hp | ⟨hp1, hp2, hp3⟩)
          · exact Or.inl hp
          · rcases List.mem_cons.mp hp1 with rfl | hp1
            · rw [hpass] at hp2; cases hp2
            · exact Or.inr ⟨hp1, hp2, hp3⟩
    · have hpass' : (G.nodes nb).passable = false := by
        revert hpass; cases (G.nodes nb).passable <;> simp
      by_cases hdone : nb ∈ done_ns
      · obtain ⟨op', cl', heq, hop, hcl, hnd, hndo⟩ := ih hrest op0 cl0
        refine ⟨op', cl', ?_, ?_, ?_, hnd, hndo⟩
        · rw [if_pos hnb, if_neg (by simp [hpass']), if_pos hdone]
          exact heq
        · intro p
          rw [hop p]
          constructor
          · rintro (hp | ⟨hp1, hp2⟩)
            · exact Or.inl hp
            · exact Or.inr ⟨List.mem_cons_of_mem _ hp1, hp2⟩
          · rintro (hp | ⟨hp1, hp2⟩)
            · exact Or.inl hp
            · rcases List.mem_cons.mp hp1 with rfl | hp1
              · rw [hpass'] at hp2; cases hp2
              · exact Or.inr ⟨hp1, hp2⟩
        · intro p
          rw [hcl p]
          constructor
          · rintro (hp | ⟨hp1, hp2, hp3⟩)
            · exact Or.inl hp
            · exact Or.inr ⟨List.mem_cons_of_mem _ hp1, hp2, hp3⟩
          · rintro (hp | ⟨hp1, hp2, hp3⟩)
            · exact Or.inl hp
            · rcases List.mem_cons.mp hp1 with rfl | hp1
              · exact absurd hdone hp3
              · exact Or.inr ⟨hp1, hp2, hp3⟩
      · obtain ⟨op', cl', heq, hop, hcl, hnd, hndo⟩ := ih hrest op0 (insert_set cl0 nb)
        refine ⟨op', cl', ?_, ?_, ?_, fun h0 => hnd (insert_set_nodup h0 nb), hndo⟩
        · rw [if_pos hnb, if_neg (by simp [hpass']), if_neg hdone]
          exact heq
        · intro p
          rw [hop p]
          constructor
          · rintro (hp | ⟨hp1, hp2⟩)
            · exact Or.inl hp
            · exact Or.inr ⟨List.mem_cons_of_mem _ hp1, hp2⟩
          · rintro (hp | ⟨hp1, hp2⟩)
            · exact Or.inl hp
            · rcases List.mem_cons.mp hp1 with rfl | hp1
              · rw [hpass'] at hp2; cases hp2
              · exact Or.inr ⟨hp1, hp2⟩
        · intro p
          rw [hcl p, mem_insert_set]
          constructor
          · rintro ((hp | rfl) | ⟨hp1, hp2, hp3⟩)
            · exact Or.inl hp
            · exact Or.inr ⟨List.mem_cons_self _ _, hpass', hdone⟩
            · exact Or.inr ⟨List.mem_cons_of_mem _ hp1, hp2, hp3⟩
          · rintro (hp | ⟨hp1, hp2, hp3⟩)
            · exact Or.inl (Or.inl hp)
            · rcases List.mem_cons.mp hp1 with rfl | hp1
              · exact Or.inl (Or.inr rfl)
              · exact Or.inr ⟨hp1, hp2, hp3⟩

theorem mem_cell_finset (G : TempSearchGrid) (p : Nat × Nat) :
    p ∈ cell_finset G ↔ in_bounds G p := by
  unfold cell_finset in_bounds
  rw [Finset.mem_product, Finset.mem_range, Finset.mem_range]

theorem nodup_in_bounds_length_le (G : TempSearchGrid) (l : List (Nat × Nat))
    (hnd : l.Nodup) (hb : ∀ c ∈ l, in_bounds G c) :
    l.length ≤ (cell_finset G).card := by
  calc l.length = l.toFinset.card := (List.toFinset_card_of_nodup hnd).symm
  _ ≤ (cell_finset G).card := by
      apply Finset.card_le_card
      intro p hp
      exact (mem_cell_finset G p).mpr (hb p (List.mem_toFinset.mp hp))

theorem insert_set_length_of_not_mem {l : List (Nat × Nat)} {a : Nat × Nat} (h : a ∉ l) :
    (insert_set l a).length = l.length + 1 := by
  unfold insert_set
  rw [if_neg h, List.length_append, List.length_singleton]

theorem border_flood_cons (G : TempSearchGrid) (fuel : Nat)
    (op rest dn : List (Nat × Nat)) (current : Nat × Nat)
    (nbs : List (Nat × Nat)) (hc : G.neighbor_node_cache current = some nbs)
    {op' cl' : List (Nat × Nat)}
    (hfold : nbs.foldlM (fun (st : List (Nat × Nat) × List (Nat × Nat)) nb =>
        if nb.1 < G.width ∧ nb.2 < G.height then
          if (G.nodes nb).passable then some (insert_set st.1 nb, st.2)
          else if nb ∈ dn then some st
          else some (st.1, insert_set st.2 nb)
        else none) (op, rest) = some (op', cl')) :
    border_flood G (fuel + 1) op (current :: rest) dn =
      border_flood G fuel op' cl' (insert_set dn current) := by
  conv_lhs => unfold border_flood
  simp only [hc, hfold]

theorem border_flood_spec (G : TempSearchGrid) (hW : G.width < USIZE) (hH : G.height < USIZE)
    (hcache : all_cache_computed G) (t : Nat × Nat) (ht : in_bounds G t)
    (himp : (G.nodes t).passable = false) :
    ∀ (fuel : Nat) (op cl dn : List (Nat × Nat)),
      (∀ c ∈ cl, InRegion G t c) →
      (∀ c ∈ dn, InRegion G t c) →
      (∀ p, p ∈ op ↔ ((G.nodes p).passable = true ∧
        ∃ c ∈ dn, p ∈ G.get_neighbor_nodes c.1 c.2)) →
      (∀ c ∈ dn, ∀ n ∈ G.get_neighbor_nodes c.1 c.2,
        ((G.nodes n).passable = true → n ∈ op) ∧
        ((G.nodes n).passable = false → n ∈ dn ∨ n ∈ cl)) →
      cl.Nodup → dn.Nodup → op.Nodup → (∀ c ∈ cl, c ∉ dn) →
      (t ∈ dn ∨ t ∈ cl) →
      (cell_finset G).card + 1 ≤ fuel + dn.length →
      ∃ l, border_flood G fuel op cl dn = some (.ok l) ∧
        (∀ p, (p ∈ l ↔ ((G.nodes p).passable = true ∧
          ∃ c, InRegion G t c ∧ p ∈ G.get_neighbor_nodes c.1 c.2))) ∧
        l.Nodup := by
  intro fuel
  induction fuel with
  | zero =>
    intro op cl dn _ hdn _ _ _ hdnnd _ _ _ hfuel
    exfalso
    have hle := nodup_in_bounds_length_le G dn hdnnd
      (fun c hc => InRegion_in_bounds ht (hdn c hc))
    omega
  | succ fuel ih =>
    intro op cl dn hcl hdn hop hfr hclnd hdnnd hopnd hdisj htin hfuel
    match hclq : cl with
    | [] =>
      refine ⟨op, rfl, ?_, hopnd⟩
      subst hclq
      have hdone_closed : ∀ c, InRegion G t c → c ∈ dn := by
        intro c hc
        induction hc with
        | base =>
          rcases htin with h | h
          · exact h
          · exact absurd h (List.not_mem_nil t)
        | step hc1 hmem himp2 ih2 =>
          rcases (hfr _ ih2 _ hmem).2 himp2 with h | h
          · exact h
          · exact absurd h (List.not_mem_nil _)
      intro p
      rw [hop p]
      constructor
      · rintro ⟨h1, c, hc1, hc2⟩
        exact ⟨h1, c, hdn c hc1, hc2⟩
      · rintro ⟨h1, c, hc1, hc2⟩
        exact ⟨h1, c, hdone_closed c hc1, hc2⟩
    | current :: rest =>
      subst hclq
      have hcur : InRegion G t current := hcl current (List.mem_cons_self _ _)
      have hcurb : in_bounds G current := InRegion_in_bounds ht hcur
      have hcache_cur : G.neighbor_node_cache current =
          some (G.get_neighbor_nodes current.1 current.2) := by
        have := hcache current.1 hcurb.1 current.2 hcurb.2
        exact this
      have hnbb : ∀ nb ∈ G.get_neighbor_nodes current.1 current.2, in_bounds G nb :=
        fun nb hnb => mem_neighbor_in_bounds hnb
      obtain ⟨op', cl', heq, hop', hcl', hnd', hndo'⟩ :=
        border_fold_spec G dn (G.get_neighbor_nodes current.1 current.2) hnbb op rest
      have hrestnd : rest.Nodup := hclnd.of_cons
      have hcurnr : current ∉ rest := (List.nodup_cons.mp hclnd).1
      have hcl'nd : cl'.Nodup := hnd' hrestnd
      have hcurdn : current ∉ dn := hdisj current (List.mem_cons_self _ _)
      have hdn'len := insert_set_length_of_not_mem hcurdn
      have hdn'mem : ∀ p, p ∈ insert_set dn current ↔ p ∈ dn ∨ p = current :=
        fun p => mem_insert_set dn current p
      rw [border_flood_cons G fuel op rest dn current _ hcache_cur heq]
      apply ih op' cl' (insert_set dn current)
      · intro c hc
        rcases (hcl' c).mp hc with h | ⟨h1, h2, _⟩
        · exact hcl c (List.mem_cons_of_mem _ h)
        · exact InRegion.step hcur h1 h2
      · intro c hc
        rcases (hdn'mem c).mp hc with h | rfl
        · exact hdn c h
        · exact hcur
      · intro p
        rw [hop' p, hop p]
        constructor
        · rintro (⟨h1, c, hc1, hc2⟩ | ⟨h1, h2⟩)
          · exact ⟨h1, c, (hdn'mem c).mpr (Or.inl hc1), hc2⟩
          · exact ⟨h2, current, (hdn'mem current).mpr (Or.inr rfl), h1⟩
        · rintro ⟨h1, c, hc1, hc2⟩
          rcases (hdn'mem c).mp hc1 with h | rfl
          · exact Or.inl ⟨h1, c, h, hc2⟩
          · exact Or.inr ⟨hc2, h1⟩
      · intro c hc n hn
        rcases (hdn'mem c).mp hc with h | rfl
        · refine ⟨fun hp => (hop' n).mpr (Or.inl ((hfr c h n hn).1 hp)), fun hp => ?_⟩
          rcases (hfr c h n hn).2 hp with h2 | h2
          · exact Or.inl ((hdn'mem n).mpr (Or.inl h2))
          · rcases List.mem_cons.mp h2 with rfl | h3
            · exact Or.inl ((hdn'mem n).mpr (Or.inr rfl))
            · exact Or.inr ((hcl' n).mpr (Or.inl h3))
        · refine ⟨fun hp => (hop' n).mpr (Or.inr ⟨hn, hp⟩), fun hp => ?_⟩
          by_cases hd : n ∈ dn
          · exact Or.inl ((hdn'mem n).mpr (Or.inl hd))
          · exact Or.inr ((hcl' n).mpr (Or.inr ⟨hn, hp, hd⟩))
      · exact hcl'nd
      · exact insert_set_nodup hdnnd current
      · exact hndo' hopnd
      · intro c hc hcdn'
        rcases (hdn'mem c).mp hcdn' with h | rfl
        · rcases (hcl' c).mp hc with h2 | ⟨_, _, h3⟩
          · exact hdisj c (List.mem_cons_of_mem _ h2) h
          · exact h3 h
        · rcases (hcl' c).mp hc with h2 | ⟨h3, _, _⟩
          · exact hcurnr h2
          · exact neighbor_ne hW hH hcurb h3 rfl
      · rcases htin with h | h
        · exact Or.inl ((hdn'mem t).mpr (Or.inl h))
        · rcases List.mem_cons.mp h with rfl | h2
          · exact Or.inl ((hdn'mem t).mpr (Or.inr rfl))
          · exact Or.inr ((hcl' t).mpr (Or.inl h2))
      · rw [hdn'len]
        omega

theorem cell_finset_card (G : TempSearchGrid) :
    (cell_finset G).card = G.width * G.height := by
  unfold cell_finset
  rw [Finset.card_product, Finset.card_range, Finset.card_range]

/-- C6: for an impassable in-bounds target on a grid with a computed
all-neighbors cache, `get_border_passable_neighbors` returns `Ok` with
exactly the passable cells adjacent to some cell of the connected
impassable region containing the target. -/
theorem C6_border_flood_characterization (G : TempSearchGrid) (hW : G.width < USIZE)
    (hH : G.height < USIZE) (hcache : all_cache_computed G) (t : Nat × Nat)
    (ht : in_bounds G t) (himp : (G.nodes t).passable = false) :
    ∃ l, G.get_border_passable_neighbors t.1 t.2 = some (.ok l) ∧
      (∀ p, (p ∈ l ↔ ((G.nodes p).passable = true ∧
        ∃ c, InRegion G t c ∧ p ∈ G.get_neighbor_nodes c.1 c.2))) ∧
      l.Nodup := by
  unfold TempSearchGrid.get_border_passable_neighbors
  apply border_flood_spec G hW hH hcache t ht himp (G.width * G.height + 1) [] [(t.1, t.2)] []
  · intro c hc
    rcases List.mem_cons.mp hc with rfl | h
    · exact InRegion.base
    · exact absurd h (List.not_mem_nil _)
  · intro c hc
    exact absurd hc (List.not_mem_nil _)
  · intro p
    simp
  · intro c hc
    exact absurd hc (List.not_mem_nil _)
  · exact List.nodup_singleton _
  · exact List.nodup_nil
  · exact List.nodup_nil
  · intro c _ hc
    exact absurd hc (List.not_mem_nil _)
  · right
    exact List.mem_singleton.mpr rfl
  · rw [cell_finset_card]
    omega

/-- C6 witness: the characterization instantiated on the all-impassable
3×3 grid with the single passable island (1, 1), at the impassable target
(0, 1). -/
theorem C6_border_flood_characterization_witness :
    ∃ l, gIsland.get_border_passable_neighbors 0 1 = some (.ok l) ∧
      (∀ p, (p ∈ l ↔ ((gIsland.nodes p).passable = true ∧
        ∃ c, InRegion gIsland (0, 1) c ∧ p ∈ gIsland.get_neighbor_nodes c.1 c.2))) ∧
      l.Nodup :=
  C6_border_flood_characterization gIsland (by decide) (by decide)
    (by unfold all_cache_computed; decide) (0, 1) (by decide) (by decide)

/-! ## Pointwise descriptions of the engine's grid mutations -/

theorem update_node_width (g : TempSearchGrid) (x y : Nat) (fn : TempNode → TempNode) :
    (g.update_node x y fn).width = g.width := by
  unfold TempSearchGrid.update_node
  split <;> rfl

theorem update_node_height (g : TempSearchGrid) (x y : Nat) (fn : TempNode → TempNode) :
    (g.update_node x y fn).height = g.height := by
  unfold TempSearchGrid.update_node
  split <;> rfl

theorem update_node_inc (g : TempSearchGrid) (x y : Nat) (fn : TempNode → TempNode) :
    (g.update_node x y fn).odd_increment = g.odd_increment := by
  unfold TempSearchGrid.update_node
  split <;> rfl

theorem update_node_cache (g : TempSearchGrid) (x y : Nat) (fn : TempNode → TempNode) :
    (g.update_node x y fn).neighbor_passable_nodes_cache = g.neighbor_passable_nodes_cache := by
  unfold TempSearchGrid.update_node
  split <;> rfl

theorem update_node_nodes_ne (g : TempSearchGrid) (x y : Nat) (fn : TempNode → TempNode)
    (p : Nat × Nat) (h : p ≠ (x, y)) : (g.update_node x y fn).nodes p = g.nodes p := by
  unfold TempSearchGrid.update_node
  split
  · simp [h]
  · rfl

theorem update_node_nodes_self (g : TempSearchGrid) (x y : Nat) (fn : TempNode → TempNode)
    (hx : x < g.width) (hy : y < g.height) :
    (g.update_node x y fn).nodes (x, y) = fn (g.nodes (x, y)) := by
  unfold TempSearchGrid.update_node
  rw [if_pos ⟨hx, hy⟩]
  simp

theorem set_node_h_fst (g : TempSearchGrid) (x y : Nat) (v : ℚ)
    (hx : x < g.width) (hy : y < g.height) :
    (g.set_node_h x y v).1 = g.update_node x y (fun n => { n with h := some v }) := by
  unfold TempSearchGrid.set_node_h
  rw [if_pos ⟨hx, hy⟩]

theorem set_node_closed_fst (g : TempSearchGrid) (x y : Nat) (v : Bool)
    (hx : x < g.width) (hy : y < g.height) :
    (g.set_node_closed x y v).1 = g.update_node x y (fun n => { n with closed := some v }) := by
  unfold TempSearchGrid.set_node_closed
  rw [if_pos ⟨hx, hy⟩]

theorem get_node_g_at_point_eq (g : TempSearchGrid) (p : Nat × Nat)
    (h : p.1 < g.width ∧ p.2 < g.height) :
    g.get_node_g_at_point p = some ((g.nodes p).g) := by
  unfold TempSearchGrid.get_node_g_at_point
  rw [if_pos h]

theorem get_node_at_point_eq (g : TempSearchGrid) (p : Nat × Nat)
    (h : p.1 < g.width ∧ p.2 < g.height) :
    g.get_node_at_point p = some (g.nodes p) := by
  unfold TempSearchGrid.get_node_at_point
  rw [if_pos h]

/-! ## Heap lemmas -/

theorem heap_push_perm (e : ℚ × Nat × Nat) :
    ∀ q : List (ℚ × Nat × Nat), List.Perm (heap_push q e) (e :: q) := by
  intro q
  induction q with
  | nil => exact List.Perm.refl _
  | cons x xs ih =>
    simp only [heap_push]
    split
    · exact List.Perm.refl _
    · exact (ih.cons x).trans (List.Perm.swap e x xs)

theorem mem_heap_push {e x : ℚ × Nat × Nat} {q : List (ℚ × Nat × Nat)} :
    x ∈ heap_push q e ↔ x = e ∨ x ∈ q := by
  rw [(heap_push_perm e q).mem_iff, List.mem_cons]

theorem heap_push_sorted {q : List (ℚ × Nat × Nat)} (e : ℚ × Nat × Nat)
    (h : q.Pairwise (fun a b => a.1 ≤ b.1)) :
    (heap_push q e).Pairwise (fun a b => a.1 ≤ b.1) := by
  induction q with
  | nil => simp [heap_push]
  | cons x xs ih =>
    rw [List.pairwise_cons] at h
    simp only [heap_push]
    split
    · rw [List.pairwise_cons]
      refine ⟨?_, List.pairwise_cons.mpr h⟩
      intro b hb
      rcases List.mem_cons.mp hb with rfl | hb
      · linarith [show e.1 < b.1 by assumption]
      · have := h.1 b hb
        have h2 : e.1 < x.1 := by assumption
        linarith
    · rw [List.pairwise_cons]
      refine ⟨?_, ih h.2⟩
      intro b hb
      rcases mem_heap_push.mp hb with rfl | hb
      · have h2 : ¬ b.1 < x.1 := by assumption
        linarith [not_lt.mp h2]
      · exact h.1 b hb

theorem heap_update_perm (q : List (ℚ × Nat × Nat)) (e : ℚ × Nat × Nat) :
    List.Perm (heap_update q e)
      (e :: q.filter (fun x => !(decide (x.2.1 = e.2.1) && decide (x.2.2 = e.2.2)))) :=
  heap_push_perm e _

theorem heap_update_sorted {q : List (ℚ × Nat × Nat)} (e : ℚ × Nat × Nat)
    (h : q.Pairwise (fun a b => a.1 ≤ b.1)) :
    (heap_update q e).Pairwise (fun a b => a.1 ≤ b.1) :=
  heap_push_sorted e (List.Pairwise.sublist (List.filter_sublist q) h)

/-! ## Evaluating `mapM` on total inputs -/

theorem mapM_eq_some_map {α β : Type} (f : α → Option β) (gfn : α → β) :
    ∀ l : List α, (∀ a ∈ l, f a = some (gfn a)) → l.mapM f = some (l.map gfn) := by
  intro l
  induction l with
  | nil => intro _; rfl
  | cons a as ih =>
    intro h
    rw [List.mapM_cons, h a (List.mem_cons_self _ _), ih (fun b hb => h b (List.mem_cons_of_mem _ hb))]
    rfl

/-! ## `hval` basics -/

theorem hval_self (s : Nat × Nat) (hf : Nat → Nat → Int → Int → ℚ) (e1 e2 : Int) :
    hval s hf e1 e2 s = 0 := by
  unfold hval
  rw [if_pos rfl]

theorem hval_ne {s p : Nat × Nat} (hf : Nat → Nat → Int → Int → ℚ) (e1 e2 : Int)
    (h : p ≠ s) : hval s hf e1 e2 p = hf p.1 p.2 e1 e2 := by
  unfold hval
  rw [if_neg h]

/-! ## Path lemmas -/

theorem step_cost_pos {G : TempSearchGrid} (hpos : pos_passability G) {p : Nat × Nat}
    (hb : in_bounds G p) (hp : (G.nodes p).passable = true) : 0 < step_cost G p := by
  unfold step_cost
  exact div_pos one_pos (hpos p.1 hb.1 p.2 hb.2 hp)

theorem path_cost_append (G : TempSearchGrid) :
    ∀ l1 l2 : List (Nat × Nat), path_cost G (l1 ++ l2) = path_cost G l1 + path_cost G l2 := by
  intro l1 l2
  induction l1 with
  | nil => simp [path_cost]
  | cons a as ih => simp [path_cost, ih]; ring

theorem valid_steps_cons {G : TempSearchGrid} {u v : Nat × Nat} {l : List (Nat × Nat)} :
    valid_steps G u (v :: l) = true ↔ v ∈ pass_list G u ∧ valid_steps G v l = true := by
  simp [valid_steps]

theorem valid_steps_mem {G : TempSearchGrid} :
    ∀ {l : List (Nat × Nat)} {u v : Nat × Nat}, valid_steps G u l = true → v ∈ l →
      in_bounds G v ∧ (G.nodes v).passable = true := by
  intro l
  induction l with
  | nil => intro u v _ hv; exact absurd hv (List.not_mem_nil v)
  | cons w ws ih =>
    intro u v h hv
    rw [valid_steps_cons] at h
    rcases List.mem_cons.mp hv with rfl | hv
    · exact ⟨mem_pass_list_in_bounds h.1, mem_pass_list_passable h.1⟩
    · exact ih h.2 hv

theorem path_cost_nonneg {G : TempSearchGrid} (hpos : pos_passability G) :
    ∀ {l : List (Nat × Nat)} {u : Nat × Nat}, valid_steps G u l = true → 0 ≤ path_cost G l := by
  intro l
  induction l with
  | nil => intro u _; simp [path_cost]
  | cons v vs ih =>
    intro u h
    rw [valid_steps_cons] at h
    have h1 := step_cost_pos hpos (mem_pass_list_in_bounds h.1) (mem_pass_list_passable h.1)
    have h2 := ih h.2
    unfold path_cost
    linarith

theorem valid_steps_snoc {G : TempSearchGrid} {c : Nat × Nat} :
    ∀ {l : List (Nat × Nat)} {u p : Nat × Nat}, valid_steps G u l = true →
      (u :: l).getLast? = some p → c ∈ pass_list G p →
      valid_steps G u (l ++ [c]) = true := by
  intro l
  induction l with
  | nil =>
    intro u p _ hlast hc
    simp only [List.getLast?_singleton, Option.some.injEq] at hlast
    subst hlast
    simp [valid_steps, hc]
  | cons v vs ih =>
    intro u p h hlast hc
    rw [valid_steps_cons] at h
    rw [List.getLast?_cons_cons] at hlast
    rw [List.cons_append, valid_steps_cons]
    exact ⟨h.1, ih h.2 hlast hc⟩

theorem is_path_snoc {G : TempSearchGrid} {l : List (Nat × Nat)} {s p c : Nat × Nat}
    (h : is_path G l s p) (hc : c ∈ pass_list G p) :
    is_path G (l ++ [c]) s c ∧
      path_cost G (l ++ [c]).tail = path_cost G l.tail + step_cost G c := by
  obtain ⟨h1, h2, h3⟩ := h
  match l, h1 with
  | s :: tl, h1 =>
  simp only [List.head?_cons, Option.some.injEq] at h1
  subst h1
  refine ⟨⟨by simp, ?_, ?_⟩, ?_⟩
  · rw [show (s :: tl) ++ [c] = s :: (tl ++ [c]) from rfl]
    exact valid_steps_snoc h2 h3 hc
  · rw [List.getLast?_concat]
  · rw [show ((s :: tl) ++ [c]).tail = tl ++ [c] from rfl]
    rw [path_cost_append]
    simp [path_cost]

theorem valid_steps_suffix {G : TempSearchGrid} :
    ∀ {l1 : List (Nat × Nat)} {u v : Nat × Nat} {l2 : List (Nat × Nat)},
      valid_steps G u (l1 ++ v :: l2) = true → valid_steps G v l2 = true := by
  intro l1
  induction l1 with
  | nil =>
    intro u v l2 h
    exact (valid_steps_cons.mp h).2
  | cons w ws ih =>
    intro u v l2 h
    rw [List.cons_append, valid_steps_cons] at h
    exact ih h.2

theorem valid_steps_front {G : TempSearchGrid} :
    ∀ {l1 : List (Nat × Nat)} {u : Nat × Nat} {l2 : List (Nat × Nat)},
      valid_steps G u (l1 ++ l2) = true → valid_steps G u l1 = true := by
  intro l1
  induction l1 with
  | nil => intro u l2 _; rfl
  | cons w ws ih =>
    intro u l2 h
    rw [List.cons_append, valid_steps_cons] at h
    rw [valid_steps_cons]
    exact ⟨h.1, ih h.2⟩

theorem valid_steps_zip {G : TempSearchGrid} :
    ∀ {l : List (Nat × Nat)} {u : Nat × Nat}, valid_steps G u l = true →
      ∀ pr ∈ (u :: l).zip l, pr.2 ∈ pass_list G pr.1 := by
  intro l
  induction l with
  | nil => intro u _ pr hpr; simp at hpr
  | cons v vs ih =>
    intro u h pr hpr
    rw [valid_steps_cons] at h
    rw [List.zip_cons_cons, List.mem_cons] at hpr
    rcases hpr with rfl | hpr
    · exact h.1
    · exact ih h.2 pr hpr

theorem reachable_passable {G : TempSearchGrid} {s t : Nat × Nat}
    (h : reachable G s t) : t = s ∨ (in_bounds G t ∧ (G.nodes t).passable = true) := by
  obtain ⟨l, h1, h2, h3⟩ := h
  match l, h1 with
  | s :: tl, h1 =>
  simp only [List.head?_cons, Option.some.injEq] at h1
  subst h1
  match tl, h2, h3 with
  | [], _, h3 =>
    left
    simp only [List.getLast?_singleton, Option.some.injEq] at h3
    exact h3.symm
  | w :: ws, h2, h3 =>
    right
    rw [List.getLast?_cons_cons] at h3
    have ht : t ∈ w :: ws := by
      have := List.getLast?_eq_getLast (w :: ws) (by simp)
      rw [this] at h3
      simp only [Option.some.injEq] at h3
      rw [← h3]
      exact List.getLast_mem _
    exact valid_steps_mem h2 ht

theorem path_trim {G : TempSearchGrid} (hpos : pos_passability G) {s t : Nat × Nat} :
    ∀ l, is_path G l s t →
      ∃ l2, is_path G l2 s t ∧ path_cost G l2.tail ≤ path_cost G l.tail ∧ s ∉ l2.tail := by
  have main : ∀ n l, l.length ≤ n → is_path G l s t →
      ∃ l2, is_path G l2 s t ∧ path_cost G l2.tail ≤ path_cost G l.tail ∧ s ∉ l2.tail := by
    intro n
    induction n with
    | zero =>
      intro l hlen h
      rw [List.length_eq_zero.mp (Nat.le_zero.mp hlen)] at h
      exact absurd h.1 (by simp)
    | succ n ih =>
      intro l hlen h
      obtain ⟨h1, h2, h3⟩ := h
      match l, h1 with
      | s :: tl, h1 =>
      simp only [List.head?_cons, Option.some.injEq] at h1
      subst h1
      by_cases hmem : s ∈ tl
      · obtain ⟨a, b, hab⟩ := List.append_of_mem hmem
        subst hab
        have hvb : valid_steps G s b = true := valid_steps_suffix (by simpa using h2)
        have hlast : (s :: b).getLast? = some t := by
          have e1 : s :: (a ++ s :: b) = (s :: a) ++ (s :: b) := by simp
          rw [← h3, e1]
          exact (List.getLast?_append_of_ne_nil (s :: a) (by simp)).symm
        have hcost : path_cost G b ≤ path_cost G (a ++ s :: b) := by
          rw [path_cost_append]
          have ha : 0 ≤ path_cost G a := path_cost_nonneg hpos (valid_steps_front h2)
          have hs : 0 < step_cost G s := by
            have hm := valid_steps_mem h2 (by simp : s ∈ a ++ s :: b)
            exact step_cost_pos hpos hm.1 hm.2
          simp only [path_cost]
          linarith
        obtain ⟨l2, hp2, hc2, hf2⟩ := ih (s :: b)
          (by simp at hlen ⊢; omega) ⟨by simp, hvb, hlast⟩
        exact ⟨l2, hp2, by simp at hc2 ⊢; linarith, hf2⟩
      · exact ⟨s :: tl, ⟨by simp, h2, h3⟩, le_refl _, hmem⟩
  intro l h
  exact main l.length l (le_refl _) h

/-! ## Heuristic telescoping along a path -/

theorem heur_tele {G : TempSearchGrid} {hf : Nat → Nat → Int → Int → ℚ} {e1 e2 : Int}
    (hok : HeurOK G hf e1 e2) :
    ∀ {l : List (Nat × Nat)} {a : Nat × Nat}, in_bounds G a → valid_steps G a l = true →
      ∀ {p : Nat × Nat}, (a :: l).getLast? = some p →
      hf a.1 a.2 e1 e2 ≤ path_cost G l + hf p.1 p.2 e1 e2 := by
  intro l
  induction l with
  | nil =>
    intro a _ _ p hlast
    simp only [List.getLast?_singleton, Option.some.injEq] at hlast
    subst hlast
    simp [path_cost]
  | cons v vs ih =>
    intro a ha hv p hlast
    rw [valid_steps_cons] at hv
    rw [List.getLast?_cons_cons] at hlast
    have h1 := hok.cons a ha v hv.1
    have h2 := ih (mem_pass_list_in_bounds hv.1) hv.2 hlast
    simp only [path_cost]
    linarith

/-! ## Backtrace correctness -/

/-- The termination measure of the parent chain: the number of in-bounds
cells with a strictly smaller `g` value. -/
def g_lower_card (G g1 : TempSearchGrid) (x : Nat × Nat) : Nat :=
  ((cell_finset G).filter (fun c => (g1.nodes c).g < (g1.nodes x).g)).card

theorem g_lower_card_lt {G g1 : TempSearchGrid} {c x : Nat × Nat} (hc : in_bounds G c)
    (hlt : (g1.nodes c).g < (g1.nodes x).g) :
    g_lower_card G g1 c < g_lower_card G g1 x := by
  apply Finset.card_lt_card
  constructor
  · intro q hq
    rw [Finset.mem_filter] at hq ⊢
    exact ⟨hq.1, lt_trans hq.2 hlt⟩
  · intro hsub
    have hcx : c ∈ (cell_finset G).filter (fun q => (g1.nodes q).g < (g1.nodes x).g) :=
      Finset.mem_filter.mpr ⟨(mem_cell_finset G c).mpr hc, hlt⟩
    have := Finset.mem_filter.mp (hsub hcx)
    exact absurd this.2 (lt_irrefl _)

theorem g_lower_card_le (G g1 : TempSearchGrid) (x : Nat × Nat) :
    g_lower_card G g1 x ≤ G.width * G.height := by
  calc g_lower_card G g1 x ≤ (cell_finset G).card := Finset.card_filter_le _ _
    _ = G.width * G.height := cell_finset_card G

theorem backtrace_spec (G g1 : TempSearchGrid) (s : Nat × Nat)
    (hw : g1.width = G.width) (hh : g1.height = G.height)
    (hpos : pos_passability G)
    (hpr : ∀ x, in_bounds G x → ∀ c, (g1.nodes x).parent = some c →
      in_bounds G c ∧ x ∈ pass_list G c ∧
      (g1.nodes x).g = (g1.nodes c).g + step_cost G x ∧ x ≠ s ∧
      (g1.nodes c).opened = some true)
    (hop : ∀ x, in_bounds G x → (g1.nodes x).opened = some true → x ≠ s →
      (g1.nodes x).parent ≠ none)
    (hsg : (g1.nodes s).g = 0) (p : Nat × Nat) (hp : in_bounds G p)
    (hpo : (g1.nodes p).opened = some true) :
    ∃ l, backtrace g1 p = some l ∧ is_path G l s p ∧
      path_cost G l.tail = (g1.nodes p).g := by
  have aux : ∀ fuel (hd : Nat × Nat) (tl : List (Nat × Nat)), in_bounds G hd →
      (g1.nodes hd).opened = some true → g_lower_card G g1 hd < fuel →
      valid_steps G hd tl = true → (hd :: tl).getLast? = some p →
      (g1.nodes hd).g + path_cost G tl = (g1.nodes p).g →
      ∃ l, backtrace_aux g1 fuel ((g1.nodes hd).parent) (hd :: tl) = some l ∧
        is_path G l s p ∧ path_cost G l.tail = (g1.nodes p).g := by
    intro fuel
    induction fuel with
    | zero => intro hd tl _ _ hfuel; omega
    | succ fuel ih =>
      intro hd tl hhd hhdo hfuel hvs hlast hcost
      match hpar : (g1.nodes hd).parent with
      | none =>
        refine ⟨hd :: tl, rfl, ?_, ?_⟩
        · have hds : hd = s := by
            by_contra hne
            exact hop hd hhd hhdo hne hpar
          subst hds
          exact ⟨by simp, hvs, hlast⟩
        · have hds : hd = s := by
            by_contra hne
            exact hop hd hhd hhdo hne hpar
          subst hds
          rw [hsg] at hcost
          simpa using hcost
      | some c =>
        obtain ⟨hcb, hmem, hgeq, hne, hco⟩ := hpr hd hhd c hpar
        have hstep : 0 < step_cost G hd :=
          step_cost_pos hpos (mem_pass_list_in_bounds hmem) (mem_pass_list_passable hmem)
        have hlt : (g1.nodes c).g < (g1.nodes hd).g := by linarith [hgeq.le, hgeq.ge]
        have hmeas : g_lower_card G g1 c < fuel := by
          have := @g_lower_card_lt G g1 c hd hcb hlt
          omega
        have hget : g1.get_node_at_point c = some (g1.nodes c) :=
          get_node_at_point_eq g1 c (by rw [hw, hh]; exact hcb)
        have hrec := ih c (hd :: tl) hcb hco hmeas
          (valid_steps_cons.mpr ⟨hmem, hvs⟩)
          (by rw [List.getLast?_cons_cons]; exact hlast)
          (by simp only [path_cost]; linarith)
        obtain ⟨l, hl1, hl2, hl3⟩ := hrec
        refine ⟨l, ?_, hl2, hl3⟩
        simp only [backtrace_aux, hget]
        exact hl1
  unfold backtrace
  rw [get_node_at_point_eq g1 p (by rw [hw, hh]; exact hp)]
  rw [hw, hh]
  exact aux (G.width * G.height + 1) p [] hp hpo
    (by have := g_lower_card_le G g1 p; omega) rfl rfl (by simp [path_cost])

/-! ## One neighbor-processing step -/

theorem getD_false_eq_true {o : Option Bool} : o.getD false = true ↔ o = some true := by
  cases o with
  | none => simp
  | some b => cases b <;> simp

theorem getD_false_eq_false {o : Option Bool} : o.getD false = false ↔ o ≠ some true := by
  cases o with
  | none => simp
  | some b => cases b <;> simp

theorem process_neighbor_spec (G : TempSearchGrid) (s : Nat × Nat)
    (hf : Nat → Nat → Int → Int → ℚ) (e1 e2 : Int)
    (hW : G.width < USIZE) (hH : G.height < USIZE) (hpos : pos_passability G)
    (p : Nat × Nat) (hpin : in_bounds G p) (cg : ℚ)
    (OPT : Prop) (hHC : OPT → HeurOK G hf e1 e2)
    (g2 : TempSearchGrid) (q2 : List (ℚ × Nat × Nat))
    (core : AStarCore G s hf e1 e2 g2 q2)
    (hpcl : (g2.nodes p).closed = some true) (hpg : (g2.nodes p).g = cg)
    (c : Nat × Nat) (hcp : c ∈ pass_list G p)
    (hopt : OPT → OptFold G s hf e1 e2 p cg g2 q2) :
    ∃ gB qB,
      process_neighbor p.1 p.2 cg hf e1 e2 (g2, q2) (c, g2.nodes c) = some (gB, qB) ∧
      AStarCore G s hf e1 e2 gB qB ∧
      (∀ x, (gB.nodes x).closed = (g2.nodes x).closed) ∧
      (∀ x, (g2.nodes x).opened = some true → (gB.nodes x).opened = some true) ∧
      (∀ x, (g2.nodes x).opened = some true → (gB.nodes x).g ≤ (g2.nodes x).g) ∧
      (gB.nodes c).opened = some true ∧
      (∀ x, x ≠ c → gB.nodes x = g2.nodes x) ∧
      (OPT → OptFold G s hf e1 e2 p cg gB qB ∧ (gB.nodes c).g ≤ cg + step_cost G c) := by
  have hcb : in_bounds G c := mem_pass_list_in_bounds hcp
  have hcpass : (G.nodes c).passable = true := mem_pass_list_passable hcp
  have hcnep : c ≠ p := pass_list_ne hW hH hpin hcp
  have hstep : 0 < step_cost G c := step_cost_pos hpos hcb hcpass
  have hpo : (g2.nodes p).opened = some true := core.closed_opened p hpin hpcl
  have hcg0 : 0 ≤ cg := hpg ▸ core.opened_g_nonneg p hpin hpo
  have hng_eq : cg + 1 / (g2.nodes c).passability = cg + step_cost G c := by
    rw [core.static_pb c]; rfl
  have hkeyp : OPT → hval s hf e1 e2 p ≤ step_cost G c + hf c.1 c.2 e1 e2 := by
    intro ho
    by_cases hps : p = s
    · rw [hps, hval_self]
      have := (hHC ho).nonneg c hcb
      linarith
    · rw [hval_ne hf e1 e2 hps]
      exact (hHC ho).cons p hpin c hcp
  by_cases hA : (g2.nodes c).closed.getD false = true
  · -- the neighbor is already closed: skipped
    have hAc : (g2.nodes c).closed = some true := getD_false_eq_true.mp hA
    refine ⟨g2, q2, ?_, core, fun _ => rfl, fun _ h => h, fun _ _ => le_refl _,
      core.closed_opened c hcb hAc, fun _ _ => rfl, ?_⟩
    · simp only [process_neighbor, hA, if_true]
    · intro ho
      refine ⟨hopt ho, ?_⟩
      by_cases hcs : c = s
      · have hgc : (g2.nodes c).g = 0 := by rw [hcs]; exact core.start_state.2.1
        rw [hgc]
        linarith
      · have h1 := (hopt ho).closed_le_key c hcb hAc
        rw [hval_ne hf e1 e2 hcs] at h1
        have h2 := hkeyp ho
        linarith
  · have hAc : (g2.nodes c).closed ≠ some true := by
      intro h
      exact hA (getD_false_eq_true.mpr h)
    have hAfalse : (g2.nodes c).closed.getD false = false := by
      rcases Bool.eq_false_or_eq_true ((g2.nodes c).closed.getD false) with h | h
      · exact absurd h hA
      · exact h
    have hgw1 : c.1 < g2.width := by rw [core.static_w]; exact hcb.1
    have hgh1 : c.2 < g2.height := by rw [core.static_h]; exact hcb.2
    by_cases hB : (g2.nodes c).opened.getD false = false
    · -- fresh neighbor: set h, open it, push
      have hBo : (g2.nodes c).opened ≠ some true := getD_false_eq_false.mp hB
      have hcs : c ≠ s := by
        intro h
        rw [h] at hBo
        exact hBo core.start_state.2.2
      obtain ⟨hch, hcpar, _⟩ := core.unopened_pristine c hcb hBo
      have hnotinq : ∀ e ∈ q2, e.2 ≠ c := by
        intro e he hec
        exact hBo (hec ▸ (core.q_mem e he).2.1)
      set nh := hf c.1 c.2 e1 e2 with hnh
      set ng := cg + step_cost G c with hngdef
      set nf := ng + nh with hnf
      set gB := (g2.update_node c.1 c.2 (fun n => { n with h := some nh })).update_node c.1 c.2
        (fun n => { n with f := nf, g := ng, parent := some (p.1, p.2), opened := some true })
        with hgB
      have hrun : process_neighbor p.1 p.2 cg hf e1 e2 (g2, q2) (c, g2.nodes c) =
          some (gB, heap_push q2 (nf, c.1, c.2)) := by
        simp only [process_neighbor]
        rw [hAfalse, hB, hch]
        simp only [Bool.false_eq_true, if_false, Bool.not_false, Option.getD_none,
          Option.isNone_none]
        rw [if_pos trivial, if_pos trivial]
        rw [set_node_h_fst g2 c.1 c.2 _ hgw1 hgh1]
        rw [hng_eq]
      have hBnodes : ∀ x, gB.nodes x = if x = c then
          { g2.nodes c with h := some nh, f := nf, g := ng, parent := some (p.1, p.2), opened := some true }
          else g2.nodes x := by
        intro x
        by_cases hx : x = c
        · subst hx
          rw [if_pos rfl]
          show gB.nodes (x.1, x.2) = _
          rw [hgB]
          rw [update_node_nodes_self _ _ _ _ (by rw [update_node_width]; exact hgw1)
            (by rw [update_node_height]; exact hgh1)]
          rw [update_node_nodes_self _ _ _ _ hgw1 hgh1]
        · rw [if_neg hx, hgB,
            update_node_nodes_ne _ _ _ _ x (by simpa using hx),
            update_node_nodes_ne _ _ _ _ x (by simpa using hx)]
      have hBW : gB.width = G.width := by
        rw [hgB, update_node_width, update_node_width]; exact core.static_w
      have hBH : gB.height = G.height := by
        rw [hgB, update_node_height, update_node_height]; exact core.static_h
      have hBcache : gB.neighbor_passable_nodes_cache = G.neighbor_passable_nodes_cache := by
        rw [hgB, update_node_cache, update_node_cache]; exact core.static_cache
      have hBclosed : ∀ x, (gB.nodes x).closed = (g2.nodes x).closed := by
        intro x
        rw [hBnodes x]
        by_cases hx : x = c
        · rw [if_pos hx, hx]
        · rw [if_neg hx]
      have hBopened : ∀ x, (gB.nodes x).opened =
          if x = c then some true else (g2.nodes x).opened := by
        intro x
        rw [hBnodes x]
        by_cases hx : x = c
        · rw [if_pos hx, if_pos hx]
        · rw [if_neg hx, if_neg hx]
      have hBg : ∀ x, (gB.nodes x).g = if x = c then ng else (g2.nodes x).g := by
        intro x
        rw [hBnodes x]
        by_cases hx : x = c
        · rw [if_pos hx, if_pos hx]
        · rw [if_neg hx, if_neg hx]
      have hBh : ∀ x, (gB.nodes x).h = if x = c then some nh else (g2.nodes x).h := by
        intro x
        rw [hBnodes x]
        by_cases hx : x = c
        · rw [if_pos hx, if_pos hx]
        · rw [if_neg hx, if_neg hx]
      have hBparent : ∀ x, (gB.nodes x).parent =
          if x = c then some (p.1, p.2) else (g2.nodes x).parent := by
        intro x
        rw [hBnodes x]
        by_cases hx : x = c
        · rw [if_pos hx, if_pos hx]
        · rw [if_neg hx, if_neg hx]
      have hBpass : ∀ x, (gB.nodes x).passable = (g2.nodes x).passable := by
        intro x
        rw [hBnodes x]
        by_cases hx : x = c
        · rw [if_pos hx, hx]
        · rw [if_neg hx]
      have hBpb : ∀ x, (gB.nodes x).passability = (g2.nodes x).passability := by
        intro x
        rw [hBnodes x]
        by_cases hx : x = c
        · rw [if_pos hx, hx]
        · rw [if_neg hx]
      have hmemq : ∀ x, x ∈ heap_push q2 (nf, c.1, c.2) ↔
          x = (nf, c.1, c.2) ∨ x ∈ q2 := fun x => mem_heap_push
      have hcore : AStarCore G s hf e1 e2 gB (heap_push q2 (nf, c.1, c.2)) := by
        refine ⟨hBW, hBH, ?_, ?_, hBcache, heap_push_sorted _ core.sorted, ?_, ?_, ?_, ?_,
          ?_, ?_, ?_, ?_, ?_, ?_, ?_, ?_⟩
        · intro x
          rw [hBpass x, core.static_pass x]
        · intro x
          rw [hBpb x, core.static_pb x]
        · -- q_nodup
          have hperm := (heap_push_perm (nf, c.1, c.2) q2).map (fun e => e.2)
          rw [List.Perm.nodup_iff hperm]
          simp only [List.map_cons]
          rw [List.nodup_cons]
          refine ⟨?_, core.q_nodup⟩
          intro hmem
          obtain ⟨e, he, hee⟩ := List.mem_map.mp hmem
          exact hnotinq e he hee
        · -- q_mem
          intro e he
          rcases (hmemq e).mp he with rfl | he2
          · refine ⟨hcb, ?_, ?_, ?_⟩
            · rw [hBopened c, if_pos rfl]
            · rw [hBclosed c]; exact hAc
            · rw [hBg c, if_pos rfl, hval_ne hf e1 e2 hcs]
          · have h4 := core.q_mem e he2
            have hne := hnotinq e he2
            refine ⟨h4.1, ?_, ?_, ?_⟩
            · rw [hBopened e.2, if_neg hne]; exact h4.2.1
            · rw [hBclosed e.2]; exact h4.2.2.1
            · rw [hBg e.2, if_neg hne]; exact h4.2.2.2
        · -- open_unclosed_in_q
          intro x hxb hxo hxc
          by_cases hx : x = c
          · exact ⟨(nf, c.1, c.2), (hmemq _).mpr (Or.inl rfl), hx.symm⟩
          · rw [hBopened x, if_neg hx] at hxo
            rw [hBclosed x] at hxc
            obtain ⟨e, he, hee⟩ := core.open_unclosed_in_q x hxb hxo hxc
            exact ⟨e, (hmemq e).mpr (Or.inr he), hee⟩
        · -- closed_opened
          intro x hxb hxc
          rw [hBclosed x] at hxc
          rw [hBopened x]
          by_cases hx : x = c
          · rw [if_pos hx]
          · rw [if_neg hx]; exact core.closed_opened x hxb hxc
        · -- opened_passable
          intro x hxb hxo
          rw [hBopened x] at hxo
          by_cases hx : x = c
          · rw [hx]; exact hcpass
          · rw [if_neg hx] at hxo; exact core.opened_passable x hxb hxo
        · -- opened_g_nonneg
          intro x hxb hxo
          rw [hBopened x] at hxo
          rw [hBg x]
          by_cases hx : x = c
          · rw [if_pos hx]; linarith
          · rw [if_neg hx]
            rw [if_neg hx] at hxo
            exact core.opened_g_nonneg x hxb hxo
        · -- opened_h
          intro x hxb hxo hxs
          rw [hBopened x] at hxo
          rw [hBh x]
          by_cases hx : x = c
          · rw [if_pos hx, hx]
          · rw [if_neg hx]
            rw [if_neg hx] at hxo
            exact core.opened_h x hxb hxo hxs
        · -- unopened_pristine
          intro x hxb hxo
          rw [hBopened x] at hxo
          by_cases hx : x = c
          · rw [if_pos hx] at hxo
            exact absurd rfl hxo
          · rw [if_neg hx] at hxo
            rw [hBh x, if_neg hx, hBparent x, if_neg hx, hBclosed x]
            exact core.unopened_pristine x hxb hxo
        · -- start_state
          rw [hBparent s, if_neg (Ne.symm hcs), hBg s, if_neg (Ne.symm hcs),
            hBopened s, if_neg (Ne.symm hcs)]
          exact core.start_state
        · -- parent_rel
          intro x hxb c' hc'
          rw [hBparent x] at hc'
          by_cases hx : x = c
          · rw [if_pos hx] at hc'
            have hc'p : c' = p := (Option.some.inj hc').symm
            rw [hc'p]
            refine ⟨hpin, ?_, by rw [hx]; exact hcp, ?_, by rw [hx]; exact hcs, ?_⟩
            · rw [hBclosed p]; exact hpcl
            · rw [hBg x, if_pos hx, hBg p, if_neg (Ne.symm hcnep), hpg, hx]
            · rw [hBopened x, if_pos hx]
          · rw [if_neg hx] at hc'
            obtain ⟨h1, h2, h3, h4, h5, h6⟩ := core.parent_rel x hxb c' hc'
            have hc'c : c' ≠ c := by
              intro h
              rw [h] at h2
              exact hAc h2
            refine ⟨h1, ?_, h3, ?_, h5, ?_⟩
            · rw [hBclosed c']; exact h2
            · rw [hBg x, if_neg hx, hBg c', if_neg hc'c]; exact h4
            · rw [hBopened x, if_neg hx]; exact h6
        · -- opened_parent
          intro x hxb hxo hxs
          rw [hBparent x]
          by_cases hx : x = c
          · rw [if_pos hx]; exact Option.some_ne_none _
          · rw [if_neg hx]
            rw [hBopened x, if_neg hx] at hxo
            exact core.opened_parent x hxb hxo hxs
        · -- opened_g_path
          intro x hxb hxo
          rw [hBopened x] at hxo
          by_cases hx : x = c
          · obtain ⟨lp, hlp, hlpc⟩ := core.opened_g_path p hpin hpo
            obtain ⟨hpath, hcost⟩ := is_path_snoc hlp hcp
            subst hx
            refine ⟨lp ++ [x], hpath, ?_⟩
            rw [hcost, hlpc, hpg, hBg x, if_pos rfl]
          · rw [if_neg hx] at hxo
            obtain ⟨lp, hlp, hlpc⟩ := core.opened_g_path x hxb hxo
            refine ⟨lp, hlp, ?_⟩
            rw [hBg x, if_neg hx]
            exact hlpc
      refine ⟨gB, heap_push q2 (nf, c.1, c.2), hrun, hcore, hBclosed, ?_, ?_, ?_, ?_, ?_⟩
      · intro x hx
        rw [hBopened x]
        by_cases h : x = c
        · rw [if_pos h]
        · rw [if_neg h]; exact hx
      · intro x hx
        rw [hBg x]
        by_cases h : x = c
        · rw [h] at hx; exact absurd hx hBo
        · rw [if_neg h]
      · rw [hBopened c, if_pos rfl]
      · intro x hx
        rw [hBnodes x, if_neg hx]
      · intro ho
        obtain ⟨o1, o2, o3, o4, o5, o6⟩ := hopt ho
        have hclch : ∀ v, in_bounds G v → (gB.nodes v).closed = some true → v ≠ c := by
          intro v _ hv hvc
          rw [hvc, hBclosed c] at hv
          exact hAc hv
        constructor
        · refine ⟨o1, ?_, ?_, ?_, ?_, ?_⟩
          · intro v hvb hvc
            have hvnc := hclch v hvb hvc
            rw [hBclosed v] at hvc
            rw [hBg v, if_neg hvnc]
            exact o2 v hvb hvc
          · intro v hvb hvc e he
            have hvnc := hclch v hvb hvc
            rw [hBclosed v] at hvc
            rw [hBg v, if_neg hvnc]
            rcases (hmemq e).mp he with rfl | he2
            · have h1 := o2 v hvb hvc
              have h2 := hkeyp ho
              show (g2.nodes v).g + hval s hf e1 e2 v ≤ nf
              rw [hnf, hngdef]
              linarith
            · exact o3 v hvb hvc e he2
          · intro v hvb hvc l hl
            have hvnc := hclch v hvb hvc
            rw [hBclosed v] at hvc
            rw [hBg v, if_neg hvnc]
            exact o4 v hvb hvc l hl
          · intro u hub huc hup v hv
            have hunc := hclch u hub huc
            rw [hBclosed u] at huc
            rw [hBg u, if_neg hunc, hBg v]
            by_cases hvc2 : v = c
            · rw [hvc2] at hv
              exact absurd (o6 u hub huc hup c hv) hBo
            · rw [if_neg hvc2]
              exact o5 u hub huc hup v hv
          · intro u hub huc hup v hv
            have hunc := hclch u hub huc
            rw [hBclosed u] at huc
            rw [hBopened v]
            by_cases hvc2 : v = c
            · rw [if_pos hvc2]
            · rw [if_neg hvc2]
              exact o6 u hub huc hup v hv
        · rw [hBg c, if_pos rfl]
    · -- the neighbor is already opened
      have hBo : (g2.nodes c).opened.getD false = true := by
        rcases Bool.eq_false_or_eq_true ((g2.nodes c).opened.getD false) with h | h
        · exact h
        · exact absurd h hB
      have hco : (g2.nodes c).opened = some true := getD_false_eq_true.mp hBo
      by_cases hC : cg + 1 / (g2.nodes c).passability < (g2.nodes c).g
      · -- strict improvement: decrease-key
        have hCs : cg + step_cost G c < (g2.nodes c).g := by rw [← hng_eq]; exact hC
        have hcs : c ≠ s := by
          intro h
          have hgs : (g2.nodes c).g = 0 := by rw [h]; exact core.start_state.2.1
          rw [hgs] at hCs
          linarith
        have hch : (g2.nodes c).h = some (hf c.1 c.2 e1 e2) := core.opened_h c hcb hco hcs
        set nh := hf c.1 c.2 e1 e2 with hnh
        set ng := cg + step_cost G c with hngdef
        set nf := ng + nh with hnf
        set gB := g2.update_node c.1 c.2
          (fun n => { n with f := nf, g := ng, parent := some (p.1, p.2) }) with hgB
        have hrun : process_neighbor p.1 p.2 cg hf e1 e2 (g2, q2) (c, g2.nodes c) =
            some (gB, heap_update q2 (nf, c.1, c.2)) := by
          simp only [process_neighbor]
          rw [hAfalse, hBo, hch]
          simp only [Bool.not_true, Bool.false_eq_true, if_false, if_pos hC]
          rw [hng_eq]
        have hBnodes : ∀ x, gB.nodes x = if x = c then
            { g2.nodes c with f := nf, g := ng, parent := some (p.1, p.2) }
            else g2.nodes x := by
          intro x
          by_cases hx : x = c
          · subst hx
            rw [if_pos rfl]
            show gB.nodes (x.1, x.2) = _
            rw [hgB, update_node_nodes_self _ _ _ _ hgw1 hgh1]
          · rw [if_neg hx, hgB, update_node_nodes_ne _ _ _ _ x (by simpa using hx)]
        have hBW : gB.width = G.width := by
          rw [hgB, update_node_width]; exact core.static_w
        have hBH : gB.height = G.height := by
          rw [hgB, update_node_height]; exact core.static_h
        have hBcache : gB.neighbor_passable_nodes_cache = G.neighbor_passable_nodes_cache := by
          rw [hgB, update_node_cache]; exact core.static_cache
        have hBclosed : ∀ x, (gB.nodes x).closed = (g2.nodes x).closed := by
          intro x
          rw [hBnodes x]
          by_cases hx : x = c
          · rw [if_pos hx, hx]
          · rw [if_neg hx]
        have hBopened : ∀ x, (gB.nodes x).opened = (g2.nodes x).opened := by
          intro x
          rw [hBnodes x]
          by_cases hx : x = c
          · rw [if_pos hx, hx]
          · rw [if_neg hx]
        have hBg : ∀ x, (gB.nodes x).g = if x = c then ng else (g2.nodes x).g := by
          intro x
          rw [hBnodes x]
          by_cases hx : x = c
          · rw [if_pos hx, if_pos hx]
          · rw [if_neg hx, if_neg hx]
        have hBh : ∀ x, (gB.nodes x).h = (g2.nodes x).h := by
          intro x
          rw [hBnodes x]
          by_cases hx : x = c
          · rw [if_pos hx, hx]
          · rw [if_neg hx]
        have hBparent : ∀ x, (gB.nodes x).parent =
            if x = c then some (p.1, p.2) else (g2.nodes x).parent := by
          intro x
          rw [hBnodes x]
          by_cases hx : x = c
          · rw [if_pos hx, if_pos hx]
          · rw [if_neg hx, if_neg hx]
        have hBpass : ∀ x, (gB.nodes x).passable = (g2.nodes x).passable := by
          intro x
          rw [hBnodes x]
          by_cases hx : x = c
          · rw [if_pos hx, hx]
          · rw [if_neg hx]
        have hBpb : ∀ x, (gB.nodes x).passability = (g2.nodes x).passability := by
          intro x
          rw [hBnodes x]
          by_cases hx : x = c
          · rw [if_pos hx, hx]
          · rw [if_neg hx]
        set qfil := q2.filter
          (fun x => !(decide (x.2.1 = c.1) && decide (x.2.2 = c.2))) with hqfil
        have hfilmem : ∀ e ∈ qfil, e ∈ q2 ∧ e.2 ≠ c := by
          intro e he
          rw [hqfil, List.mem_filter] at he
          refine ⟨he.1, ?_⟩
          intro hec
          have := he.2
          rw [hec] at this
          simp at this
        have hmemq : ∀ x, x ∈ heap_update q2 (nf, c.1, c.2) ↔
            x = (nf, c.1, c.2) ∨ x ∈ qfil := by
          intro x
          rw [(heap_update_perm q2 (nf, c.1, c.2)).mem_iff, List.mem_cons, hqfil]
        have hsurvive : ∀ e ∈ q2, e.2 ≠ c → e ∈ qfil := by
          intro e he hec
          rw [hqfil, List.mem_filter]
          refine ⟨he, ?_⟩
          by_cases h1 : e.2.1 = c.1
          · have h2 : ¬ e.2.2 = c.2 := fun h2 => hec (Prod.ext h1 h2)
            simp [h1, h2]
          · simp [h1]
        have hcore : AStarCore G s hf e1 e2 gB (heap_update q2 (nf, c.1, c.2)) := by
          refine ⟨hBW, hBH, ?_, ?_, hBcache, heap_update_sorted _ core.sorted, ?_, ?_, ?_,
            ?_, ?_, ?_, ?_, ?_, ?_, ?_, ?_, ?_⟩
          · intro x
            rw [hBpass x, core.static_pass x]
          · intro x
            rw [hBpb x, core.static_pb x]
          · -- q_nodup
            have hperm := (heap_update_perm q2 (nf, c.1, c.2)).map (fun e => e.2)
            rw [List.Perm.nodup_iff hperm]
            simp only [List.map_cons]
            rw [List.nodup_cons]
            constructor
            · intro hmem
              obtain ⟨e, he, hee⟩ := List.mem_map.mp hmem
              exact (hfilmem e he).2 hee
            · exact List.Nodup.sublist (List.Sublist.map _ (List.filter_sublist q2)) core.q_nodup
          · -- q_mem
            intro e he
            rcases (hmemq e).mp he with rfl | he2
            · refine ⟨hcb, ?_, ?_, ?_⟩
              · rw [hBopened c]; exact hco
              · rw [hBclosed c]; exact hAc
              · rw [hBg c, if_pos rfl, hval_ne hf e1 e2 hcs]
            · obtain ⟨heq2, hene⟩ := hfilmem e he2
              have h4 := core.q_mem e heq2
              refine ⟨h4.1, ?_, ?_, ?_⟩
              · rw [hBopened e.2]; exact h4.2.1
              · rw [hBclosed e.2]; exact h4.2.2.1
              · rw [hBg e.2, if_neg hene]; exact h4.2.2.2
          · -- open_unclosed_in_q
            intro x hxb hxo hxc
            by_cases hx : x = c
            · exact ⟨(nf, c.1, c.2), (hmemq _).mpr (Or.inl rfl), hx.symm⟩
            · rw [hBopened x] at hxo
              rw [hBclosed x] at hxc
              obtain ⟨e, he, hee⟩ := core.open_unclosed_in_q x hxb hxo hxc
              refine ⟨e, (hmemq e).mpr (Or.inr (hsurvive e he ?_)), hee⟩
              rw [hee]
              exact hx
          · -- closed_opened
            intro x hxb hxc
            rw [hBclosed x] at hxc
            rw [hBopened x]
            exact core.closed_opened x hxb hxc
          · -- opened_passable
            intro x hxb hxo
            rw [hBopened x] at hxo
            exact core.opened_passable x hxb hxo
          · -- opened_g_nonneg
            intro x hxb hxo
            rw [hBopened x] at hxo
            rw [hBg x]
            by_cases hx : x = c
            · rw [if_pos hx]
              rw [hngdef]
              linarith
            · rw [if_neg hx]
              exact core.opened_g_nonneg x hxb hxo
          · -- opened_h
            intro x hxb hxo hxs
            rw [hBopened x] at hxo
            rw [hBh x]
            exact core.opened_h x hxb hxo hxs
          · -- unopened_pristine
            intro x hxb hxo
            rw [hBopened x] at hxo
            have hx : x ≠ c := by
              intro h
              rw [h] at hxo
              exact hxo hco
            rw [hBh x, hBparent x, if_neg hx, hBclosed x]
            exact core.unopened_pristine x hxb hxo
          · -- start_state
            rw [hBparent s, if_neg (Ne.symm hcs), hBg s, if_neg (Ne.symm hcs), hBopened s]
            exact core.start_state
          · -- parent_rel
            intro x hxb c' hc'
            rw [hBparent x] at hc'
            by_cases hx : x = c
            · rw [if_pos hx] at hc'
              have hc'p : c' = p := (Option.some.inj hc').symm
              rw [hc'p]
              refine ⟨hpin, ?_, by rw [hx]; exact hcp, ?_, by rw [hx]; exact hcs, ?_⟩
              · rw [hBclosed p]; exact hpcl
              · rw [hBg x, if_pos hx, hBg p, if_neg (Ne.symm hcnep), hpg, hx]
              · rw [hBopened x, hx]; exact hco
            · rw [if_neg hx] at hc'
              obtain ⟨h1, h2, h3, h4, h5, h6⟩ := core.parent_rel x hxb c' hc'
              have hc'c : c' ≠ c := by
                intro h
                rw [h] at h2
                exact hAc h2
              refine ⟨h1, ?_, h3, ?_, h5, ?_⟩
              · rw [hBclosed c']; exact h2
              · rw [hBg x, if_neg hx, hBg c', if_neg hc'c]; exact h4
              · rw [hBopened x]; exact h6
          · -- opened_parent
            intro x hxb hxo hxs
            rw [hBparent x]
            by_cases hx : x = c
            · rw [if_pos hx]; exact Option.some_ne_none _
            · rw [if_neg hx]
              rw [hBopened x] at hxo
              exact core.opened_parent x hxb hxo hxs
          · -- opened_g_path
            intro x hxb hxo
            rw [hBopened x] at hxo
            by_cases hx : x = c
            · obtain ⟨lp, hlp, hlpc⟩ := core.opened_g_path p hpin hpo
              obtain ⟨hpath, hcost⟩ := is_path_snoc hlp hcp
              refine ⟨lp ++ [c], by rw [hx]; exact hpath, ?_⟩
              rw [hcost, hlpc, hpg, hBg x, if_pos hx, hngdef]
            · obtain ⟨lp, hlp, hlpc⟩ := core.opened_g_path x hxb hxo
              refine ⟨lp, hlp, ?_⟩
              rw [hBg x, if_neg hx]
              exact hlpc
        refine ⟨gB, heap_update q2 (nf, c.1, c.2), hrun, hcore, hBclosed, ?_, ?_, ?_, ?_, ?_⟩
        · intro x hx
          rw [hBopened x]
          exact hx
        · intro x hx
          rw [hBg x]
          by_cases h : x = c
          · rw [if_pos h, hngdef, h]
            linarith
          · rw [if_neg h]
        · rw [hBopened c]; exact hco
        · intro x hx
          rw [hBnodes x, if_neg hx]
        · intro ho
          obtain ⟨o1, o2, o3, o4, o5, o6⟩ := hopt ho
          have hclch : ∀ v, in_bounds G v → (gB.nodes v).closed = some true → v ≠ c := by
            intro v _ hv hvc
            rw [hvc, hBclosed c] at hv
            exact hAc hv
          constructor
          · refine ⟨o1, ?_, ?_, ?_, ?_, ?_⟩
            · intro v hvb hvc
              have hvnc := hclch v hvb hvc
              rw [hBclosed v] at hvc
              rw [hBg v, if_neg hvnc]
              exact o2 v hvb hvc
            · intro v hvb hvc e he
              have hvnc := hclch v hvb hvc
              rw [hBclosed v] at hvc
              rw [hBg v, if_neg hvnc]
              rcases (hmemq e).mp he with rfl | he2
              · have h1 := o2 v hvb hvc
                have h2 := hkeyp ho
                show (g2.nodes v).g + hval s hf e1 e2 v ≤ nf
                rw [hnf, hngdef]
                linarith
              · exact o3 v hvb hvc e (hfilmem e he2).1
            · intro v hvb hvc l hl
              have hvnc := hclch v hvb hvc
              rw [hBclosed v] at hvc
              rw [hBg v, if_neg hvnc]
              exact o4 v hvb hvc l hl
            · intro u hub huc hup v hv
              have hunc := hclch u hub huc
              rw [hBclosed u] at huc
              rw [hBg u, if_neg hunc, hBg v]
              by_cases hvc2 : v = c
              · rw [if_pos hvc2]
                have := o5 u hub huc hup v hv
                rw [hvc2] at this
                rw [hngdef, hvc2]
                linarith
              · rw [if_neg hvc2]
                exact o5 u hub huc hup v hv
            · intro u hub huc hup v hv
              have hunc := hclch u hub huc
              rw [hBclosed u] at huc
              rw [hBopened v]
              exact o6 u hub huc hup v hv
          · rw [hBg c, if_pos rfl, hngdef]
      · -- no improvement: skipped
        have hCge : (g2.nodes c).g ≤ cg + step_cost G c := by
          rw [← hng_eq]
          exact not_lt.mp hC
        have hrun : process_neighbor p.1 p.2 cg hf e1 e2 (g2, q2) (c, g2.nodes c) =
            some (g2, q2) := by
          simp only [process_neighbor]
          rw [hAfalse, hBo]
          simp only [Bool.not_true, Bool.false_eq_true, if_false, if_neg hC]
        refine ⟨g2, q2, hrun, core, fun _ => rfl, fun _ h => h, fun _ _ => le_refl _,
          hco, fun _ _ => rfl, ?_⟩
        intro ho
        exact ⟨hopt ho, hCge⟩

/-! ## The neighbor fold of one loop iteration -/

theorem astar_fold_spec (G : TempSearchGrid) (s : Nat × Nat)
    (hf : Nat → Nat → Int → Int → ℚ) (e1 e2 : Int)
    (hW : G.width < USIZE) (hH : G.height < USIZE) (hpos : pos_passability G)
    (p : Nat × Nat) (hpin : in_bounds G p) (cg : ℚ)
    (OPT : Prop) (hHC : OPT → HeurOK G hf e1 e2) :
    ∀ (nbs : List ((Nat × Nat) × TempNode)) (g2 : TempSearchGrid)
      (q2 : List (ℚ × Nat × Nat)),
      (∀ e ∈ nbs, e.1 ∈ pass_list G p ∧ e.2 = g2.nodes e.1) →
      (nbs.map (fun e => e.1)).Nodup →
      AStarCore G s hf e1 e2 g2 q2 →
      (g2.nodes p).closed = some true →
      (g2.nodes p).g = cg →
      (OPT → OptFold G s hf e1 e2 p cg g2 q2) →
      ∃ g3 q3,
        nbs.foldlM (process_neighbor p.1 p.2 cg hf e1 e2) (g2, q2) = some (g3, q3) ∧
        AStarCore G s hf e1 e2 g3 q3 ∧
        (∀ x, (g3.nodes x).closed = (g2.nodes x).closed) ∧
        (∀ x, (g2.nodes x).opened = some true → (g3.nodes x).opened = some true) ∧
        (∀ x, (g2.nodes x).opened = some true → (g3.nodes x).g ≤ (g2.nodes x).g) ∧
        (∀ e ∈ nbs, (g3.nodes e.1).opened = some true) ∧
        (∀ x, x ∉ nbs.map (fun e => e.1) → g3.nodes x = g2.nodes x) ∧
        (OPT → OptFold G s hf e1 e2 p cg g3 q3 ∧
          ∀ e ∈ nbs, (g3.nodes e.1).g ≤ cg + step_cost G e.1) := by
  intro nbs
  induction nbs with
  | nil =>
    intro g2 q2 _ _ core hpcl hpg hopt
    exact ⟨g2, q2, rfl, core, fun _ => rfl, fun _ h => h, fun _ _ => le_refl _,
      fun e he => absurd he (List.not_mem_nil _), fun _ _ => rfl,
      fun ho => ⟨hopt ho, fun e he => absurd he (List.not_mem_nil _)⟩⟩
  | cons hd rest ih =>
    intro g2 q2 hnb hnd core hpcl hpg hopt
    obtain ⟨hcp, hsnap⟩ := hnb hd (List.mem_cons_self _ _)
    have hcnep : hd.1 ≠ p := pass_list_ne hW hH hpin hcp
    obtain ⟨gB, qB, hrun, coreB, hBclosed, hBomono, hBgmono, hBcopen, hBunch, hBopt⟩ :=
      process_neighbor_spec G s hf e1 e2 hW hH hpos p hpin cg OPT hHC g2 q2 core hpcl hpg
        hd.1 hcp hopt
    have hhd1notin : hd.1 ∉ rest.map (fun e => e.1) := by
      have := hnd
      rw [List.map_cons, List.nodup_cons] at this
      exact this.1
    have hnb' : ∀ e ∈ rest, e.1 ∈ pass_list G p ∧ e.2 = gB.nodes e.1 := by
      intro e he
      have h1 := hnb e (List.mem_cons_of_mem _ he)
      have hne : e.1 ≠ hd.1 := by
        intro h
        exact hhd1notin (h ▸ List.mem_map_of_mem (fun e => e.1) he)
      rw [hBunch e.1 hne]
      exact h1
    have hnd' : (rest.map (fun e => e.1)).Nodup := by
      have := hnd
      rw [List.map_cons, List.nodup_cons] at this
      exact this.2
    have hpclB : (gB.nodes p).closed = some true := by rw [hBclosed p]; exact hpcl
    have hpgB : (gB.nodes p).g = cg := by
      rw [hBunch p (Ne.symm hcnep)]
      exact hpg
    obtain ⟨g3, q3, hfold, core3, h3closed, h3open, h3g, h3nbs, h3unch, h3opt⟩ :=
      ih gB qB hnb' hnd' coreB hpclB hpgB (fun ho => (hBopt ho).1)
    refine ⟨g3, q3, ?_, core3, ?_, ?_, ?_, ?_, ?_, ?_⟩
    · rw [List.foldlM_cons]
      rw [show hd = (hd.1, g2.nodes hd.1) from Prod.ext rfl hsnap]
      rw [hrun]
      exact hfold
    · intro x
      rw [h3closed x, hBclosed x]
    · intro x hx
      exact h3open x (hBomono x hx)
    · intro x hx
      exact le_trans (h3g x (hBomono x hx)) (hBgmono x hx)
    · intro e he
      rcases List.mem_cons.mp he with rfl | he2
      · exact h3open e.1 hBcopen
      · exact h3nbs e he2
    · intro x hx
      rw [List.map_cons, List.mem_cons] at hx
      push_neg at hx
      rw [h3unch x hx.2, hBunch x hx.1]
    · intro ho
      refine ⟨(h3opt ho).1, ?_⟩
      intro e he
      rcases List.mem_cons.mp he with rfl | he2
      · calc (g3.nodes e.1).g ≤ (gB.nodes e.1).g := h3g e.1 hBcopen
          _ ≤ cg + step_cost G e.1 := (hBopt ho).2
      · exact (h3opt ho).2 e he2

/-! ## Optimality of a popped node's `g` value -/

theorem popped_opt (G : TempSearchGrid) (s : Nat × Nat)
    (hf : Nat → Nat → Int → Int → ℚ) (e1 e2 : Int)
    (hpos : pos_passability G) (hok : HeurOK G hf e1 e2) (hs : in_bounds G s)
    (g : TempSearchGrid) (e : ℚ × Nat × Nat) (q0 : List (ℚ × Nat × Nat))
    (hinv : AStarInv G s hf e1 e2 g (e :: q0))
    (hoi : AStarOptInv G s hf e1 e2 g (e :: q0)) :
    ∀ l, is_path G l s e.2 → (g.nodes e.2).g ≤ path_cost G l.tail := by
  have core := hinv.core
  obtain ⟨hpb, hpo, hpcl, hpkey⟩ := core.q_mem e (List.mem_cons_self _ _)
  have hmin : ∀ e' ∈ (e :: q0), e.1 ≤ e'.1 := by
    intro e' he'
    rcases List.mem_cons.mp he' with rfl | he2
    · exact le_refl _
    · exact (List.pairwise_cons.mp core.sorted).1 e' he2
  by_cases hps : e.2 = s
  · intro l hl
    rw [hps, core.start_state.2.1]
    exact path_cost_nonneg hpos hl.2.1
  · intro l hl
    obtain ⟨l2, hl2, hle, hsfree⟩ := path_trim hpos l hl
    suffices h : (g.nodes e.2).g ≤ path_cost G l2.tail from le_trans h hle
    have W : ∀ (tl : List (Nat × Nat)) (u : Nat × Nat), in_bounds G u →
        (g.nodes u).closed = some true → valid_steps G u tl = true → s ∉ tl →
        (u :: tl).getLast? = some e.2 →
        (g.nodes e.2).g ≤ (g.nodes u).g + path_cost G tl := by
      intro tl
      induction tl with
      | nil =>
        intro u _ huc _ _ hlast
        simp only [List.getLast?_singleton, Option.some.injEq] at hlast
        exact absurd (hlast ▸ huc) hpcl
      | cons v vs ihW =>
        intro u hub huc hv hsnot hlast
        rw [valid_steps_cons] at hv
        rw [List.getLast?_cons_cons] at hlast
        have hvb := mem_pass_list_in_bounds hv.1
        have hvs2 : s ∉ vs := fun h => hsnot (List.mem_cons_of_mem _ h)
        have hvns : v ≠ s := fun h => hsnot (h ▸ List.mem_cons_self _ _)
        have hfb := hoi.frontier_bound u hub huc v hv.1
        by_cases hvc : (g.nodes v).closed = some true
        · have := ihW v hvb hvc hv.2 hvs2 hlast
          simp only [path_cost]
          linarith
        · have hvo := hinv.closed_frontier u hub huc v hv.1
          obtain ⟨ev, hev, hev2⟩ := core.open_unclosed_in_q v hvb hvo hvc
          have hkey := (core.q_mem ev hev).2.2.2
          rw [hev2, hval_ne hf e1 e2 hvns] at hkey
          have hminv := hmin ev hev
          have htele := heur_tele hok hvb hv.2 hlast
          have hpkey2 := hpkey
          rw [hval_ne hf e1 e2 hps] at hpkey2
          simp only [path_cost]
          linarith
    obtain ⟨h1, h2, h3⟩ := hl2
    match l2, h1, h2, h3, hsfree with
    | s0 :: tl, h1, h2, h3, hsfree =>
    simp only [List.head?_cons, Option.some.injEq] at h1
    subst h1
    by_cases hsc : (g.nodes s0).closed = some true
    · have hres := W tl s0 hs hsc h2 hsfree h3
      rw [core.start_state.2.1] at hres
      simpa using hres
    · obtain ⟨es, hes, hes2⟩ := core.open_unclosed_in_q s0 hs core.start_state.2.2 hsc
      have hkey := (core.q_mem es hes).2.2.2
      rw [hes2, hval_self, core.start_state.2.1] at hkey
      have hmins := hmin es hes
      have hnn := path_cost_nonneg hpos h2
      simp only [List.tail_cons] at hnn
      have hfnn := hok.nonneg e.2 hpb
      have hpkey2 := hpkey
      rw [hval_ne hf e1 e2 hps] at hpkey2
      simp only [List.tail_cons]
      linarith

/-! ## Reduction lemmas for the loop -/

theorem astar_loop_nil (hf : Nat → Nat → Int → Int → ℚ) (terminal : List (Nat × Nat))
    (sp ep : Int × Int) (fuel : Nat) (g : TempSearchGrid) :
    astar_loop hf terminal sp ep (fuel + 1) g [] =
      some (g, .error (.pathNotFound sp ep)) := rfl

theorem astar_loop_cons (hf : Nat → Nat → Int → Int → ℚ) (terminal : List (Nat × Nat))
    (sp ep : Int × Int) (fuel : Nat) (g : TempSearchGrid) (e : ℚ × Nat × Nat)
    (q0 : List (ℚ × Nat × Nat)) (cg : ℚ) (hg : g.get_node_g_at_point e.2 = some cg) :
    astar_loop hf terminal sp ep (fuel + 1) g (e :: q0) =
      (if e.2 ∈ terminal then
        match backtrace (g.set_node_closed e.2.1 e.2.2 true).1 e.2 with
        | none => none
        | some path => some ((g.set_node_closed e.2.1 e.2.2 true).1, .ok path)
      else
        match (g.set_node_closed e.2.1 e.2.2
            true).1.get_neighbors_passable_nodes_from_cache e.2.1 e.2.2 with
        | none => none
        | some (.error _) => none
        | some (.ok nbs) =>
          match nbs.foldlM (process_neighbor e.2.1 e.2.2 cg hf ep.1 ep.2)
              ((g.set_node_closed e.2.1 e.2.2 true).1, q0) with
          | none => none
          | some st2 => astar_loop hf terminal sp ep fuel st2.1 st2.2) := by
  conv_lhs => unfold astar_loop
  simp only [heap_pop]
  simp only [show ((e.2.1 : Nat), (e.2.2 : Nat)) = e.2 from rfl]
  rw [hg]

/-! ## The termination measure -/

theorem unclosed_card_congr {G g1 g2 : TempSearchGrid}
    (h : ∀ x, (g1.nodes x).closed = (g2.nodes x).closed) :
    unclosed_card G g1 = unclosed_card G g2 := by
  unfold unclosed_card
  congr 1
  apply Finset.filter_congr
  intro x _
  rw [h x]

theorem unclosed_card_close {G g g1 : TempSearchGrid} (p : Nat × Nat) (hp : in_bounds G p)
    (hpc : (g.nodes p).closed ≠ some true)
    (hcl : ∀ x, (g1.nodes x).closed = if x = p then some true else (g.nodes x).closed) :
    unclosed_card G g1 < unclosed_card G g := by
  unfold unclosed_card
  apply Finset.card_lt_card
  constructor
  · intro x hx
    rw [Finset.mem_filter] at hx ⊢
    refine ⟨hx.1, ?_⟩
    intro hc
    apply hx.2
    rw [hcl x]
    by_cases h : x = p
    · rw [h] at hc
      exact absurd hc hpc
    · rw [if_neg h]
      exact hc
  · intro hsub
    have hpmem : p ∈ (cell_finset G).filter (fun x => ¬ (g.nodes x).closed = some true) :=
      Finset.mem_filter.mpr ⟨(mem_cell_finset G p).mpr hp, hpc⟩
    have := Finset.mem_filter.mp (hsub hpmem)
    apply this.2
    rw [hcl p, if_pos rfl]

theorem map_fst_pair {α β : Type} (f : α → β) :
    ∀ l : List α, ((l.map (fun c => (c, f c))).map (fun x => x.1)) = l := by
  intro l
  induction l with
  | nil => rfl
  | cons a as ih => simp only [List.map_cons, ih]

/-! ## The main loop theorem -/

theorem astar_loop_spec (G : TempSearchGrid) (s : Nat × Nat)
    (hf : Nat → Nat → Int → Int → ℚ) (terminal : List (Nat × Nat)) (sp ep : Int × Int)
    (hW : G.width < USIZE) (hH : G.height < USIZE)
    (hcache : passable_cache_computed G) (hpos : pos_passability G)
    (hs : in_bounds G s) (OPT : Prop) (hHC : OPT → HeurOK G hf ep.1 ep.2) :
    ∀ (fuel : Nat) (g : TempSearchGrid) (q : List (ℚ × Nat × Nat)),
      AStarInv G s hf ep.1 ep.2 g q →
      (OPT → AStarOptInv G s hf ep.1 ep.2 g q) →
      (∀ t ∈ terminal, (g.nodes t).closed ≠ some true) →
      unclosed_card G g < fuel →
      ∃ g' r, astar_loop hf terminal sp ep fuel g q = some (g', r) ∧
        ((∃ p l, r = .ok l ∧ p ∈ terminal ∧ is_path G l s p ∧
            path_cost G l.tail = ((g'.nodes p).g) ∧
            (OPT → ∀ l', is_path G l' s p → (g'.nodes p).g ≤ path_cost G l'.tail)) ∨
         (r = .error (.pathNotFound sp ep) ∧ ∀ t ∈ terminal, ¬ reachable G s t)) := by
  intro fuel
  induction fuel with
  | zero => intro g q _ _ _ hfuel; omega
  | succ fuel ihL =>
    intro g q hinv hoi hterm hfuel
    have core := hinv.core
    match hq : q with
    | [] =>
      refine ⟨g, .error (.pathNotFound sp ep), astar_loop_nil hf terminal sp ep fuel g,
        Or.inr ⟨rfl, ?_⟩⟩
      intro t ht hreach
      subst hq
      have hall : ∀ x, in_bounds G x → (g.nodes x).opened = some true →
          (g.nodes x).closed = some true := by
        intro x hxb hxo
        by_contra hxc
        obtain ⟨e, he, _⟩ := core.open_unclosed_in_q x hxb hxo hxc
        exact absurd he (List.not_mem_nil _)
      have hstep : ∀ u, in_bounds G u → (g.nodes u).closed = some true →
          ∀ v ∈ pass_list G u, (g.nodes v).closed = some true := by
        intro u hub huc v hv
        exact hall v (mem_pass_list_in_bounds hv) (hinv.closed_frontier u hub huc v hv)
      have hscl : (g.nodes s).closed = some true := hall s hs core.start_state.2.2
      have hchain : ∀ (tl : List (Nat × Nat)) (u : Nat × Nat), in_bounds G u →
          (g.nodes u).closed = some true → valid_steps G u tl = true →
          ∀ x, (u :: tl).getLast? = some x → (g.nodes x).closed = some true := by
        intro tl
        induction tl with
        | nil =>
          intro u _ huc _ x hlast
          simp only [List.getLast?_singleton, Option.some.injEq] at hlast
          exact hlast ▸ huc
        | cons v vs ihc =>
          intro u hub huc hv x hlast
          rw [valid_steps_cons] at hv
          rw [List.getLast?_cons_cons] at hlast
          exact ihc v (mem_pass_list_in_bounds hv.1) (hstep u hub huc v hv.1) hv.2 x hlast
      obtain ⟨l, h1, h2, h3⟩ := hreach
      match l, h1, h2, h3 with
      | s0 :: tl, h1, h2, h3 =>
      simp only [List.head?_cons, Option.some.injEq] at h1
      subst h1
      rw [List.tail_cons] at h2
      exact hterm t ht (hchain tl s0 hs hscl h2 t h3)
    | e :: q0 =>
      subst hq
      obtain ⟨hpb, hpo, hpcl, hpkey⟩ := core.q_mem e (List.mem_cons_self _ _)
      have hbw : e.2.1 < g.width := by rw [core.static_w]; exact hpb.1
      have hbh : e.2.2 < g.height := by rw [core.static_h]; exact hpb.2
      have hge : g.get_node_g_at_point e.2 = some ((g.nodes e.2).g) :=
        get_node_g_at_point_eq g e.2 ⟨hbw, hbh⟩
      set g1 := (g.set_node_closed e.2.1 e.2.2 true).1 with hg1def
      have h1nodes : ∀ x, g1.nodes x =
          if x = e.2 then { g.nodes e.2 with closed := some true } else g.nodes x := by
        intro x
        rw [hg1def, set_node_closed_fst g e.2.1 e.2.2 true hbw hbh]
        by_cases hx : x = e.2
        · rw [if_pos hx, hx]
          show (g.update_node e.2.1 e.2.2
            (fun n => { n with closed := some true })).nodes (e.2.1, e.2.2) = _
          rw [update_node_nodes_self _ _ _ _ hbw hbh]
        · rw [if_neg hx, update_node_nodes_ne _ _ _ _ x (by simpa using hx)]
      have h1closed : ∀ x, (g1.nodes x).closed =
          if x = e.2 then some true else (g.nodes x).closed := by
        intro x
        rw [h1nodes x]
        by_cases hx : x = e.2
        · rw [if_pos hx, if_pos hx]
        · rw [if_neg hx, if_neg hx]
      have h1opened : ∀ x, (g1.nodes x).opened = (g.nodes x).opened := by
        intro x
        rw [h1nodes x]
        by_cases hx : x = e.2
        · rw [if_pos hx, hx]
        · rw [if_neg hx]
      have h1g : ∀ x, (g1.nodes x).g = (g.nodes x).g := by
        intro x
        rw [h1nodes x]
        by_cases hx : x = e.2
        · rw [if_pos hx, hx]
        · rw [if_neg hx]
      have h1h : ∀ x, (g1.nodes x).h = (g.nodes x).h := by
        intro x
        rw [h1nodes x]
        by_cases hx : x = e.2
        · rw [if_pos hx, hx]
        · rw [if_neg hx]
      have h1parent : ∀ x, (g1.nodes x).parent = (g.nodes x).parent := by
        intro x
        rw [h1nodes x]
        by_cases hx : x = e.2
        · rw [if_pos hx, hx]
        · rw [if_neg hx]
      have h1pass : ∀ x, (g1.nodes x).passable = (g.nodes x).passable := by
        intro x
        rw [h1nodes x]
        by_cases hx : x = e.2
        · rw [if_pos hx, hx]
        · rw [if_neg hx]
      have h1pb : ∀ x, (g1.nodes x).passability = (g.nodes x).passability := by
        intro x
        rw [h1nodes x]
        by_cases hx : x = e.2
        · rw [if_pos hx, hx]
        · rw [if_neg hx]
      have h1W : g1.width = G.width := by
        rw [hg1def, set_node_closed_fst g e.2.1 e.2.2 true hbw hbh, update_node_width]
        exact core.static_w
      have h1H : g1.height = G.height := by
        rw [hg1def, set_node_closed_fst g e.2.1 e.2.2 true hbw hbh, update_node_height]
        exact core.static_h
      have h1cache : g1.neighbor_passable_nodes_cache = G.neighbor_passable_nodes_cache := by
        rw [hg1def, set_node_closed_fst g e.2.1 e.2.2 true hbw hbh, update_node_cache]
        exact core.static_cache
      have hqnd := core.q_nodup
      rw [List.map_cons, List.nodup_cons] at hqnd
      have hq0ne : ∀ e' ∈ q0, e'.2 ≠ e.2 := by
        intro e' he' h
        exact hqnd.1 (h ▸ List.mem_map_of_mem (fun x => x.2) he')
      have hcore1 : AStarCore G s hf ep.1 ep.2 g1 q0 := by
        refine ⟨h1W, h1H, fun x => (h1pass x).trans (core.static_pass x),
          fun x => (h1pb x).trans (core.static_pb x), h1cache,
          (List.pairwise_cons.mp core.sorted).2, hqnd.2, ?_, ?_, ?_, ?_, ?_, ?_, ?_, ?_,
          ?_, ?_, ?_⟩
        · intro e' he'
          have h4 := core.q_mem e' (List.mem_cons_of_mem _ he')
          have hne := hq0ne e' he'
          refine ⟨h4.1, ?_, ?_, ?_⟩
          · rw [h1opened]; exact h4.2.1
          · rw [h1closed, if_neg hne]; exact h4.2.2.1
          · rw [h1g]; exact h4.2.2.2
        · intro x hxb hxo hxc
          rw [h1opened] at hxo
          have hx : x ≠ e.2 := by
            intro h
            apply hxc
            rw [h1closed, if_pos h]
          rw [h1closed, if_neg hx] at hxc
          obtain ⟨e', he', hee⟩ := core.open_unclosed_in_q x hxb hxo hxc
          rcases List.mem_cons.mp he' with rfl | he2
          · exact absurd hee.symm hx
          · exact ⟨e', he2, hee⟩
        · intro x hxb hxc
          rw [h1closed] at hxc
          rw [h1opened]
          by_cases hx : x = e.2
          · rw [hx]; exact hpo
          · rw [if_neg hx] at hxc
            exact core.closed_opened x hxb hxc
        · intro x hxb hxo
          rw [h1opened] at hxo
          exact core.opened_passable x hxb hxo
        · intro x hxb hxo
          rw [h1opened] at hxo
          rw [h1g]
          exact core.opened_g_nonneg x hxb hxo
        · intro x hxb hxo hxs
          rw [h1opened] at hxo
          rw [h1h]
          exact core.opened_h x hxb hxo hxs
        · intro x hxb hxo
          rw [h1opened] at hxo
          have hx : x ≠ e.2 := by
            intro h
            rw [h] at hxo
            exact hxo hpo
          rw [h1h, h1parent, h1closed, if_neg hx]
          exact core.unopened_pristine x hxb hxo
        · rw [h1parent, h1g, h1opened]
          exact core.start_state
        · intro x hxb c' hc'
          rw [h1parent] at hc'
          obtain ⟨hb, hcl', hmem, hgeq, hne, hop⟩ := core.parent_rel x hxb c' hc'
          refine ⟨hb, ?_, hmem, ?_, hne, ?_⟩
          · rw [h1closed]
            by_cases hc'e : c' = e.2
            · rw [if_pos hc'e]
            · rw [if_neg hc'e]; exact hcl'
          · rw [h1g, h1g]; exact hgeq
          · rw [h1opened]; exact hop
        · intro x hxb hxo hxs
          rw [h1opened] at hxo
          rw [h1parent]
          exact core.opened_parent x hxb hxo hxs
        · intro x hxb hxo
          rw [h1opened] at hxo
          obtain ⟨lp, hlp, hlpc⟩ := core.opened_g_path x hxb hxo
          exact ⟨lp, hlp, by rw [h1g]; exact hlpc⟩
      by_cases hpt : e.2 ∈ terminal
      · -- terminal hit: return the backtrace
        obtain ⟨l, hbt, hpath, hcost⟩ := backtrace_spec G g1 s h1W h1H hpos
          (by
            intro x hxb c hc
            have h5 := hcore1.parent_rel x hxb c hc
            exact ⟨h5.1, h5.2.2.1, h5.2.2.2.1, h5.2.2.2.2.1,
              hcore1.closed_opened c h5.1 h5.2.1⟩)
          hcore1.opened_parent hcore1.start_state.2.1 e.2 hpb
          (by rw [h1opened]; exact hpo)
        refine ⟨g1, .ok l, ?_, Or.inl ⟨e.2, l, rfl, hpt, hpath, hcost, ?_⟩⟩
        · rw [astar_loop_cons hf terminal sp ep fuel g e q0 _ hge, if_pos hpt, ← hg1def,
            hbt]
        · intro ho l' hl'
          rw [h1g]
          exact popped_opt G s hf ep.1 ep.2 hpos (hHC ho) hs g e q0 hinv (hoi ho) l' hl'
      · -- not terminal: relax the cached passable neighbors and recurse
        have hcacheg1 : g1.neighbor_passable_nodes_cache (e.2.1, e.2.2) =
            some (pass_list G e.2) := by
          rw [h1cache]
          exact hcache e.2.1 hpb.1 e.2.2 hpb.2
        set nbs0 := (pass_list G e.2).map (fun c => (c, g1.nodes c)) with hnbs0def
        have hmm : (pass_list G e.2).mapM
            (fun c => (g1.get_node_at_point c).map (fun nd => (c, nd))) = some nbs0 := by
          rw [hnbs0def]
          exact mapM_eq_some_map _ (fun c => (c, g1.nodes c)) _ (fun c hc => by
            rw [get_node_at_point_eq g1 c
              ⟨by rw [h1W]; exact (mem_pass_list_in_bounds hc).1,
               by rw [h1H]; exact (mem_pass_list_in_bounds hc).2⟩]
            rfl)
        have hfetch : g1.get_neighbors_passable_nodes_from_cache e.2.1 e.2.2 =
            some (.ok nbs0) := by
          unfold TempSearchGrid.get_neighbors_passable_nodes_from_cache
          simp only [hcacheg1, hmm, Option.map_some']
        have hnbs0fst : nbs0.map (fun x => x.1) = pass_list G e.2 := by
          rw [hnbs0def]
          exact map_fst_pair _ _
        have hnb : ∀ x ∈ nbs0, x.1 ∈ pass_list G e.2 ∧ x.2 = g1.nodes x.1 := by
          intro x hx
          rw [hnbs0def] at hx
          obtain ⟨c, hc, rfl⟩ := List.mem_map.mp hx
          exact ⟨hc, rfl⟩
        have hnd : (nbs0.map (fun x => x.1)).Nodup := by
          rw [hnbs0fst]
          exact pass_list_nodup hW hH hpb
        have hp1closed : (g1.nodes e.2).closed = some true := by
          rw [h1closed, if_pos rfl]
        have hp1g : (g1.nodes e.2).g = (g.nodes e.2).g := h1g e.2
        have hopt2 : OPT → OptFold G s hf ep.1 ep.2 e.2 ((g.nodes e.2).g) g1 q0 := by
          intro ho
          refine ⟨core.opened_g_nonneg e.2 hpb hpo, ?_, ?_, ?_, ?_, ?_⟩
          · intro v hvb hvc
            rw [h1closed] at hvc
            by_cases hv : v = e.2
            · rw [h1g, hv]
            · rw [if_neg hv] at hvc
              rw [h1g]
              have := (hoi ho).closed_key_le v hvb hvc e (List.mem_cons_self _ _)
              rw [hpkey] at this
              exact this
          · intro v hvb hvc e' he'
            rw [h1closed] at hvc
            by_cases hv : v = e.2
            · rw [h1g, hv]
              have hord := (List.pairwise_cons.mp core.sorted).1 e' he'
              have := (core.q_mem e' (List.mem_cons_of_mem _ he')).2.2.2
              rw [hpkey] at hord
              exact hord
            · rw [if_neg hv] at hvc
              rw [h1g]
              exact (hoi ho).closed_key_le v hvb hvc e' (List.mem_cons_of_mem _ he')
          · intro v hvb hvc lv hlv
            rw [h1closed] at hvc
            by_cases hv : v = e.2
            · rw [h1g, hv]
              rw [hv] at hlv
              exact popped_opt G s hf ep.1 ep.2 hpos (hHC ho) hs g e q0 hinv (hoi ho) lv hlv
            · rw [if_neg hv] at hvc
              rw [h1g]
              exact (hoi ho).closed_opt v hvb hvc lv hlv
          · intro u hub huc hue v hv
            rw [h1closed, if_neg hue] at huc
            rw [h1g, h1g]
            exact (hoi ho).frontier_bound u hub huc v hv
          · intro u hub huc hue v hv
            rw [h1closed, if_neg hue] at huc
            rw [h1opened]
            exact hinv.closed_frontier u hub huc v hv
        obtain ⟨g3, q3, hfold, core3, h3closed, h3open, h3g, h3nbs, h3unch, h3opt⟩ :=
          astar_fold_spec G s hf ep.1 ep.2 hW hH hpos e.2 hpb ((g.nodes e.2).g) OPT hHC
            nbs0 g1 q0 hnb hnd hcore1 hp1closed hp1g hopt2
        have hself : e.2 ∉ nbs0.map (fun x => x.1) := by
          rw [hnbs0fst]
          intro h
          exact pass_list_ne hW hH hpb h rfl
        have hinv3 : AStarInv G s hf ep.1 ep.2 g3 q3 := by
          refine ⟨core3, ?_⟩
          intro u hub huc v hv
          rw [h3closed, h1closed] at huc
          by_cases hue : u = e.2
          · rw [hue] at hv
            have : (v, g1.nodes v) ∈ nbs0 := by
              rw [hnbs0def]
              exact List.mem_map_of_mem _ hv
            exact h3nbs (v, g1.nodes v) this
          · rw [if_neg hue] at huc
            apply h3open
            rw [h1opened]
            exact hinv.closed_frontier u hub huc v hv
        have hoi3 : OPT → AStarOptInv G s hf ep.1 ep.2 g3 q3 := by
          intro ho
          obtain ⟨of1, hper⟩ := h3opt ho
          refine ⟨of1.closed_opt, ?_, of1.queue_key⟩
          intro u hub huc v hv
          by_cases hue : u = e.2
          · rw [hue] at hv ⊢
            have hmem : (v, g1.nodes v) ∈ nbs0 := by
              rw [hnbs0def]
              exact List.mem_map_of_mem _ hv
            have h6 := hper (v, g1.nodes v) hmem
            have h7 : g3.nodes e.2 = g1.nodes e.2 := h3unch e.2 hself
            rw [h7, hp1g]
            exact h6
          · exact of1.frontier_bound_rest u hub huc hue v hv
        have hterm3 : ∀ t ∈ terminal, (g3.nodes t).closed ≠ some true := by
          intro t ht
          rw [h3closed, h1closed, if_neg (by rintro rfl; exact hpt ht)]
          exact hterm t ht
        have hfuel3 : unclosed_card G g3 < fuel := by
          have hc1 : unclosed_card G g1 < unclosed_card G g :=
            unclosed_card_close e.2 hpb hpcl h1closed
          have hc3 : unclosed_card G g3 = unclosed_card G g1 := unclosed_card_congr h3closed
          omega
        obtain ⟨g', r, heq, hres⟩ := ihL g3 q3 hinv3 hoi3 hterm3 hfuel3
        refine ⟨g', r, ?_, hres⟩
        rw [astar_loop_cons hf terminal sp ep fuel g e q0 _ hge, if_neg hpt, ← hg1def]
        simp only [hfetch, hfold]
        exact heq

/-! ## Properties of `reset` needed to transfer hypotheses -/

theorem reset_passable (g : TempSearchGrid) (p : Nat × Nat) :
    ((g.reset).nodes p).passable = (g.nodes p).passable := by
  show (if p.1 < g.width ∧ p.2 < g.height then (g.nodes p).reset else g.nodes p).passable = _
  by_cases h : p.1 < g.width ∧ p.2 < g.height
  · rw [if_pos h]; rfl
  · rw [if_neg h]

theorem reset_passability (g : TempSearchGrid) (p : Nat × Nat) :
    ((g.reset).nodes p).passability = (g.nodes p).passability := by
  show (if p.1 < g.width ∧ p.2 < g.height then (g.nodes p).reset
    else g.nodes p).passability = _
  by_cases h : p.1 < g.width ∧ p.2 < g.height
  · rw [if_pos h]; rfl
  · rw [if_neg h]

theorem reset_pass_list (g : TempSearchGrid) (p : Nat × Nat) :
    pass_list g.reset p = pass_list g p := by
  unfold pass_list TempSearchGrid.get_neighbors_passable_nodes
  apply List.filter_congr
  intro x _
  unfold TempSearchGrid.is_node_passable TempSearchGrid.is_node_inside
  rw [show g.reset.width = g.width from rfl, show g.reset.height = g.height from rfl,
    reset_passable g (x.1, x.2)]

theorem reset_step_cost (g : TempSearchGrid) (p : Nat × Nat) :
    step_cost g.reset p = step_cost g p := by
  unfold step_cost
  rw [reset_passability]

theorem reset_path_cost (g : TempSearchGrid) :
    ∀ l, path_cost g.reset l = path_cost g l := by
  intro l
  induction l with
  | nil => rfl
  | cons v vs ih => simp only [path_cost, reset_step_cost, ih]

theorem reset_valid_steps (g : TempSearchGrid) :
    ∀ l u, valid_steps g.reset u l = valid_steps g u l := by
  intro l
  induction l with
  | nil => intro u; rfl
  | cons v vs ih =>
    intro u
    simp only [valid_steps, reset_pass_list, ih]

theorem reset_is_path (g : TempSearchGrid) (l : List (Nat × Nat)) (s t : Nat × Nat) :
    is_path g.reset l s t ↔ is_path g l s t := by
  unfold is_path
  rw [reset_valid_steps]

theorem reset_reachable (g : TempSearchGrid) (s t : Nat × Nat) :
    reachable g.reset s t ↔ reachable g s t := by
  unfold reachable
  constructor
  · rintro ⟨l, hl⟩
    exact ⟨l, (reset_is_path g l s t).mp hl⟩
  · rintro ⟨l, hl⟩
    exact ⟨l, (reset_is_path g l s t).mpr hl⟩

theorem reset_cache_computed {g : TempSearchGrid} (h : passable_cache_computed g) :
    passable_cache_computed g.reset := by
  intro x hx y hy
  have h2 := h x hx y hy
  show g.neighbor_passable_nodes_cache (x, y) =
    some (g.reset.get_neighbors_passable_nodes x y)
  rw [show g.reset.get_neighbors_passable_nodes x y = pass_list g.reset (x, y) from rfl,
    reset_pass_list]
  exact h2

theorem reset_pos_passability {g : TempSearchGrid} (h : pos_passability g) :
    pos_passability g.reset := by
  intro x hx y hy hp
  have hx2 : x < g.width := hx
  have hy2 : y < g.height := hy
  rw [reset_passable g (x, y)] at hp
  rw [reset_passability g (x, y)]
  exact h x hx2 y hy2 hp

/-! ## The seeded initial state -/

theorem astar_init (G : TempSearchGrid) (s : Nat × Nat) (hf : Nat → Nat → Int → Int → ℚ)
    (e1 e2 : Int) (htc : transient_clear G) (hs : in_bounds G s)
    (hspass : (G.nodes s).passable = true) :
    AStarInv G s hf e1 e2
      (G.update_node s.1 s.2 (fun n => { n with f := 0, g := 0, opened := some true }))
      [((0 : ℚ), s.1, s.2)] ∧
    AStarOptInv G s hf e1 e2
      (G.update_node s.1 s.2 (fun n => { n with f := 0, g := 0, opened := some true }))
      [((0 : ℚ), s.1, s.2)] ∧
    (∀ t, in_bounds G t →
      ((G.update_node s.1 s.2
        (fun n => { n with f := 0, g := 0, opened := some true })).nodes t).closed ≠
        some true) ∧
    unclosed_card G
      (G.update_node s.1 s.2 (fun n => { n with f := 0, g := 0, opened := some true })) <
      G.width * G.height + 1 := by
  have hseta : ((s.1 : Nat), (s.2 : Nat)) = s := rfl
  set g1 := G.update_node s.1 s.2 (fun n => { n with f := 0, g := 0, opened := some true })
    with hg1def
  have h1nodes : ∀ x, g1.nodes x =
      if x = s then { G.nodes s with f := 0, g := 0, opened := some true } else G.nodes x := by
    intro x
    rw [hg1def]
    by_cases hx : x = s
    · rw [if_pos hx, hx]
      show (G.update_node s.1 s.2
        (fun n => { n with f := 0, g := 0, opened := some true })).nodes (s.1, s.2) = _
      rw [update_node_nodes_self _ _ _ _ hs.1 hs.2]
    · rw [if_neg hx, update_node_nodes_ne _ _ _ _ x (by simpa using hx)]
  have h1closed : ∀ x, (g1.nodes x).closed = (G.nodes x).closed := by
    intro x
    rw [h1nodes x]
    by_cases hx : x = s
    · rw [if_pos hx, hx]
    · rw [if_neg hx]
  have h1opened : ∀ x, (g1.nodes x).opened =
      if x = s then some true else (G.nodes x).opened := by
    intro x
    rw [h1nodes x]
    by_cases hx : x = s
    · rw [if_pos hx, if_pos hx]
    · rw [if_neg hx, if_neg hx]
  have h1g : ∀ x, (g1.nodes x).g = if x = s then 0 else (G.nodes x).g := by
    intro x
    rw [h1nodes x]
    by_cases hx : x = s
    · rw [if_pos hx, if_pos hx]
    · rw [if_neg hx, if_neg hx]
  have h1h : ∀ x, (g1.nodes x).h = (G.nodes x).h := by
    intro x
    rw [h1nodes x]
    by_cases hx : x = s
    · rw [if_pos hx, hx]
    · rw [if_neg hx]
  have h1parent : ∀ x, (g1.nodes x).parent = (G.nodes x).parent := by
    intro x
    rw [h1nodes x]
    by_cases hx : x = s
    · rw [if_pos hx, hx]
    · rw [if_neg hx]
  have h1pass : ∀ x, (g1.nodes x).passable = (G.nodes x).passable := by
    intro x
    rw [h1nodes x]
    by_cases hx : x = s
    · rw [if_pos hx, hx]
    · rw [if_neg hx]
  have h1pb : ∀ x, (g1.nodes x).passability = (G.nodes x).passability := by
    intro x
    rw [h1nodes x]
    by_cases hx : x = s
    · rw [if_pos hx, hx]
    · rw [if_neg hx]
  have h1W : g1.width = G.width := by rw [hg1def, update_node_width]
  have h1H : g1.height = G.height := by rw [hg1def, update_node_height]
  have h1cache : g1.neighbor_passable_nodes_cache = G.neighbor_passable_nodes_cache := by
    rw [hg1def, update_node_cache]
  have hnocl : ∀ x, in_bounds G x → (g1.nodes x).closed ≠ some true := by
    intro x hxb h
    rw [h1closed x] at h
    exact absurd h (by rw [(htc x hxb).2.2.2.1]; simp)
  have hopeneds : ∀ x, in_bounds G x → (g1.nodes x).opened = some true → x = s := by
    intro x hxb hxo
    by_contra hx
    rw [h1opened x, if_neg hx] at hxo
    rw [(htc x hxb).2.2.1] at hxo
    exact absurd hxo (by simp)
  refine ⟨⟨⟨h1W, h1H, h1pass, h1pb, h1cache, List.pairwise_singleton _ _, ?_, ?_, ?_, ?_,
    ?_, ?_, ?_, ?_, ?_, ?_, ?_, ?_⟩, ?_⟩, ⟨?_, ?_, ?_⟩, ?_, ?_⟩
  · simp
  · intro e he
    rw [List.mem_singleton] at he
    subst he
    refine ⟨hseta ▸ hs, ?_, hnocl _ (hseta ▸ hs), ?_⟩
    · show (g1.nodes (s.1, s.2)).opened = some true
      rw [hseta, h1opened s, if_pos rfl]
    · show (0 : ℚ) = (g1.nodes (s.1, s.2)).g + hval s hf e1 e2 (s.1, s.2)
      rw [hseta, h1g s, if_pos rfl, hval_self]
      norm_num
  · intro x hxb hxo _
    refine ⟨((0 : ℚ), s.1, s.2), List.mem_singleton.mpr rfl, ?_⟩
    show (s.1, s.2) = x
    rw [hseta]
    exact (hopeneds x hxb hxo).symm
  · intro x hxb hxc
    exact absurd hxc (hnocl x hxb)
  · intro x hxb hxo
    rw [hopeneds x hxb hxo]
    exact hspass
  · intro x hxb hxo
    rw [h1g x, if_pos (hopeneds x hxb hxo)]
  · intro x hxb hxo hxs
    exact absurd (hopeneds x hxb hxo) hxs
  · intro x hxb hxo
    have hx : x ≠ s := by
      intro h
      apply hxo
      rw [h1opened x, if_pos h]
    rw [h1h x, h1parent x, h1closed x]
    obtain ⟨_, hh, hop, hcl, hpar⟩ := htc x hxb
    refine ⟨hh, hpar, ?_⟩
    rw [hcl]
    simp
  · refine ⟨?_, ?_, ?_⟩
    · rw [h1parent s]
      exact (htc s hs).2.2.2.2
    · rw [h1g s, if_pos rfl]
    · rw [h1opened s, if_pos rfl]
  · intro x hxb c' hc'
    rw [h1parent x] at hc'
    by_cases hx : x = s
    · rw [hx, (htc s hs).2.2.2.2] at hc'
      exact absurd hc' (by simp)
    · rw [(htc x hxb).2.2.2.2] at hc'
      exact absurd hc' (by simp)
  · intro x hxb hxo hxs
    exact absurd (hopeneds x hxb hxo) hxs
  · intro x hxb hxo
    have hx := hopeneds x hxb hxo
    subst hx
    refine ⟨[x], ⟨by simp, rfl, by simp⟩, ?_⟩
    rw [h1g x, if_pos rfl]
    rfl
  · intro u hub huc v hv
    exact absurd huc (hnocl u hub)
  · intro v hvb hvc
    exact absurd hvc (hnocl v hvb)
  · intro u hub huc
    exact absurd huc (hnocl u hub)
  · intro v hvb hvc
    exact absurd hvc (hnocl v hvb)
  · intro t htb
    exact hnocl t htb
  · have : unclosed_card G g1 ≤ G.width * G.height := by
      calc unclosed_card G g1 ≤ (cell_finset G).card := Finset.card_filter_le _ _
        _ = G.width * G.height := cell_finset_card G
    omega

/-! ## Reduction of the path queries to the engine loop -/

theorem build_path_eq_engine (g : TempSearchGrid) (s t : Nat × Nat)
    (hs : in_bounds g s) (hspass : (g.nodes s).passable = true) (ht : in_bounds g t) :
    build_path_to_passable_hex g s t =
      calculate_path_by_algorithm g.reset ((s.1 : Int), (s.2 : Int))
        ((t.1 : Int), (t.2 : Int)) [t] := by
  unfold build_path_to_passable_hex
  have h1 : g.get_node_at_point s = some (g.nodes s) := get_node_at_point_eq g s hs
  have h2 : g.reset.get_node_at_point t = some (g.reset.nodes t) :=
    get_node_at_point_eq g.reset t ht
  simp only [h1, h2, hspass, Bool.not_true, Bool.false_eq_true, if_false]

theorem build_path_border_eq_engine (g : TempSearchGrid) (s t : Nat × Nat)
    (hs : in_bounds g s) (hspass : (g.nodes s).passable = true) (ht : in_bounds g t) :
    build_path_to_impassable_border_hex g s t =
      calculate_path_by_algorithm g.reset ((s.1 : Int), (s.2 : Int))
        ((t.1 : Int), (t.2 : Int)) [t] := by
  unfold build_path_to_impassable_border_hex
  have h1 : g.get_node_at_point s = some (g.nodes s) := get_node_at_point_eq g s hs
  have h2 : g.reset.get_node_at_point t = some (g.reset.nodes t) :=
    get_node_at_point_eq g.reset t ht
  simp only [h1, h2, hspass, Bool.not_true, Bool.false_eq_true, if_false]

theorem calculate_eq_loop (G : TempSearchGrid) (s : Nat × Nat) (ep : Int × Int)
    (terminal : List (Nat × Nat)) :
    calculate_path_by_algorithm G ((s.1 : Int), (s.2 : Int)) ep terminal =
      astar_loop (heuristic_for G) terminal ((s.1 : Int), (s.2 : Int)) ep
        (G.width * G.height + 1)
        (G.update_node s.1 s.2 (fun n => { n with f := 0, g := 0, opened := some true }))
        [((0 : ℚ), s.1, s.2)] := by
  unfold calculate_path_by_algorithm
  rw [if_pos (show (0 : Int) ≤ ((s.1 : Int), (s.2 : Int)).1 ∧
    (0 : Int) ≤ ((s.1 : Int), (s.2 : Int)).2 from
    ⟨Int.natCast_nonneg s.1, Int.natCast_nonneg s.2⟩)]
  simp only [Int.toNat_natCast]
  rfl

/-- C2: on a grid with computed passable-neighbor caches and positive
passability on passable cells, for every in-bounds passable start and
every in-bounds target reachable through passable cells, the path query
returns `Ok` with a coordinate list that starts at the start, ends at the
target, and in which every two consecutive coordinates are members of
each other's passable-neighbor lists. -/
theorem C2_find_path_valid (g : TempSearchGrid) (s t : Nat × Nat)
    (hW : g.width < USIZE) (hH : g.height < USIZE)
    (hcache : passable_cache_computed g) (hpos : pos_passability g)
    (hs : in_bounds g s) (hspass : (g.nodes s).passable = true)
    (ht : in_bounds g t) (hreach : reachable g s t) :
    ∃ gf l, build_path_to_passable_hex g s t = some (gf, .ok l) ∧
      l.head? = some s ∧ l.getLast? = some t ∧
      ∀ pr ∈ l.zip l.tail, pr.2 ∈ pass_list g pr.1 ∧ pr.1 ∈ pass_list g pr.2 := by
  have hGW : g.reset.width < USIZE := hW
  have hGH : g.reset.height < USIZE := hH
  have hGcache := reset_cache_computed hcache
  have hGpos := reset_pos_passability hpos
  have hGs : in_bounds g.reset s := hs
  have hGt : in_bounds g.reset t := ht
  have hGspass : (g.reset.nodes s).passable = true := by
    rw [reset_passable]; exact hspass
  obtain ⟨hinv0, hoi0, hnc0, hcard0⟩ := astar_init g.reset s (heuristic_for g.reset)
    (t.1 : Int) (t.2 : Int) (reset_transient_clear g) hGs hGspass
  obtain ⟨g', r, heq, hres⟩ := astar_loop_spec g.reset s (heuristic_for g.reset) [t]
    ((s.1 : Int), (s.2 : Int)) ((t.1 : Int), (t.2 : Int)) hGW hGH hGcache hGpos hGs
    False (fun h => h.elim) (g.reset.width * g.reset.height + 1) _ _ hinv0
    (fun h => h.elim)
    (by
      intro t' ht'
      rw [List.mem_singleton] at ht'
      subst ht'
      exact hnc0 t' hGt)
    hcard0
  rcases hres with ⟨p, l, hr, hpmem, hpath, _, _⟩ | ⟨hr, hunreach⟩
  · rw [List.mem_singleton] at hpmem
    subst hpmem
    have hpath2 := (reset_is_path g l s p).mp hpath
    obtain ⟨hh, hv, hlast⟩ := hpath2
    refine ⟨g', l, ?_, hh, hlast, ?_⟩
    · rw [build_path_eq_engine g s p hs hspass ht, calculate_eq_loop, heq, hr]
    · intro pr hpr
      match l, hh, hv, hlast, hpr with
      | s0 :: tl, hh, hv, hlast, hpr =>
      simp only [List.head?_cons, Option.some.injEq] at hh
      subst hh
      rw [List.tail_cons] at hv hpr
      have h1 : pr.2 ∈ pass_list g pr.1 := valid_steps_zip hv pr hpr
      have hmem := List.mem_zip hpr
      have h2 : in_bounds g pr.1 ∧ (g.nodes pr.1).passable = true := by
        rcases List.mem_cons.mp hmem.1 with heq2 | hmem2
        · rw [heq2]
          exact ⟨hs, hspass⟩
        · exact valid_steps_mem hv hmem2
      exact ⟨h1, pass_list_symm hW hH h2.1 h2.2 h1⟩
  · exfalso
    exact hunreach t (List.mem_singleton.mpr rfl) ((reset_reachable g s t).mpr hreach)

/-- C2 witness: on the all-passable 3×3 parity-0 grid, the query from
(0, 0) to the reachable (2, 2) returns a valid neighbor-linked path. -/
theorem C2_find_path_valid_witness :
    ∃ gf l, build_path_to_passable_hex g33 (0, 0) (2, 2) = some (gf, .ok l) ∧
      l.head? = some (0, 0) ∧ l.getLast? = some (2, 2) ∧
      ∀ pr ∈ l.zip l.tail, pr.2 ∈ pass_list g33 pr.1 ∧ pr.1 ∈ pass_list g33 pr.2 :=
  C2_find_path_valid g33 (0, 0) (2, 2) (by decide) (by decide)
    (by unfold passable_cache_computed; decide) (by unfold pos_passability; decide)
    (by decide) (by decide) (by decide)
    ⟨[(0, 0), (0, 1), (1, 1), (2, 2)], rfl, by decide, rfl⟩

/-- C7: on a grid with computed passable-neighbor caches and positive
passability on passable cells, for every in-bounds passable start and
every in-bounds target with no path through passable cells from the
start, the path query fails with `PathNotFound` carrying the start and
target coordinates; no path is returned. -/
theorem C7_unreachable_path_not_found (g : TempSearchGrid) (s t : Nat × Nat)
    (hW : g.width < USIZE) (hH : g.height < USIZE)
    (hcache : passable_cache_computed g) (hpos : pos_passability g)
    (hs : in_bounds g s) (hspass : (g.nodes s).passable = true)
    (ht : in_bounds g t) (hunreach : ¬ reachable g s t) :
    ∃ gf, build_path_to_passable_hex g s t = some (gf,
      .error (.pathNotFound ((s.1 : Int), (s.2 : Int)) ((t.1 : Int), (t.2 : Int)))) := by
  have hGW : g.reset.width < USIZE := hW
  have hGH : g.reset.height < USIZE := hH
  have hGcache := reset_cache_computed hcache
  have hGpos := reset_pos_passability hpos
  have hGs : in_bounds g.reset s := hs
  have hGt : in_bounds g.reset t := ht
  have hGspass : (g.reset.nodes s).passable = true := by
    rw [reset_passable]; exact hspass
  obtain ⟨hinv0, hoi0, hnc0, hcard0⟩ := astar_init g.reset s (heuristic_for g.reset)
    (t.1 : Int) (t.2 : Int) (reset_transient_clear g) hGs hGspass
  obtain ⟨g', r, heq, hres⟩ := astar_loop_spec g.reset s (heuristic_for g.reset) [t]
    ((s.1 : Int), (s.2 : Int)) ((t.1 : Int), (t.2 : Int)) hGW hGH hGcache hGpos hGs
    False (fun h => h.elim) (g.reset.width * g.reset.height + 1) _ _ hinv0
    (fun h => h.elim)
    (by
      intro t' ht'
      rw [List.mem_singleton] at ht'
      subst ht'
      exact hnc0 t' hGt)
    hcard0
  rcases hres with ⟨p, l, hr, hpmem, hpath, _, _⟩ | ⟨hr, _⟩
  · exfalso
    rw [List.mem_singleton] at hpmem
    subst hpmem
    exact hunreach ((reset_reachable g s p).mp ⟨l, hpath⟩)
  · refine ⟨g', ?_⟩
    rw [build_path_eq_engine g s t hs hspass ht, calculate_eq_loop, heq, hr]

/-- C7 witness: on the 2×1 grid whose only passable cell is the start
(0, 0), the query to the enclosed impassable cell (1, 0) fails with
`PathNotFound` carrying both coordinates. -/
theorem C7_unreachable_path_not_found_witness :
    ∃ gf, build_path_to_passable_hex gWall (0, 0) (1, 0) = some (gf,
      .error (.pathNotFound ((0 : Int), (0 : Int)) ((1 : Int), (0 : Int)))) :=
  C7_unreachable_path_not_found gWall (0, 0) (1, 0) (by decide) (by decide)
    (by unfold passable_cache_computed; decide) (by unfold pos_passability; decide)
    (by decide) (by decide) (by decide)
    (fun hr => by
      rcases reachable_passable hr with h | h
      · exact absurd h (by decide)
      · exact absurd h.2 (by decide))

/-- C10: on a grid with computed passable-neighbor caches and positive
passability on passable cells, for every in-bounds passable start and
every in-bounds impassable target, `build_path_to_impassable_border_hex`
— whose terminal set is the single impassable target cell — always fails
with `PathNotFound`: the impassable target is unreachable through
passable cells, so the loop exhausts the queue. -/
theorem C10_impassable_target_not_found (g : TempSearchGrid) (s t : Nat × Nat)
    (hW : g.width < USIZE) (hH : g.height < USIZE)
    (hcache : passable_cache_computed g) (hpos : pos_passability g)
    (hs : in_bounds g s) (hspass : (g.nodes s).passable = true)
    (ht : in_bounds g t) (htimp : (g.nodes t).passable = false) :
    ∃ gf, build_path_to_impassable_border_hex g s t = some (gf,
      .error (.pathNotFound ((s.1 : Int), (s.2 : Int)) ((t.1 : Int), (t.2 : Int)))) := by
  have hunreach : ¬ reachable g s t := by
    intro hr
    rcases reachable_passable hr with h | h
    · rw [h, hspass] at htimp
      cases htimp
    · rw [htimp] at h
      cases h.2
  have hGW : g.reset.width < USIZE := hW
  have hGH : g.reset.height < USIZE := hH
  have hGcache := reset_cache_computed hcache
  have hGpos := reset_pos_passability hpos
  have hGs : in_bounds g.reset s := hs
  have hGt : in_bounds g.reset t := ht
  have hGspass : (g.reset.nodes s).passable = true := by
    rw [reset_passable]; exact hspass
  obtain ⟨hinv0, hoi0, hnc0, hcard0⟩ := astar_init g.reset s (heuristic_for g.reset)
    (t.1 : Int) (t.2 : Int) (reset_transient_clear g) hGs hGspass
  obtain ⟨g', r, heq, hres⟩ := astar_loop_spec g.reset s (heuristic_for g.reset) [t]
    ((s.1 : Int), (s.2 : Int)) ((t.1 : Int), (t.2 : Int)) hGW hGH hGcache hGpos hGs
    False (fun h => h.elim) (g.reset.width * g.reset.height + 1) _ _ hinv0
    (fun h => h.elim)
    (by
      intro t' ht'
      rw [List.mem_singleton] at ht'
      subst ht'
      exact hnc0 t' hGt)
    hcard0
  rcases hres with ⟨p, l, hr, hpmem, hpath, _, _⟩ | ⟨hr, _⟩
  · exfalso
    rw [List.mem_singleton] at hpmem
    subst hpmem
    exact hunreach ((reset_reachable g s p).mp ⟨l, hpath⟩)
  · refine ⟨g', ?_⟩
    rw [build_path_border_eq_engine g s t hs hspass ht, calculate_eq_loop, heq, hr]

/-- C10 witness: on the 2×1 grid with passable start (0, 0) and
impassable target (1, 0), `build_path_to_impassable_border_hex` fails
with `PathNotFound` carrying both coordinates. -/
theorem C10_impassable_target_not_found_witness :
    ∃ gf, build_path_to_impassable_border_hex gWall (0, 0) (1, 0) = some (gf,
      .error (.pathNotFound ((0 : Int), (0 : Int)) ((1 : Int), (0 : Int)))) :=
  C10_impassable_target_not_found gWall (0, 0) (1, 0) (by decide) (by decide)
    (by unfold passable_cache_computed; decide) (by unfold pos_passability; decide)
    (by decide) (by decide) (by decide) (by decide)

/-! ## Consistency of the odd-q heuristic -/

theorem hex_tri2 (A B Ya Yb E F : ℚ)
    (h : |B - A| + |(B - A) + (Yb - Ya)| + |Yb - Ya| ≤ 2) :
    (|A - E| + |A + Ya - E - F| + |Ya - F|) / 2 ≤
      1 + (|B - E| + |B + Yb - E - F| + |Yb - F|) / 2 := by
  have h1 : |A - E| ≤ |B - E| + |B - A| := by
    have := abs_sub (B - E) (B - A)
    rw [show (B - E) - (B - A) = A - E by ring] at this
    exact this
  have h2 : |A + Ya - E - F| ≤ |B + Yb - E - F| + |(B - A) + (Yb - Ya)| := by
    have := abs_sub (B + Yb - E - F) ((B - A) + (Yb - Ya))
    rw [show (B + Yb - E - F) - ((B - A) + (Yb - Ya)) = A + Ya - E - F by ring] at this
    exact this
  have h3 : |Ya - F| ≤ |Yb - F| + |Yb - Ya| := by
    have := abs_sub (Yb - F) (Yb - Ya)
    rw [show (Yb - F) - (Yb - Ya) = Ya - F by ring] at this
    exact this
  linarith

theorem heurOK_odd (G : TempSearchGrid) (hW : G.width < USIZE) (hH : G.height < USIZE)
    (hpos : pos_passability G) (hunit : unit_bounded_passability G)
    (hinc : G.odd_increment = 0) (e1 e2 : Int) :
    HeurOK G heuristic_odd_q e1 e2 := by
  constructor
  · intro a _
    unfold heuristic_odd_q
    positivity
  · intro a ha b hb
    have hstep1 : 1 ≤ step_cost G b := by
      have hbin := mem_pass_list_in_bounds hb
      have hbp := mem_pass_list_passable hb
      have h0 := hpos b.1 hbin.1 b.2 hbin.2 hbp
      have h1 := hunit b.1 hbin.1 b.2 hbin.2 hbp
      unfold step_cost
      rw [le_div_iff h0, one_mul]
      exact h1
    suffices hmain : heuristic_odd_q a.1 a.2 e1 e2 ≤ 1 + heuristic_odd_q b.1 b.2 e1 e2 by
      linarith
    have hbn : (b.1, b.2) ∈ G.get_neighbor_nodes a.1 a.2 :=
      ((mem_passable_iff_neighbor G a.1 a.2 b).mp hb).1
    have hmem := ((mem_neighbor_char hW hH ha.1 ha.2 b.1 b.2).mp hbn).1
    rw [hinc] at hmem
    unfold spec_neighbor_candidates at hmem
    unfold heuristic_odd_q
    by_cases hpar : a.1 % 2 = 0
    · rw [if_pos (show (((a.1 : Nat) : Int) + ((0 : Nat) : Int)) % 2 = 0 by omega)] at hmem
      simp only [List.mem_append, List.mem_cons, List.not_mem_nil, or_false,
        Prod.mk.injEq, or_assoc] at hmem
      have hma : ((a.1 % 2 : Nat) : ℚ) = 0 := by rw [hpar]; norm_num
      rcases hmem with ⟨h1, h2⟩ | ⟨h1, h2⟩ | ⟨h1, h2⟩ | ⟨h1, h2⟩ | ⟨h1, h2⟩ | ⟨h1, h2⟩
      · -- (x, y - 1)
        have hn1 : b.1 = a.1 := by omega
        have hn2 : a.2 = b.2 + 1 := by omega
        have hmb : ((b.1 % 2 : Nat) : ℚ) = 0 := by
          rw [show b.1 % 2 = 0 by omega]; norm_num
        apply hex_tri2
        rw [hma, hmb, hn1, hn2]
        push_cast
        ring_nf
        norm_num [abs_zero, abs_neg, abs_one]
      · -- (x, y + 1)
        have hn1 : b.1 = a.1 := by omega
        have hn2 : b.2 = a.2 + 1 := by omega
        have hmb : ((b.1 % 2 : Nat) : ℚ) = 0 := by
          rw [show b.1 % 2 = 0 by omega]; norm_num
        apply hex_tri2
        rw [hma, hmb, hn1, hn2]
        push_cast
        ring_nf
        norm_num [abs_zero, abs_neg, abs_one]
      · -- (x + 1, y - 1)
        have hn1 : b.1 = a.1 + 1 := by omega
        have hn2 : a.2 = b.2 + 1 := by omega
        have hmb : ((b.1 % 2 : Nat) : ℚ) = 1 := by
          rw [show b.1 % 2 = 1 by omega]; norm_num
        apply hex_tri2
        rw [hma, hmb, hn1, hn2]
        push_cast
        ring_nf
        norm_num
      · -- (x - 1, y - 1)
        have hn1 : a.1 = b.1 + 1 := by omega
        have hn2 : a.2 = b.2 + 1 := by omega
        have hmb : ((b.1 % 2 : Nat) : ℚ) = 1 := by
          rw [show b.1 % 2 = 1 by omega]; norm_num
        apply hex_tri2
        rw [hma, hmb, hn1, hn2]
        push_cast
        ring_nf
        norm_num
      · -- (x + 1, y)
        have hn1 : b.1 = a.1 + 1 := by omega
        have hn2 : b.2 = a.2 := by omega
        have hmb : ((b.1 % 2 : Nat) : ℚ) = 1 := by
          rw [show b.1 % 2 = 1 by omega]; norm_num
        apply hex_tri2
        rw [hma, hmb, hn1, hn2]
        push_cast
        ring_nf
        norm_num
      · -- (x - 1, y)
        have hn1 : a.1 = b.1 + 1 := by omega
        have hn2 : b.2 = a.2 := by omega
        have hmb : ((b.1 % 2 : Nat) : ℚ) = 1 := by
          rw [show b.1 % 2 = 1 by omega]; norm_num
        apply hex_tri2
        rw [hma, hmb, hn1, hn2]
        push_cast
        ring_nf
        norm_num
    · rw [if_neg (show ¬ (((a.1 : Nat) : Int) + ((0 : Nat) : Int)) % 2 = 0 by omega)] at hmem
      simp only [List.mem_append, List.mem_cons, List.not_mem_nil, or_false,
        Prod.mk.injEq, or_assoc] at hmem
      have hma : ((a.1 % 2 : Nat) : ℚ) = 1 := by
        rw [show a.1 % 2 = 1 by omega]; norm_num
      rcases hmem with ⟨h1, h2⟩ | ⟨h1, h2⟩ | ⟨h1, h2⟩ | ⟨h1, h2⟩ | ⟨h1, h2⟩ | ⟨h1, h2⟩
      · -- (x, y - 1)
        have hn1 : b.1 = a.1 := by omega
        have hn2 : a.2 = b.2 + 1 := by omega
        have hmb : ((b.1 % 2 : Nat) : ℚ) = 1 := by
          rw [show b.1 % 2 = 1 by omega]; norm_num
        apply hex_tri2
        rw [hma, hmb, hn1, hn2]
        push_cast
        ring_nf
        norm_num [abs_zero, abs_neg, abs_one]
      · -- (x, y + 1)
        have hn1 : b.1 = a.1 := by omega
        have hn2 : b.2 = a.2 + 1 := by omega
        have hmb : ((b.1 % 2 : Nat) : ℚ) = 1 := by
          rw [show b.1 % 2 = 1 by omega]; norm_num
        apply hex_tri2
        rw [hma, hmb, hn1, hn2]
        push_cast
        ring_nf
        norm_num [abs_zero, abs_neg, abs_one]
      · -- (x + 1, y)
        have hn1 : b.1 = a.1 + 1 := by omega
        have hn2 : b.2 = a.2 := by omega
        have hmb : ((b.1 % 2 : Nat) : ℚ) = 0 := by
          rw [show b.1 % 2 = 0 by omega]; norm_num
        apply hex_tri2
        rw [hma, hmb, hn1, hn2]
        push_cast
        ring_nf
        norm_num
      · -- (x + 1, y + 1)
        have hn1 : b.1 = a.1 + 1 := by omega
        have hn2 : b.2 = a.2 + 1 := by omega
        have hmb : ((b.1 % 2 : Nat) : ℚ) = 0 := by
          rw [show b.1 % 2 = 0 by omega]; norm_num
        apply hex_tri2
        rw [hma, hmb, hn1, hn2]
        push_cast
        ring_nf
        norm_num
      · -- (x - 1, y + 1)
        have hn1 : a.1 = b.1 + 1 := by omega
        have hn2 : b.2 = a.2 + 1 := by omega
        have hmb : ((b.1 % 2 : Nat) : ℚ) = 0 := by
          rw [show b.1 % 2 = 0 by omega]; norm_num
        apply hex_tri2
        rw [hma, hmb, hn1, hn2]
        push_cast
        ring_nf
        norm_num
      · -- (x - 1, y)
        have hn1 : a.1 = b.1 + 1 := by omega
        have hn2 : b.2 = a.2 := by omega
        have hmb : ((b.1 % 2 : Nat) : ℚ) = 0 := by
          rw [show b.1 % 2 = 0 by omega]; norm_num
        apply hex_tri2
        rw [hma, hmb, hn1, hn2]
        push_cast
        ring_nf
        norm_num

theorem reset_unit_bounded {g : TempSearchGrid} (h : unit_bounded_passability g) :
    unit_bounded_passability g.reset := by
  intro x hx y hy hp
  have hx2 : x < g.width := hx
  have hy2 : y < g.height := hy
  rw [reset_passable g (x, y)] at hp
  rw [reset_passability g (x, y)]
  exact h x hx2 y hy2 hp

/-- Amended C1: with the parity configuration the odd-q heuristic is
written for (`odd_increment = 0`) and per-cell weights in (0, 1] — so
every step cost is at least one and the step-count heuristic is
consistent — the A* engine returns a minimum-cost path among all paths
through passable cells from the start to the target. -/
theorem C1_optimal_path (g : TempSearchGrid) (s t : Nat × Nat)
    (hW : g.width < USIZE) (hH : g.height < USIZE)
    (hcache : passable_cache_computed g) (hpos : pos_passability g)
    (hunit : unit_bounded_passability g) (hinc : g.odd_increment = 0)
    (hs : in_bounds g s) (hspass : (g.nodes s).passable = true)
    (ht : in_bounds g t) (hreach : reachable g s t) :
    ∃ gf l, build_path_to_passable_hex g s t = some (gf, .ok l) ∧
      is_path g l s t ∧
      ∀ l', is_path g l' s t → path_cost g l.tail ≤ path_cost g l'.tail := by
  have hGW : g.reset.width < USIZE := hW
  have hGH : g.reset.height < USIZE := hH
  have hGcache := reset_cache_computed hcache
  have hGpos := reset_pos_passability hpos
  have hGunit := reset_unit_bounded hunit
  have hGinc : g.reset.odd_increment = 0 := hinc
  have hGs : in_bounds g.reset s := hs
  have hGt : in_bounds g.reset t := ht
  have hGspass : (g.reset.nodes s).passable = true := by
    rw [reset_passable]; exact hspass
  have hhf : heuristic_for g.reset = heuristic_odd_q := by
    unfold heuristic_for
    rw [if_neg (by rw [hGinc]; exact fun h => h rfl)]
  have hHC : True → HeurOK g.reset (heuristic_for g.reset) (t.1 : Int) (t.2 : Int) := by
    intro _
    rw [hhf]
    exact heurOK_odd g.reset hGW hGH hGpos hGunit hGinc (t.1 : Int) (t.2 : Int)
  obtain ⟨hinv0, hoi0, hnc0, hcard0⟩ := astar_init g.reset s (heuristic_for g.reset)
    (t.1 : Int) (t.2 : Int) (reset_transient_clear g) hGs hGspass
  obtain ⟨g', r, heq, hres⟩ := astar_loop_spec g.reset s (heuristic_for g.reset) [t]
    ((s.1 : Int), (s.2 : Int)) ((t.1 : Int), (t.2 : Int)) hGW hGH hGcache hGpos hGs
    True hHC (g.reset.width * g.reset.height + 1) _ _ hinv0
    (fun _ => hoi0)
    (by
      intro t' ht'
      rw [List.mem_singleton] at ht'
      subst ht'
      exact hnc0 t' hGt)
    hcard0
  rcases hres with ⟨p, l, hr, hpmem, hpath, hcost, hopt⟩ | ⟨hr, hunreach⟩
  · rw [List.mem_singleton] at hpmem
    subst hpmem
    refine ⟨g', l, ?_, (reset_is_path g l s p).mp hpath, ?_⟩
    · rw [build_path_eq_engine g s p hs hspass ht, calculate_eq_loop, heq, hr]
    · intro l' hl'
      have h1 := hopt trivial l' ((reset_is_path g l' s p).mpr hl')
      rw [← hcost] at h1
      rw [← reset_path_cost g l.tail, ← reset_path_cost g l'.tail]
      exact h1
  · exfalso
    exact hunreach t (List.mem_singleton.mpr rfl) ((reset_reachable g s t).mpr hreach)

/-- C1 witness: the optimality statement instantiated on the all-passable
weight-1 3×3 parity-0 grid from (0, 0) to (2, 2). -/
theorem C1_optimal_path_witness :
    ∃ gf l, build_path_to_passable_hex g33 (0, 0) (2, 2) = some (gf, .ok l) ∧
      is_path g33 l (0, 0) (2, 2) ∧
      ∀ l', is_path g33 l' (0, 0) (2, 2) →
        path_cost g33 l.tail ≤ path_cost g33 l'.tail :=
  C1_optimal_path g33 (0, 0) (2, 2) (by decide) (by decide)
    (by unfold passable_cache_computed; decide) (by unfold pos_passability; decide)
    (by unfold unit_bounded_passability; decide) (by decide)
    (by decide) (by decide) (by decide)
    ⟨[(0, 0), (0, 1), (1, 1), (2, 2)], rfl, by decide, rfl⟩

set_option maxRecDepth 100000

unseal Rat.add Rat.mul Rat.inv Rat.sub in
/-- C1 counterexample: the grid `gCex` satisfies every hypothesis of the
original claim — computed caches, positive passability, passable start
(0, 2), target (2, 2) reachable through passable cells — yet the engine
returns the direct path of cost 11 while the cheap-corridor path through
the same grid costs 39/8 < 11: with a weight above 1 (step cost 1/8 below
one hex step) the step-count heuristic overestimates and A* is not
optimal.  The returned cost is therefore not the minimum over all paths
through passable cells. -/
theorem C1_counterexample :
    passable_cache_computed gCex ∧ pos_passability gCex ∧
    in_bounds gCex (0, 2) ∧ (gCex.nodes (0, 2)).passable = true ∧
    in_bounds gCex (2, 2) ∧
    is_path gCex ((0, 2) :: cex_cheap_path_tail) (0, 2) (2, 2) ∧
    (build_path_to_passable_hex gCex (0, 2) (2, 2)).map (fun st => st.2) =
      some (.ok [(0, 2), (1, 2), (2, 2)]) ∧
    path_cost gCex [(1, 2), (2, 2)] = 11 ∧
    path_cost gCex cex_cheap_path_tail = 39 / 8 ∧
    ¬ (path_cost gCex [(1, 2), (2, 2)] ≤ path_cost gCex cex_cheap_path_tail) := by
  refine ⟨?_, ?_, by decide, by decide, by decide, ?_, by decide, by decide, by decide,
    by decide⟩
  · unfold passable_cache_computed
    decide
  · unfold pos_passability
    decide
  · exact ⟨rfl, by decide, rfl⟩
